import Mathlib

/-!
# The Wayland protocol scanner: model builder, planner and emitters

A shallow embedding of `src/scanner.c`.

Modelling conventions.

* A C string is a `String` whose characters stand for its bytes, the terminating zero
  byte left out (XML text holds no zero byte); a `char *` that may be `NULL`, or that is
  never assigned, is an `Option String`.
* An intrusive `wl_list` is a `List`; `wl_list_insert(list.prev, elm)` appends at the end.
* `int` flags are `Bool`; `int` counters that are never negative are `Nat` (a document
  would need `2^31` `arg` elements before one of them leaves the range of `int`).
* `fail` and the other calls of `exit(EXIT_FAILURE)` are the error `error.fail msg`; a
  dereference of a `NULL` or never-assigned pointer is the error `error.undefined`.
* A pointer into the model (`ctx->interface`, `ctx->message`, `ctx->enumeration`) is the
  position of its target in the lists that own it.
* Storage returned by `malloc` has indeterminate contents: the fields of a `message` that
  the builder never assigns take their values from an `uninit` record that the caller
  supplies.
* `printf` appends to the text a function returns. An emitter that can call `exit` or
  whose behaviour can be undefined returns `Except stop String`; the text printed before
  an `exit` is kept in the `stop`.
-/

namespace Scanner

/-! ## Data model -/

def WAYLAND_NS : String := "http://wayland.freedesktop.org/protocol"

def WAYLAND_CLIENT_NS : String := "http://wayland.freedesktop.org/protocol/client"

inductive arg_type where
  | INVALID
  | NEW_ID
  | INT
  | UNSIGNED
  | STRING
  | OBJECT
  | ARRAY
  | FLAGS
  | FD
  | DOUBLE
  deriving DecidableEq, Repr

structure property where
  name : String
  uppercase_name : String
  type : arg_type
  writable : Bool
  change_notify : Bool
  deriving DecidableEq, Repr

structure arg where
  name : String
  type : arg_type
  interface_name : Option String
  deriving DecidableEq, Repr

structure message where
  name : String
  uppercase_name : String
  arg_list : List arg
  property : Option property
  arg_count : Nat
  type_index : Nat
  all_null : Bool
  destructor : Bool
  client_custom : Bool
  deriving DecidableEq, Repr

structure entry where
  name : String
  uppercase_name : String
  value : String
  deriving DecidableEq, Repr

structure enumeration where
  name : String
  uppercase_name : String
  entry_list : List entry
  deriving DecidableEq, Repr

structure interface where
  name : String
  uppercase_name : String
  version : Int
  client_custom : Bool
  client_global : Bool
  request_list : List message
  event_list : List message
  enumeration_list : List enumeration
  property_list : List property
  deriving DecidableEq, Repr

structure protocol where
  name : Option String
  uppercase_name : Option String
  interface_list : List interface
  type_index : Nat
  null_run_length : Nat
  copyright : Option String
  deriving DecidableEq, Repr

/-- The parse context. `message` is `(interface position, in the event list?, position in
that list)`; `enumeration` is `(interface position, position in its enumeration list)`.
`character_data` is the content of the 8192-byte buffer from offset 0. -/
structure parse_context where
  protocol : protocol
  interface : Option Nat
  message : Option (Nat × Bool × Nat)
  enumeration : Option (Nat × Nat)
  character_data : List Char
  character_data_length : Int
  deriving DecidableEq, Repr

/-- The indeterminate contents of a freshly allocated `struct message`, for the fields
that `start_element` may leave unassigned. (`type_index` and `all_null` are written by the
planning loops of `emit_code` before anything reads them.) -/
structure uninit where
  type_index : Nat
  all_null : Bool
  destructor : Bool
  client_custom : Bool
  deriving DecidableEq, Repr

inductive error where
  | fail (msg : String)
  | undefined
  deriving DecidableEq, Repr

/-! ## Model builder -/

/-- The function `uppercase_dup`: `toupper` on every byte (C locale). -/
def uppercase_dup (src : String) : String :=
  String.mk (src.data.map Char.toUpper)

def type_from_string (type : String) : arg_type :=
  if type = "int" then arg_type.INT
  else if type = "uint" then arg_type.UNSIGNED
  else if type = "string" then arg_type.STRING
  else if type = "array" then arg_type.ARRAY
  else if type = "fd" then arg_type.FD
  else if type = "double" then arg_type.DOUBLE
  else arg_type.INVALID

/-- The function `make_arg`. Both `strdup(name)` and `strcmp(type, ...)` dereference their
argument, so a `NULL` name or type is undefined. The field `interface_name` stays
unassigned for the six plain types. -/
def make_arg (name type interface_name : Option String) : Except error arg :=
  match name with
  | none => .error error.undefined
  | some name =>
    match type with
    | none => .error error.undefined
    | some type =>
      if type_from_string type ≠ arg_type.INVALID then
        .ok { name := name, type := type_from_string type, interface_name := none }
      else if type = "new_id" then
        match interface_name with
        | none => .error (error.fail "no interface name given")
        | some n => .ok { name := name, type := arg_type.NEW_ID, interface_name := some n }
      else if type = "object" then
        match interface_name with
        | none => .error (error.fail "no interface name given")
        | some n => .ok { name := name, type := arg_type.OBJECT, interface_name := some n }
      else
        .error (error.fail "unknown type")

def isspace (c : Char) : Bool :=
  c = ' ' || c = '\t' || c = '\n' || c = Char.ofNat 11 || c = Char.ofNat 12 || c = '\r'

def atoi_digits : List Char → Int → Int
  | [], acc => acc
  | c :: cs, acc =>
    if c.isDigit then atoi_digits cs (acc * 10 + ((c.toNat : Int) - 48)) else acc

/-- The C library's `atoi`, as glibc computes it: `(int) strtol(nptr, NULL, 10)`, where
`strtol` skips white space, reads an optional sign and the decimal digits, and clamps to
the range of `long`; the conversion to `int` keeps the low 32 bits. -/
def atoi (nptr : String) : Int :=
  let cs := nptr.data.dropWhile isspace
  let v : Int :=
    match cs with
    | '-' :: r => - atoi_digits r 0
    | '+' :: r => atoi_digits r 0
    | r => atoi_digits r 0
  let l : Int := max (-(2 ^ 63)) (min (2 ^ 63 - 1) v)
  (l + 2 ^ 31) % 2 ^ 32 - 2 ^ 31

/-- The local variables that the attribute loop of `start_element` fills in. -/
structure attributes where
  name : Option String
  type : Option String
  version : Int
  interface_name : Option String
  value : Option String
  client_custom : Bool
  client_global : Bool
  writable : Bool
  change_notify : Bool
  deriving DecidableEq, Repr

/-- One iteration of the attribute loop of `start_element`: nine independent `if`
statements, each of which assigns one local of its own. -/
def parse_attribute (l : attributes) (kv : String × String) : attributes :=
  { name := if kv.1 = "name" then some kv.2 else l.name
    version := if kv.1 = "version" then atoi kv.2 else l.version
    type := if kv.1 = "type" then some kv.2 else l.type
    value := if kv.1 = "value" then some kv.2 else l.value
    interface_name := if kv.1 = "interface" then some kv.2 else l.interface_name
    change_notify := if kv.1 = "change-notify" then kv.2 = "yes" else l.change_notify
    writable := if kv.1 = "writable" then kv.2 = "yes" else l.writable
    client_custom :=
      if kv.1 = WAYLAND_CLIENT_NS ++ "#custom" then kv.2 = "yes" else l.client_custom
    client_global :=
      if kv.1 = WAYLAND_CLIENT_NS ++ "#global" then kv.2 = "yes" else l.client_global }

/-- The attribute loop of `start_element`, over the key/value pairs of `atts`. -/
def parse_attributes (atts : List (String × String)) : attributes :=
  atts.foldl parse_attribute
    { name := none, type := none, version := 0, interface_name := none, value := none,
      client_custom := false, client_global := false, writable := false,
      change_notify := false }

/-- Dereference `ctx->interface`. -/
def current_interface (ctx : parse_context) : Except error (Nat × interface) :=
  match ctx.interface with
  | none => .error error.undefined
  | some ii =>
    match ctx.protocol.interface_list[ii]? with
    | none => .error error.undefined
    | some i => .ok (ii, i)

/-- Store an interface back at position `ii` of the protocol's interface list. -/
def set_interface (ctx : parse_context) (ii : Nat) (i : interface) : parse_context :=
  { ctx with protocol :=
      { ctx.protocol with interface_list := ctx.protocol.interface_list.set ii i } }

/-- The message block of the property branch of `start_element` (the code is the same for
the setter request and for the notify event, up to the name): a message with a
back-reference to the property and one `value` argument, or `value` and `change_mask` for
a flags property. The fields `type_index`, `all_null`, `destructor` and `client_custom`
are not assigned. -/
def synthesize (junk : uninit) (p : property) (message_name type : String)
    (interface_name : Option String) : Except error message :=
  let message : message :=
    { name := message_name, uppercase_name := uppercase_dup message_name,
      property := some p, arg_list := [], arg_count := 0,
      type_index := junk.type_index, all_null := junk.all_null,
      destructor := junk.destructor, client_custom := junk.client_custom }
  if p.type = arg_type.FLAGS then
    match make_arg (some "value") (some "uint") none with
    | .error e => .error e
    | .ok a1 =>
      match make_arg (some "change_mask") (some "uint") none with
      | .error e => .error e
      | .ok a2 => .ok { message with arg_count := 2, arg_list := [a1, a2] }
  else
    match make_arg (some "value") (some type) interface_name with
    | .error e => .error e
    | .ok a1 => .ok { message with arg_count := 1, arg_list := [a1] }

/-- The interface branch of `start_element`. -/
def start_interface (ctx : parse_context) (a : attributes) : Except error parse_context :=
  match a.name with
  | none => .error (error.fail "no interface name given")
  | some name =>
    if a.version = 0 then .error (error.fail "no interface version given")
    else
      let interface : interface :=
        { name := name, uppercase_name := uppercase_dup name, version := a.version,
          client_custom := a.client_custom, client_global := a.client_global,
          request_list := [], event_list := [], enumeration_list := [],
          property_list := [] }
      .ok { ctx with
        protocol := { ctx.protocol with
          interface_list := ctx.protocol.interface_list ++ [interface] }
        interface := some ctx.protocol.interface_list.length }

/-- The request/event branch of `start_element`; `is_event` tells which of the two element
names matched. The message is linked into the current interface before the destructor
flag is set and checked. -/
def start_message (junk : uninit) (ctx : parse_context) (a : attributes) (is_event : Bool) :
    Except error parse_context :=
  match a.name with
  | none => .error (error.fail "no request name given")
  | some name =>
    match current_interface ctx with
    | .error e => .error e
    | .ok (ii, i) =>
      let message : message :=
        { name := name, uppercase_name := uppercase_dup name, arg_list := [],
          arg_count := 0, property := none, client_custom := a.client_custom,
          destructor := a.type = some "destructor",
          type_index := junk.type_index, all_null := junk.all_null }
      if name = "destroy" && !message.destructor then
        .error (error.fail "destroy request should be destructor type")
      else if is_event then
        .ok { set_interface ctx ii { i with event_list := i.event_list ++ [message] } with
          message := some (ii, true, i.event_list.length) }
      else
        .ok { set_interface ctx ii { i with request_list := i.request_list ++ [message] } with
          message := some (ii, false, i.request_list.length) }

/-- The tag that the property branch of `start_element` stores on the property record. -/
def property_type (type : String) : arg_type :=
  if type = "flags" then arg_type.FLAGS else type_from_string type

/-- The record that the property branch of `start_element` allocates and fills in for a
property element with the given name, type text and flags. -/
def property_record (name type : String) (writable change_notify : Bool) : property :=
  { name := name, uppercase_name := uppercase_dup name, writable := writable,
    change_notify := change_notify, type := property_type type }

/-- The property branch of `start_element`. -/
def start_property (junk₁ junk₂ : uninit) (ctx : parse_context) (a : attributes) :
    Except error parse_context :=
  match a.name with
  | none => .error (error.fail "no property name given")
  | some name =>
    match a.type with
    | none => .error error.undefined
    | some type =>
      let property := property_record name type a.writable a.change_notify
      match current_interface ctx with
      | .error e => .error e
      | .ok (ii, i) =>
        let i := { i with property_list := i.property_list ++ [property] }
        let r : Except error interface :=
          if a.writable then
            match synthesize junk₁ property ("set_" ++ name) type a.interface_name with
            | .error e => .error e
            | .ok m => .ok { i with request_list := i.request_list ++ [m] }
          else .ok i
        match r with
        | .error e => .error e
        | .ok i =>
          let r : Except error interface :=
            if a.change_notify then
              match synthesize junk₂ property (name ++ "_notify") type a.interface_name with
              | .error e => .error e
              | .ok m => .ok { i with event_list := i.event_list ++ [m] }
            else .ok i
          match r with
          | .error e => .error e
          | .ok i => .ok (set_interface ctx ii i)

/-- The two statements of the arg branch of `start_element` that write the message: the
arg is linked at the end of the arg list and `arg_count` is incremented. -/
def add_arg (m : message) (arg : arg) : message :=
  { m with arg_list := m.arg_list ++ [arg], arg_count := m.arg_count + 1 }

/-- The arg branch of `start_element`, on the message that `ctx->message` points to. -/
def start_arg (ctx : parse_context) (a : attributes) : Except error parse_context :=
  match make_arg a.name a.type a.interface_name with
  | .error e => .error e
  | .ok arg =>
    match ctx.message with
    | none => .error error.undefined
    | some (ii, is_event, mi) =>
      match ctx.protocol.interface_list[ii]? with
      | none => .error error.undefined
      | some i =>
        match (if is_event then i.event_list else i.request_list)[mi]? with
        | none => .error error.undefined
        | some m =>
          if is_event then
            .ok (set_interface ctx ii
              { i with event_list := i.event_list.set mi (add_arg m arg) })
          else
            .ok (set_interface ctx ii
              { i with request_list := i.request_list.set mi (add_arg m arg) })

/-- The enum branch of `start_element`. -/
def start_enum (ctx : parse_context) (a : attributes) : Except error parse_context :=
  match a.name with
  | none => .error (error.fail "no enum name given")
  | some name =>
    match current_interface ctx with
    | .error e => .error e
    | .ok (ii, i) =>
      let enumeration : enumeration :=
        { name := name, uppercase_name := uppercase_dup name, entry_list := [] }
      .ok { set_interface ctx ii
              { i with enumeration_list := i.enumeration_list ++ [enumeration] } with
        enumeration := some (ii, i.enumeration_list.length) }

/-- The entry branch of `start_element`. -/
def start_entry (ctx : parse_context) (a : attributes) : Except error parse_context :=
  match a.name, a.value with
  | some name, some value =>
    match ctx.enumeration with
    | none => .error error.undefined
    | some (ii, ei) =>
      match ctx.protocol.interface_list[ii]? with
      | none => .error error.undefined
      | some i =>
        match i.enumeration_list[ei]? with
        | none => .error error.undefined
        | some e =>
          let entry : entry :=
            { name := name, uppercase_name := uppercase_dup name, value := value }
          .ok (set_interface ctx ii
            { i with enumeration_list :=
                i.enumeration_list.set ei { e with entry_list := e.entry_list ++ [entry] } })
  | _, _ => .error error.undefined

/-- The function `start_element`. The records `junk₁` and `junk₂` are the indeterminate contents of the message
allocations of this call (the property branch allocates two). -/
def start_element (junk₁ junk₂ : uninit) (ctx : parse_context) (element_name : String)
    (atts : List (String × String)) : Except error parse_context :=
  let a := parse_attributes atts
  let ctx := { ctx with character_data_length := 0 }
  if element_name = WAYLAND_NS ++ "#protocol" then
    match a.name with
    | none => .error (error.fail "no protocol name given")
    | some name =>
      .ok { ctx with protocol :=
        { ctx.protocol with name := some name, uppercase_name := some (uppercase_dup name) } }
  else if element_name = WAYLAND_NS ++ "#copyright" then
    .ok ctx
  else if element_name = WAYLAND_NS ++ "#interface" then
    start_interface ctx a
  else if element_name = WAYLAND_NS ++ "#request" then
    start_message junk₁ ctx a false
  else if element_name = WAYLAND_NS ++ "#event" then
    start_message junk₁ ctx a true
  else if element_name = WAYLAND_NS ++ "#property" then
    start_property junk₁ junk₂ ctx a
  else if element_name = WAYLAND_NS ++ "#arg" then
    start_arg ctx a
  else if element_name = WAYLAND_NS ++ "#enum" then
    start_enum ctx a
  else if element_name = WAYLAND_NS ++ "#entry" then
    start_entry ctx a
  else
    .ok ctx

/-- The function `end_element`: `strndup` of the first `character_data_length` bytes of the buffer. -/
def end_element (ctx : parse_context) (name : String) : parse_context :=
  if name = WAYLAND_NS ++ "#copyright" then
    { ctx with protocol := { ctx.protocol with
        copyright := some (String.mk (ctx.character_data.take ctx.character_data_length.toNat)) } }
  else ctx

/-- The function `character_data`. The comparison with `sizeof` is unsigned, so a negative sum compares
as a huge value; `memcpy` at a negative offset is undefined. -/
def character_data (ctx : parse_context) (s : String) : Except error parse_context :=
  let len : Int := s.length
  if ctx.character_data_length + len < 0 ∨ ctx.character_data_length + len > 8192 then
    .error (error.fail "too much character data")
  else if ctx.character_data_length < 0 then
    .error error.undefined
  else
    let n := ctx.character_data_length.toNat
    .ok { ctx with
      character_data := ctx.character_data.take n ++ s.data ++ ctx.character_data.drop (n + s.length)
      character_data_length := ctx.character_data_length + len }

/-- The calls that the XML parser makes into the builder, in document order. -/
inductive xml_event where
  | start (element_name : String) (atts : List (String × String))
  | finish (name : String)
  | text (s : String)
  deriving DecidableEq, Repr

/-- One handler call; the two `uninit` records are the contents of the storage that the
call allocates for messages. -/
def handle (ctx : parse_context) (e : xml_event × uninit × uninit) :
    Except error parse_context :=
  match e.1 with
  | xml_event.start element_name atts => start_element e.2.1 e.2.2 ctx element_name atts
  | xml_event.finish name => .ok (end_element ctx name)
  | xml_event.text s => character_data ctx s

/-- The handler calls of one parse, stopping at the first failure. -/
def feed (ctx : parse_context) : List (xml_event × uninit × uninit) → Except error parse_context
  | [] => .ok ctx
  | e :: rest =>
    match handle ctx e with
    | .error err => .error err
    | .ok ctx => feed ctx rest

/-- The state that `main` sets up before parsing: `ctx` and `protocol` are automatic
variables, of which `main` assigns the interface list, the two counters and the
copyright; the character buffer and its length keep whatever the stack held. -/
def init_context (stack_data : List Char) (stack_length : Int) : parse_context :=
  { protocol :=
      { name := none, uppercase_name := none, interface_list := [], type_index := 0,
        null_run_length := 0, copyright := none }
    interface := none
    message := none
    enumeration := none
    character_data := stack_data
    character_data_length := stack_length }

/-- The model builder: the protocol that a parse leaves behind. -/
def build (stack_data : List Char) (stack_length : Int)
    (events : List (xml_event × uninit × uninit)) : Except error parse_context :=
  feed (init_context stack_data stack_length) events

/-! ## Emitters of the shared code -/

/-- The loop of `emit_opcodes`, with its local counter `opcode`. -/
def emit_opcodes_loop (interface : interface) : List message → Nat → String
  | [], _ => ""
  | m :: rest, opcode =>
    "#define " ++ interface.uppercase_name ++ "_" ++ m.uppercase_name ++ "\t" ++
      toString opcode ++ "\n" ++ emit_opcodes_loop interface rest (opcode + 1)

def emit_opcodes (message_list : List message) (interface : interface) : String :=
  if message_list.isEmpty then ""
  else emit_opcodes_loop interface message_list 0 ++ "\n"

/-- The loop of `format_copyright` from position `i`, with its locals `bol` and `start`;
the text of `%.*s` is the `i - start` bytes from `copyright + start`. -/
def format_copyright_loop (copyright : List Char) : List Char → Nat → Bool → Nat → String
  | [], _, _, _ => ""
  | c :: rest, i, bol, start =>
    if bol && (c = ' ' || c = '\t') then
      format_copyright_loop copyright rest (i + 1) bol start
    else
      let start := if bol then i else start
      if c = '\n' || c = Char.ofNat 0 then
        (if i = 0 then "/*" else " *") ++ " " ++
          String.mk ((copyright.drop start).take (i - start)) ++ "\n" ++
          format_copyright_loop copyright rest (i + 1) true start
      else
        format_copyright_loop copyright rest (i + 1) false start

def format_copyright (copyright : String) : String :=
  format_copyright_loop copyright.data copyright.data 0 true 0 ++ " */\n\n"

/-- The text that `%s` prints for `a->interface_name`. It is assigned whenever the tag is
`NEW_ID` or `OBJECT`, the only case in which it is printed; the text for a pointer that
was never assigned is not determined by the program and is rendered as the empty text. -/
def interface_name_text (a : arg) : String :=
  a.interface_name.getD ""

/-- The inner loop of `emit_types_forward_declarations` over the args of one message, with
the local `length` and the flag `m->all_null`; one output line per `printf`. -/
def emit_types_forward_declarations_args : List arg → Nat → Bool → Nat × Bool × List String
  | [], length, all_null => (length, all_null, [])
  | a :: rest, length, all_null =>
    match a.type with
    | arg_type.NEW_ID | arg_type.OBJECT =>
      let r := emit_types_forward_declarations_args rest (length + 1) false
      (r.1, r.2.1,
        ("extern const struct wl_interface " ++ interface_name_text a ++ "_interface;\n") :: r.2.2)
    | _ => emit_types_forward_declarations_args rest (length + 1) all_null

/-- The function `emit_types_forward_declarations`. Of the protocol it reads and writes
only `null_run_length`, which is passed in and returned; the messages come back with
their `all_null` flag written. -/
def emit_types_forward_declarations : Nat → List message → Nat × List message × List String
  | null_run_length, [] => (null_run_length, [], [])
  | null_run_length, m :: rest =>
    let a := emit_types_forward_declarations_args m.arg_list 0 true
    let r := emit_types_forward_declarations
      (if a.2.1 && a.1 > null_run_length then a.1 else null_run_length) rest
    (r.1, { m with all_null := a.2.1 } :: r.2.1, a.2.2 ++ r.2.2)

def emit_null_run (protocol : protocol) : List String :=
  List.replicate protocol.null_run_length "\tNULL,\n"

/-- The entry that the inner loop of `emit_types` prints for one arg. -/
def emit_types_arg (a : arg) : String :=
  match a.type with
  | arg_type.NEW_ID | arg_type.OBJECT =>
    if interface_name_text a ≠ "wl_object" then "\t&" ++ interface_name_text a ++ "_interface,\n"
    else "\tNULL,\n"
  | _ => "\tNULL,\n"

/-- The function `emit_types`. Of the protocol it reads `null_run_length` and reads and
writes the cursor `type_index`, which is passed in and returned; the messages come back
with their `type_index` written. -/
def emit_types (null_run_length : Nat) : Nat → List message → Nat × List message × List String
  | type_index, [] => (type_index, [], [])
  | type_index, m :: rest =>
    if m.all_null then
      let r := emit_types null_run_length type_index rest
      (r.1, { m with type_index := 0 } :: r.2.1, r.2.2)
    else
      let r := emit_types null_run_length (type_index + m.arg_count) rest
      (r.1, { m with type_index := null_run_length + type_index } :: r.2.1,
        m.arg_list.map emit_types_arg ++ r.2.2)

/-- The inner loop of `emit_messages`: the signature characters of one message. -/
def emit_messages_args : List arg → String
  | [] => ""
  | a :: rest =>
    (match a.type with
      | arg_type.NEW_ID => "n"
      | arg_type.UNSIGNED => "u"
      | arg_type.STRING => "s"
      | arg_type.OBJECT => "o"
      | arg_type.ARRAY => "a"
      | arg_type.FD => "h"
      | arg_type.DOUBLE => "d"
      | _ => "i") ++ emit_messages_args rest

/-- The table row that the outer loop of `emit_messages` prints for one message. -/
def emit_messages_row (m : message) : String :=
  "\t\x7b \"" ++ m.name ++ "\", \"" ++ emit_messages_args m.arg_list ++ "\", types + " ++
    toString m.type_index ++ " \x7d,\n"

def emit_messages (message_list : List message) (interface : interface) (suffix : String) :
    String :=
  if message_list.isEmpty then ""
  else
    "static const struct wl_message " ++ interface.name ++ "_" ++ suffix ++ "[] = \x7b\n" ++
      String.join (message_list.map emit_messages_row) ++ "\x7d;\n\n"

/-- The first interface loop of `emit_code`: the forward-declaration pass over the request
list and then the event list of every interface. -/
def emit_code_forward_declarations : Nat → List interface → Nat × List interface × List String
  | null_run_length, [] => (null_run_length, [], [])
  | null_run_length, i :: rest =>
    let r1 := emit_types_forward_declarations null_run_length i.request_list
    let r2 := emit_types_forward_declarations r1.1 i.event_list
    let r3 := emit_code_forward_declarations r2.1 rest
    (r3.1, { i with request_list := r1.2.1, event_list := r2.2.1 } :: r3.2.1,
      r1.2.2 ++ r2.2.2 ++ r3.2.2)

/-- The second interface loop of `emit_code`: `emit_types` over the request list and then
the event list of every interface. -/
def emit_code_types (null_run_length : Nat) :
    Nat → List interface → Nat × List interface × List String
  | type_index, [] => (type_index, [], [])
  | type_index, i :: rest =>
    let r1 := emit_types null_run_length type_index i.request_list
    let r2 := emit_types null_run_length r1.1 i.event_list
    let r3 := emit_code_types null_run_length r2.1 rest
    (r3.1, { i with request_list := r1.2.1, event_list := r2.2.1 } :: r3.2.1,
      r1.2.2 ++ r2.2.2 ++ r3.2.2)

/-- The body of the third interface loop of `emit_code`: the message tables and the
descriptor of one interface. -/
def emit_code_interface (i : interface) : String :=
  emit_messages i.request_list i "requests" ++
  emit_messages i.event_list i "events" ++
  "WL_EXPORT const struct wl_interface " ++ i.name ++ "_interface = \x7b\n" ++
  "\t\"" ++ i.name ++ "\", " ++ toString i.version ++ ",\n" ++
  (if !i.request_list.isEmpty then
    "\tARRAY_LENGTH(" ++ i.name ++ "_requests), " ++ i.name ++ "_requests,\n"
   else "\t0, NULL,\n") ++
  (if !i.event_list.isEmpty then
    "\tARRAY_LENGTH(" ++ i.name ++ "_events), " ++ i.name ++ "_events,\n"
   else "\t0, NULL,\n") ++
  "\x7d;\n\n"

/-- The planning part of `emit_code`: the two interface loops that write the model (the
forward-declaration pass, then `emit_types`), with the lines each prints and the entries
of `emit_null_run` between them. -/
structure planned where
  protocol : protocol
  forward_declarations : List String
  null_run : List String
  types : List String

def emit_code_plan (protocol : protocol) : planned :=
  let f := emit_code_forward_declarations protocol.null_run_length protocol.interface_list
  let protocol := { protocol with null_run_length := f.1, interface_list := f.2.1 }
  let null_run := emit_null_run protocol
  let t := emit_code_types protocol.null_run_length protocol.type_index protocol.interface_list
  let protocol := { protocol with type_index := t.1, interface_list := t.2.1 }
  { protocol := protocol, forward_declarations := f.2.2, null_run := null_run, types := t.2.2 }

/-- The function `emit_code`: the protocol as the planning loops leave it, and the text
printed. -/
def emit_code (protocol : protocol) : Scanner.protocol × String :=
  let r := emit_code_plan protocol
  (r.protocol,
    (match protocol.copyright with
      | some c => format_copyright c
      | none => "") ++
    "#include <stdlib.h>\n#include <stdint.h>\n#include \"wayland-util.h\"\n\n" ++
    String.join r.forward_declarations ++ "\n" ++
    "static const struct wl_interface *types[] = \x7b\n" ++
    String.join (r.null_run ++ r.types) ++
    "\x7d;\n\n" ++
    String.join (r.protocol.interface_list.map emit_code_interface))

/-! ## Emitters of the headers and of the client code -/

/-- How an emitter stops before its end: by `exit(EXIT_FAILURE)`, after `stdout` has been
printed and with `stderr` on the diagnostic stream, or by undefined behaviour. -/
inductive stop where
  | exit (stdout : String) (stderr : String)
  | undefined
  deriving DecidableEq, Repr

/-- The stop `e` of an emitter that runs after the text `s` has been printed. -/
def stop.after (s : String) : stop → stop
  | stop.exit out err => stop.exit (s ++ out) err
  | stop.undefined => stop.undefined

/-- Two emitters in sequence: the second runs when the first has returned, and what the
first printed stays printed when the second stops. -/
def seq_emit (a b : Except stop String) : Except stop String :=
  match a with
  | .error e => .error e
  | .ok s =>
    match b with
    | .error e => .error (stop.after s e)
    | .ok t => .ok (s ++ t)

/-- The function `emit_simple_type`. The cases `INVALID` and `OBJECT` have no `break` and
fall through into the case of `INT` and `FD`. -/
def emit_simple_type (type : arg_type) (is_const : Bool) : String :=
  match type with
  | arg_type.INVALID | arg_type.OBJECT => "void *" ++ "int32_t "
  | arg_type.INT | arg_type.FD => "int32_t "
  | arg_type.NEW_ID | arg_type.UNSIGNED | arg_type.FLAGS => "uint32_t "
  | arg_type.STRING => if is_const then "const char *" else "char *"
  | arg_type.DOUBLE => "double "
  | arg_type.ARRAY => "struct wl_array *"

def emit_type (a : arg) : String :=
  if a.type = arg_type.OBJECT then "struct " ++ interface_name_text a ++ " *"
  else emit_simple_type a.type true

/-- The body of the second message loop of `emit_stubs`: the inline stub of one request.
The local `ret` is the last `new_id` arg. -/
def emit_stubs_message (interface : interface) (m : message) : String :=
  if m.client_custom then ""
  else if m.property.isSome then ""
  else
    let ret := (m.arg_list.filter fun a => a.type = arg_type.NEW_ID).getLast?
    (if !m.client_custom then "static inline " else "") ++
    (match ret with
      | some r => "struct " ++ interface_name_text r ++ " *\n"
      | none => "void\n") ++
    interface.name ++ "_" ++ m.name ++ "(struct " ++ interface.name ++ " *" ++
      interface.name ++
    String.join (m.arg_list.map fun a =>
      if a.type = arg_type.NEW_ID then "" else ", " ++ emit_type a ++ a.name) ++
    ")\n\x7b\n" ++
    (match ret with
      | some r =>
        "\tstruct " ++ interface_name_text r ++ " *" ++ r.name ++ ";\n\n" ++
        "\t" ++ r.name ++ " = _" ++ interface_name_text r ++ "_proxy_create(" ++
        "wl_proxy_get_display((struct wl_proxy *) " ++ interface.name ++ "));\n" ++
        "\tif (!" ++ r.name ++ ")\n" ++
        "\t\treturn NULL;\n\n"
      | none => "") ++
    "\twl_proxy_marshal((struct wl_proxy *) " ++ interface.name ++ ",\n" ++
    "\t\t\t " ++ interface.uppercase_name ++ "_" ++ m.uppercase_name ++
    String.join (m.arg_list.map fun a => ", " ++ a.name) ++
    ");\n" ++
    (if m.destructor then
      "\t_" ++ interface.name ++ "_proxy_destroy(" ++ interface.name ++ ");\n"
     else "") ++
    (match ret with
      | some r => "\n\treturn (struct " ++ interface_name_text r ++ " *) " ++ r.name ++ ";\n"
      | none => "") ++
    "\x7d\n\n"

/-- The text that `emit_stubs` prints before it looks at the messages. -/
def emit_stubs_user_data (interface : interface) : String :=
  "static inline void\n" ++
  interface.name ++ "_set_user_data(struct " ++ interface.name ++ " *" ++ interface.name ++
    ", void *user_data)\n" ++
  "\x7b\n" ++
  "\twl_proxy_set_user_data((struct wl_proxy *) " ++ interface.name ++ ", user_data);\n" ++
  "\x7d\n\n" ++
  "static inline void *\n" ++
  interface.name ++ "_get_user_data(struct " ++ interface.name ++ " *" ++ interface.name ++
    ")\n" ++
  "\x7b\n" ++
  "\treturn wl_proxy_get_user_data((struct wl_proxy *) " ++ interface.name ++ ");\n" ++
  "\x7d\n\n"

/-- The function `emit_stubs`. The first message loop sets `has_destructor` when some
message has its destructor flag set and `has_destroy` when some message is named
`destroy`. -/
def emit_stubs (message_list : List message) (interface : interface) : Except stop String :=
  if interface.client_custom then .ok ""
  else
    let has_destructor := message_list.any fun m => m.destructor
    let has_destroy := message_list.any fun m => m.name = "destroy"
    if !has_destructor && has_destroy then
      .error (stop.exit (emit_stubs_user_data interface)
        ("interface " ++ interface.name ++ " has method named destroy but" ++ "no destructor"))
    else
      let destroy :=
        if !has_destructor then
          "void " ++ interface.name ++ "_destroy(struct " ++ interface.name ++ " *" ++
            interface.name ++ ");\n\n"
        else
          "void _" ++ interface.name ++ "_proxy_destroy(struct " ++ interface.name ++ " *" ++
            interface.name ++ ");\n\n"
      if message_list.isEmpty then .ok (emit_stubs_user_data interface ++ destroy)
      else
        .ok (emit_stubs_user_data interface ++ destroy ++
          String.join (message_list.map (emit_stubs_message interface)))

/-- The function `indent`: the string `whitespace[n % 8]` is twelve tabs and `n % 8`
spaces, and the result starts `12 - n / 8` bytes into it; for `n / 8 > 12` the pointer
lies before the string. -/
def indent (n : Nat) : Except stop String :=
  if n / 8 ≤ 12 then
    .ok (String.mk (List.replicate (n / 8) '\t' ++ List.replicate (n % 8) ' '))
  else .error stop.undefined

/-- The entry loop of `emit_enumerations` for one enumeration. -/
def emit_enumerations_entries (interface : interface) (e : enumeration) : String :=
  String.join (e.entry_list.map fun entry =>
    "\t" ++ interface.uppercase_name ++ "_" ++ e.uppercase_name ++ "_" ++
      entry.uppercase_name ++ " = " ++ entry.value ++ ",\n")

def emit_enumerations (interface : interface) : String :=
  String.join (interface.enumeration_list.map fun e =>
    "#ifndef " ++ interface.uppercase_name ++ "_" ++ e.uppercase_name ++ "_ENUM\n" ++
    "#define " ++ interface.uppercase_name ++ "_" ++ e.uppercase_name ++ "_ENUM\n" ++
    "enum " ++ interface.name ++ "_" ++ e.name ++ " \x7b\n" ++
    emit_enumerations_entries interface e ++
    "\x7d;\n" ++
    "#endif /* " ++ interface.uppercase_name ++ "_" ++ e.uppercase_name ++ "_ENUM */\n\n")

def emit_object_struct (interface : interface) : String :=
  if interface.client_custom then ""
  else
    "struct " ++ interface.name ++ " \x7b\n" ++
    "\tstruct wl_proxy parent;\n" ++
    String.join (interface.property_list.map fun p =>
      "\t" ++
      (if p.type = arg_type.FLAGS then emit_simple_type arg_type.UNSIGNED false
       else emit_simple_type p.type false) ++
      p.name ++ ";\n") ++
    "\x7d;\n\n"

/-- The arg loop of `emit_structs` for one message, each arg on a line of its own after
the indentation `ind`. -/
def emit_structs_args (is_interface : Bool) (ind : String) (arg_list : List arg) : String :=
  String.join (arg_list.map fun a =>
    ",\n" ++ ind ++
    (if is_interface && a.type = arg_type.OBJECT then "struct wl_resource *"
     else emit_type a) ++
    a.name)

/-- The body of the message loop of `emit_structs`: one function pointer. -/
def emit_structs_message (is_interface : Bool) (interface : interface) (m : message) :
    Except stop String :=
  match indent (m.name.length + 17) with
  | .error e => .error e
  | .ok ind =>
    .ok ("\tvoid (*" ++ m.name ++ ")(" ++
      (if is_interface then
        "struct wl_client *client,\n" ++ ind ++ "struct wl_resource *resource"
       else
        "void *data,\n" ++ ind ++ "struct " ++ interface.name ++ " *" ++ interface.name) ++
      emit_structs_args is_interface ind m.arg_list ++
      ");\n")

/-- The message loop of `emit_structs`. -/
def emit_structs_messages (is_interface : Bool) (interface : interface) :
    List message → Except stop String
  | [] => .ok ""
  | m :: rest =>
    seq_emit (emit_structs_message is_interface interface m)
      (emit_structs_messages is_interface interface rest)

/-- The property loop of `emit_structs`: the prototypes of the accessors. -/
def emit_structs_properties (interface : interface) : String :=
  String.join (interface.property_list.map fun p =>
    emit_simple_type p.type true ++
    interface.name ++ "_get_" ++ p.name ++ "(struct " ++ interface.name ++ "* " ++
      interface.name ++ ");\n" ++
    (if p.writable then
      "void " ++ interface.name ++ "_set_" ++ p.name ++ "(struct " ++ interface.name ++
        "* " ++ interface.name ++ ", " ++ emit_simple_type p.type true ++ "value);\n"
     else "") ++
    "\n")

/-- The `add_listener` function that `emit_structs` prints after a listener struct. -/
def emit_structs_add_listener (interface : interface) : Except stop String :=
  match indent (17 + interface.name.length), indent 37 with
  | .ok ind1, .ok ind2 =>
    .ok ("static inline int\n" ++
      interface.name ++ "_add_listener(struct " ++ interface.name ++ " *" ++
        interface.name ++ ",\n" ++
      ind1 ++ "const struct " ++ interface.name ++ "_listener *listener, void *data)\n" ++
      "\x7b\n" ++
      "\treturn wl_proxy_add_listener((struct wl_proxy *) " ++ interface.name ++ ",\n" ++
      ind2 ++ "(void (**)(void)) listener, data);\n" ++
      "\x7d\n\n")
  | _, _ => .error stop.undefined

/-- The function `emit_structs`. The flag `is_interface` stands for the comparison
`message_list == &interface->request_list`. -/
def emit_structs (message_list : List message) (interface : interface) (is_interface : Bool) :
    Except stop String :=
  if message_list.isEmpty then .ok ""
  else
    seq_emit
      (.ok ("struct " ++ interface.name ++ "_" ++
        (if is_interface then "interface" else "listener") ++ " \x7b\n"))
      (seq_emit (emit_structs_messages is_interface interface message_list)
        (seq_emit (.ok "\x7d;\n\n")
          (if !is_interface then
            seq_emit (emit_structs_add_listener interface)
              (.ok (emit_structs_properties interface))
           else .ok "")))

/-- The constructor loop of `emit_header` for one interface. -/
def emit_header_constructor (i : interface) : Except stop String :=
  if i.client_global then
    match indent (2 * i.name.length + "struct  *_bind(".length) with
    | .error e => .error e
    | .ok ind =>
      .ok ("struct " ++ i.name ++ " *" ++ i.name ++ "_bind(struct wl_display *display,\n" ++
        ind ++ "uint32_t name);\n")
  else
    .ok ("struct " ++ i.name ++ " *_" ++ i.name ++
      "_proxy_create(struct wl_display *display);\n")

def emit_header_constructors : List interface → Except stop String
  | [] => .ok ""
  | i :: rest => seq_emit (emit_header_constructor i) (emit_header_constructors rest)

/-- The body of the last interface loop of `emit_header`. -/
def emit_header_interface (server : Bool) (i : interface) : Except stop String :=
  seq_emit (.ok (emit_enumerations i))
    (if server then
      seq_emit (emit_structs i.request_list i true) (.ok (emit_opcodes i.event_list i))
     else
      seq_emit (emit_structs i.event_list i false)
        (seq_emit (.ok (emit_opcodes i.request_list i)) (emit_stubs i.request_list i)))

def emit_header_interfaces (server : Bool) : List interface → Except stop String
  | [] => .ok ""
  | i :: rest => seq_emit (emit_header_interface server i) (emit_header_interfaces server rest)

/-- The function `emit_header`. The upper-case protocol name is a pointer that only a
protocol start element assigns. -/
def emit_header (protocol : protocol) (server : Bool) : Except stop String :=
  let s := if server then "SERVER" else "CLIENT"
  let copyright :=
    match protocol.copyright with
    | some c => format_copyright c
    | none => ""
  match protocol.uppercase_name with
  | none => .error (stop.after copyright stop.undefined)
  | some uppercase_name =>
    seq_emit
      (.ok (copyright ++
        "#ifndef " ++ uppercase_name ++ "_" ++ s ++ "_PROTOCOL_H\n" ++
        "#define " ++ uppercase_name ++ "_" ++ s ++ "_PROTOCOL_H\n" ++
        "\n" ++
        "#ifdef  __cplusplus\n" ++
        "extern \"C\" \x7b\n" ++
        "#endif\n" ++
        "\n" ++
        "#include <stdint.h>\n" ++
        "#include <stddef.h>\n" ++
        "#include \"wayland-util.h\"\n\n" ++
        "struct wl_client;\n" ++
        "struct wl_resource;\n\n" ++
        String.join (protocol.interface_list.map fun i => "struct " ++ i.name ++ ";\n") ++
        "\n" ++
        String.join (protocol.interface_list.map fun i =>
          "extern const struct wl_interface " ++ i.name ++ "_interface;\n") ++
        "\n"))
      (seq_emit
        (if !server then emit_header_constructors protocol.interface_list else .ok "")
        (seq_emit (.ok "\n")
          (seq_emit (emit_header_interfaces server protocol.interface_list)
            (.ok ("#ifdef  __cplusplus\n" ++
              "\x7d\n" ++
              "#endif\n" ++
              "\n" ++
              "#endif\n")))))

def emit_constructor (interface : interface) : String :=
  "WL_EXPORT struct " ++ interface.name ++ " *\n" ++
  (if interface.client_global then
    interface.name ++ "_bind(struct wl_display *display, uint32_t name)\n" ++
    "\x7b\n" ++
    "\tstruct " ++ interface.name ++ " *proxy;\n" ++
    "\tproxy = (struct " ++ interface.name ++ "*) wl_display_bind(display, name, &" ++
      interface.name ++ "_interface, sizeof(struct " ++ interface.name ++ "));\n"
   else
    "_" ++ interface.name ++ "_proxy_create(struct wl_display *display)\n" ++
    "\x7b\n" ++
    "\tstruct " ++ interface.name ++ " *proxy;\n" ++
    "\tproxy = (struct " ++ interface.name ++ "*) wl_proxy_create(display, &" ++
      interface.name ++ "_interface, sizeof(struct " ++ interface.name ++ "));\n") ++
  (if !interface.property_list.isEmpty then
    "\t" ++ interface.name ++ "_add_listener(proxy, &" ++ interface.name ++
      "_property_listener, NULL);\n"
   else "") ++
  "\treturn proxy;\n" ++
  "\x7d\n\n"

/-- The body of the property loop of `emit_property_listeners`: the handler of one
notified property. -/
def emit_property_listeners_handler (interface : interface) (p : property) : String :=
  if !p.change_notify then ""
  else
    "static void\n" ++
    interface.name ++ "_handle_" ++ p.name ++ "_notify(void *data, struct " ++
      interface.name ++ "* " ++ interface.name ++ ", " ++
    (if p.type = arg_type.FLAGS then
      "uint32_t value, uint32_t change_mask)\n" ++
      "\x7b\n" ++
      "\t" ++ interface.name ++ "->" ++ p.name ++ " = (" ++ interface.name ++ "->" ++ p.name ++
        " & ~change_mask) | (value & change_mask);\n"
     else if p.type = arg_type.STRING then
      "const char *value)\n" ++
      "\x7b\n" ++
      "\tfree(" ++ interface.name ++ "->" ++ p.name ++ ");\n" ++
      "\t" ++ interface.name ++ "->" ++ p.name ++ " = strdup(value);\n"
     else
      emit_simple_type p.type true ++
      "value)\n" ++
      "\x7b\n" ++
      "\t" ++ interface.name ++ "->" ++ p.name ++ " = value;\n") ++
    "\x7d\n\n"

def emit_property_listeners (interface : interface) : String :=
  if interface.property_list.isEmpty then ""
  else
    String.join (interface.property_list.map (emit_property_listeners_handler interface)) ++
    "static const struct " ++ interface.name ++ "_listener " ++ interface.name ++
      "_property_listener = \x7b\n" ++
    String.join (interface.event_list.map fun m =>
      if m.property.isNone then "\tNULL,\n"
      else "\t" ++ interface.name ++ "_handle_" ++ m.name ++ ",\n") ++
    "\x7d;\n\n"

/-- The body of the loop of `emit_property_get_set`: the accessors of one property. -/
def emit_property_get_set_property (interface : interface) (p : property) : String :=
  "WL_EXPORT " ++ emit_simple_type p.type true ++
  "\n" ++
  interface.name ++ "_get_" ++ p.name ++ "(struct " ++ interface.name ++ "* " ++
    interface.name ++ ")\n" ++
  "\x7b\n" ++
  "\treturn " ++ interface.name ++ "->" ++ p.name ++ ";\n" ++
  "\x7d\n\n" ++
  (if !p.writable then ""
   else
    "WL_EXPORT void\n" ++
    interface.name ++ "_set_" ++ p.name ++ "(struct " ++ interface.name ++ "* " ++
      interface.name ++ ", " ++
    emit_simple_type p.type true ++
    "value)\n" ++
    "\x7b\n" ++
    "\twl_proxy_marshal((struct wl_proxy*) " ++ interface.name ++ ",\n" ++
    "\t\t\t " ++ interface.uppercase_name ++ "_SET_" ++ p.uppercase_name ++ ", " ++
    (if p.type = arg_type.FLAGS then "value, value ^ " ++ interface.name ++ "->" ++ p.name
     else "value") ++
    ");\n\n" ++
    (if p.type = arg_type.STRING then
      "\tfree(" ++ interface.name ++ "->" ++ p.name ++ ");\n" ++
      "\t" ++ interface.name ++ "->" ++ p.name ++ " = strdup(value);\n"
     else
      "\t" ++ interface.name ++ "->" ++ p.name ++ " = value;\n") ++
    "\x7d\n\n")

def emit_property_get_set (interface : interface) : String :=
  if interface.property_list.isEmpty then ""
  else String.join (interface.property_list.map (emit_property_get_set_property interface))

/-- The first loop of `emit_destructor`: it stops at the first request whose destructor
flag is set. -/
def emit_destructor_has_destructor : List message → Bool
  | [] => false
  | m :: rest => if m.destructor then true else emit_destructor_has_destructor rest

/-- The property loop of `emit_destructor`: the release of the string properties. -/
def emit_destructor_properties (interface : interface) : List property → String
  | [] => ""
  | p :: rest =>
    (if p.type = arg_type.STRING then
      "\tfree(" ++ interface.name ++ "->" ++ p.name ++ ");\n" ++
      "\t" ++ interface.name ++ "->" ++ p.name ++ " = NULL;\n\n"
     else "") ++ emit_destructor_properties interface rest

def emit_destructor (interface : interface) : String :=
  "WL_EXPORT void\n" ++
  (if emit_destructor_has_destructor interface.request_list then
    "_" ++ interface.name ++ "_proxy_destroy"
   else interface.name ++ "_destroy") ++
  "(struct " ++ interface.name ++ "* " ++ interface.name ++ ")\n" ++
  "\x7b\n" ++
  emit_destructor_properties interface interface.property_list ++
  "\twl_proxy_destroy(" ++ "(struct wl_proxy *) " ++ interface.name ++ ");\n" ++
  "\x7d\n\n"

/-- The body of the second interface loop of `emit_client_code`. -/
def emit_client_code_interface (i : interface) : String :=
  if i.client_custom then ""
  else
    emit_property_listeners i ++ emit_constructor i ++ emit_destructor i ++
      emit_property_get_set i

def emit_client_code (protocol : protocol) : String :=
  (match protocol.copyright with
    | some c => format_copyright c
    | none => "") ++
  "#include <wayland-client-private.h>\n\n" ++
  String.join (protocol.interface_list.map fun i =>
    if i.client_custom then "" else emit_object_struct i) ++
  "\n" ++
  String.join (protocol.interface_list.map emit_client_code_interface)

/-- What a run of the program leaves behind: its exit status and what it wrote on the
standard output and on the diagnostic stream. -/
structure outcome where
  status : Int
  stdout : String
  stderr : String
  deriving DecidableEq, Repr

def usage (ret : Int) : outcome :=
  { status := ret, stdout := "",
    stderr := "usage: ./scanner [client-header|server-header|code]\n" }

/-- The end of a run in which the chosen emitter ran: status 0 when it returned, and
`EXIT_FAILURE` with the text printed so far when it called `exit`; no outcome when the
behaviour is undefined. -/
def emitted (r : Except stop String) : Option outcome :=
  match r with
  | .ok s => some { status := 0, stdout := s, stderr := "" }
  | .error (stop.exit out err) => some { status := 1, stdout := out, stderr := err }
  | .error stop.undefined => none

/-- The function `main`, with `argv` the argument vector (the program name first) and
`events` the handler calls that the XML parser makes while `main` reads the standard
input. A failure of the builder ends the run with `EXIT_FAILURE` and its message (the
file name and line number that `fail` puts before the message are left out); `none`
stands for undefined behaviour. -/
def main (argv : List String) (stack_data : List Char) (stack_length : Int)
    (events : List (xml_event × uninit × uninit)) : Option outcome :=
  if argv.length ≠ 2 then some (usage 1)
  else if argv[1]? = some "--help" then some (usage 0)
  else
    match build stack_data stack_length events with
    | .error (error.fail msg) => some { status := 1, stdout := "", stderr := msg }
    | .error error.undefined => none
    | .ok ctx =>
      if argv[1]? = some "client-header" then emitted (emit_header ctx.protocol false)
      else if argv[1]? = some "server-header" then emitted (emit_header ctx.protocol true)
      else if argv[1]? = some "code" then
        some { status := 0, stdout := (emit_code ctx.protocol).2, stderr := "" }
      else if argv[1]? = some "client-code" then
        some { status := 0, stdout := emit_client_code ctx.protocol, stderr := "" }
      else some { status := 0, stdout := "", stderr := "" }

/-! ## Vocabulary of the statements -/

/-- The messages of a list of interfaces in the order of the interface loops of
`emit_code`. -/
def messages_of (l : List interface) : List message :=
  l.flatMap fun i => i.request_list ++ i.event_list

/-- The messages of a protocol in the order in which `emit_code` visits them: interfaces in
list order, the requests of each before its events. -/
def messages (p : protocol) : List message :=
  messages_of p.interface_list

/-- A message has no `object` and no `new_id` arg. -/
def no_object_arg (m : message) : Bool :=
  m.arg_list.all fun a => a.type ≠ arg_type.NEW_ID && a.type ≠ arg_type.OBJECT

/-- The value of an attribute: that of its last occurrence in `atts`. -/
def attribute_value (atts : List (String × String)) (key : String) : Option String :=
  (atts.reverse.find? fun kv => kv.1 = key).map Prod.snd

/-- The greatest number of args among the messages of `ms` that have no `object` and no
`new_id` arg, and 0 when there is none. -/
def null_run_of (ms : List message) : Nat :=
  ((ms.filter no_object_arg).map fun m => m.arg_list.length).foldr max 0

/-- The sum of the arg counts of the messages of `ms` that have an `object` or `new_id`
arg. -/
def slice_total (ms : List message) : Nat :=
  ((ms.filter fun m => !no_object_arg m).map fun m => m.arg_count).sum

/-- The message `m` as the forward-declaration pass leaves it. -/
def flagged (m : message) : message :=
  { m with all_null := no_object_arg m }

/-- The amount by which `emit_types` advances the cursor `protocol->type_index` over `ms`:
the sum of `arg_count` over the messages whose `all_null` flag is clear. -/
def advance (ms : List message) : Nat :=
  ((ms.filter fun m => !m.all_null).map fun m => m.arg_count).sum

/-- The entries that `emit_types` prints over `ms`: one per arg of each message whose
`all_null` flag is clear. -/
def entries (ms : List message) : List String :=
  (ms.filter fun m => !m.all_null).flatMap fun m => m.arg_list.map emit_types_arg

/-- The message `m` with the offset `emit_types` writes when the cursor is at `c`. -/
def placed (null_run_length c : Nat) (m : message) : message :=
  { m with type_index := if m.all_null then 0 else null_run_length + c }

/-- An arg carries one of the eight tags that `make_arg` assigns, and an interface name
when the tag is `NEW_ID` or `OBJECT`. -/
def arg_ok (a : arg) : Prop :=
  a.type ≠ arg_type.INVALID ∧ a.type ≠ arg_type.FLAGS ∧
    ((a.type = arg_type.NEW_ID ∨ a.type = arg_type.OBJECT) → ∃ n, a.interface_name = some n)

/-- A message counts its args, has the upper-case name of `uppercase_dup`, and has only
args that `make_arg` made. -/
def message_ok (m : message) : Prop :=
  m.arg_count = m.arg_list.length ∧ m.uppercase_name = uppercase_dup m.name ∧
    ∀ a ∈ m.arg_list, arg_ok a

/-- An interface has the upper-case name of `uppercase_dup` and only well-formed
messages. -/
def interface_ok (i : interface) : Prop :=
  i.uppercase_name = uppercase_dup i.name ∧ (∀ m ∈ i.request_list, message_ok m) ∧
    ∀ m ∈ i.event_list, message_ok m

/-- What holds of every protocol that the builder produces: the two planning counters are
still zero, as `main` set them, and every interface is well formed. -/
def protocol_ok (p : protocol) : Prop :=
  p.type_index = 0 ∧ p.null_run_length = 0 ∧ ∀ i ∈ p.interface_list, interface_ok i

/-- The part of a message that the planning loops read and do not write. -/
def shape (m : message) : List arg × Nat :=
  (m.arg_list, m.arg_count)

/-- The signature letter that the specification gives each of the eight wire types. -/
def signature_letter : arg_type → Option Char
  | arg_type.INT => some 'i'
  | arg_type.UNSIGNED => some 'u'
  | arg_type.STRING => some 's'
  | arg_type.OBJECT => some 'o'
  | arg_type.ARRAY => some 'a'
  | arg_type.FD => some 'h'
  | arg_type.DOUBLE => some 'd'
  | arg_type.NEW_ID => some 'n'
  | arg_type.INVALID => none
  | arg_type.FLAGS => none

/-- The names of the messages of a list, in list order. -/
def message_names (l : List message) : List String :=
  l.map fun m => m.name

/-- The interface `i'` is the interface `i` at a later time: the fields that the interface
start element set are the same, and the names of the requests and of the events of `i`
are the first names of the requests and of the events of `i'`. -/
def interface_extends (i i' : interface) : Prop :=
  i'.name = i.name ∧ i'.uppercase_name = i.uppercase_name ∧ i'.version = i.version ∧
  i'.client_custom = i.client_custom ∧ i'.client_global = i.client_global ∧
  (∃ t, message_names i'.request_list = message_names i.request_list ++ t) ∧
  (∃ t, message_names i'.event_list = message_names i.event_list ++ t)

/-- Every interface of `l` is still in `l'`, at the same position, with its messages at
the same positions. -/
def interfaces_extend (l l' : List interface) : Prop :=
  ∀ (k : Nat) (i : interface), l[k]? = some i → ∃ i', l'[k]? = some i' ∧ interface_extends i i'

/-- An arg is an `object` or a `new_id` arg. -/
def is_reference (a : arg) : Bool :=
  a.type = arg_type.NEW_ID || a.type = arg_type.OBJECT

/-- The forward declaration of the descriptor of the interface named `n`. -/
def forward_declaration (n : String) : String :=
  "extern const struct wl_interface " ++ n ++ "_interface;\n"

/-- The `object` and `new_id` args of a list of messages, in traversal order. -/
def references_of (ms : List message) : List arg :=
  ms.flatMap fun m => m.arg_list.filter is_reference

/-- The interface `i` without its enumerations, requests, events and properties. -/
def without_children (i : interface) : interface :=
  { i with enumeration_list := [], request_list := [], event_list := [], property_list := [] }

/-- The interface `i` has the request that the property branch of `start_element`
synthesizes for the writable property `p`. -/
def has_setter (i : interface) (p : property) : Prop :=
  ∃ m ∈ i.request_list, m.property = some p ∧ m.name = "set_" ++ p.name ∧
    m.uppercase_name = uppercase_dup ("set_" ++ p.name)

/-- Every property of `i` has the upper-case name of `uppercase_dup`, and every writable
one has its synthesized request. -/
def properties_ok (i : interface) : Prop :=
  ∀ p ∈ i.property_list, p.uppercase_name = uppercase_dup p.name ∧
    (p.writable = true → has_setter i p)

/-- The event is a start element. -/
def is_start : xml_event → Bool
  | xml_event.start _ _ => true
  | _ => false

/-- The character data of a list of events: the chunks of its text events, one after the
other. -/
def chunks (events : List (xml_event × uninit × uninit)) : List Char :=
  events.flatMap fun e =>
    match e.1 with
    | xml_event.text s => s.data
    | _ => []

/-- The text `needle` occurs in `text`. -/
def occurs_in (needle text : String) : Bool :=
  text.data.tails.any fun t => needle.data.isPrefixOf t

/-! ## Example documents and states -/

/-- Storage contents used in the example documents. -/
def example_junk : uninit :=
  { type_index := 7, all_null := true, destructor := true, client_custom := false }

/-- A document with an interface `bar` that has a destructor request, a request with an
`int` and an `object` arg, an event with two plain args, a string property that is
writable and notified, and a writable flags property. -/
def example_document : List (xml_event × uninit × uninit) :=
  [ (xml_event.start (WAYLAND_NS ++ "#protocol") [("name", "p")], example_junk, example_junk),
    (xml_event.start (WAYLAND_NS ++ "#interface") [("name", "bar"), ("version", "1")],
      example_junk, example_junk),
    (xml_event.start (WAYLAND_NS ++ "#request") [("name", "destroy"), ("type", "destructor")],
      example_junk, example_junk),
    (xml_event.start (WAYLAND_NS ++ "#request") [("name", "attach")],
      example_junk, example_junk),
    (xml_event.start (WAYLAND_NS ++ "#arg") [("name", "x"), ("type", "int")],
      example_junk, example_junk),
    (xml_event.start (WAYLAND_NS ++ "#arg")
      [("name", "buffer"), ("type", "object"), ("interface", "wl_buffer")],
      example_junk, example_junk),
    (xml_event.start (WAYLAND_NS ++ "#event") [("name", "moved")],
      example_junk, example_junk),
    (xml_event.start (WAYLAND_NS ++ "#arg") [("name", "a"), ("type", "uint")],
      example_junk, example_junk),
    (xml_event.start (WAYLAND_NS ++ "#arg") [("name", "b"), ("type", "string")],
      example_junk, example_junk),
    (xml_event.start (WAYLAND_NS ++ "#property")
      [("name", "foo"), ("type", "string"), ("writable", "yes"), ("change-notify", "yes")],
      example_junk, example_junk),
    (xml_event.start (WAYLAND_NS ++ "#property")
      [("name", "mode"), ("type", "flags"), ("writable", "yes")],
      example_junk, example_junk) ]

/-- A document with one interface whose single request has an `object` arg. -/
def object_request_document : List (xml_event × uninit × uninit) :=
  let junk : uninit :=
    { type_index := 0, all_null := false, destructor := false, client_custom := false }
  [ (xml_event.start (WAYLAND_NS ++ "#protocol") [("name", "p")], junk, junk),
    (xml_event.start (WAYLAND_NS ++ "#interface") [("name", "bar"), ("version", "1")],
      junk, junk),
    (xml_event.start (WAYLAND_NS ++ "#request") [("name", "attach")], junk, junk),
    (xml_event.start (WAYLAND_NS ++ "#arg")
      [("name", "buffer"), ("type", "object"), ("interface", "wl_buffer")], junk, junk) ]

/-- A document with one interface that has one writable property of type `object`. -/
def object_property_document : List (xml_event × uninit × uninit) :=
  let junk : uninit :=
    { type_index := 0, all_null := false, destructor := false, client_custom := false }
  [ (xml_event.start (WAYLAND_NS ++ "#protocol") [("name", "p")], junk, junk),
    (xml_event.start (WAYLAND_NS ++ "#interface") [("name", "bar"), ("version", "1")],
      junk, junk),
    (xml_event.start (WAYLAND_NS ++ "#property")
      [("name", "parent"), ("type", "object"), ("interface", "wl_surface"),
        ("writable", "yes")], junk, junk) ]

/-- The context that a parse of `events` leaves, or the initial one when the parse
fails. -/
def built (events : List (xml_event × uninit × uninit)) : parse_context :=
  match build [] 0 events with
  | .ok ctx => ctx
  | .error _ => init_context [] 0

/-- The interface `bar` as its start element creates it. -/
def bar_interface : interface :=
  { name := "bar", uppercase_name := "BAR", version := 1, client_custom := false,
    client_global := false, request_list := [], event_list := [], enumeration_list := [],
    property_list := [] }

/-- A builder state whose current interface is `bar`. -/
def bar_context : parse_context :=
  { protocol :=
      { name := some "p", uppercase_name := some "P", interface_list := [bar_interface],
        type_index := 0, null_run_length := 0, copyright := none }
    interface := some 0
    message := none
    enumeration := none
    character_data := []
    character_data_length := 0 }

/-- The state after a start element on `bar_context`, or `bar_context` when it fails. -/
def bar_after (element_name : String) (atts : List (String × String)) : parse_context :=
  match start_element example_junk example_junk bar_context element_name atts with
  | .ok ctx => ctx
  | .error _ => bar_context

/-- The first interface of a built example, or `bar_interface` when there is none. -/
def first_interface (events : List (xml_event × uninit × uninit)) : interface :=
  match (built events).protocol.interface_list with
  | i :: _ => i
  | [] => bar_interface

/-- A document whose interface has the version text `-1`. -/
def negative_version_document : List (xml_event × uninit × uninit) :=
  [ (xml_event.start (WAYLAND_NS ++ "#protocol") [("name", "p")], example_junk, example_junk),
    (xml_event.start (WAYLAND_NS ++ "#interface") [("name", "bar"), ("version", "-1")],
      example_junk, example_junk) ]

/-- A document whose single request has two `object` args of the same interface. -/
def two_buffers_document : List (xml_event × uninit × uninit) :=
  [ (xml_event.start (WAYLAND_NS ++ "#protocol") [("name", "p")], example_junk, example_junk),
    (xml_event.start (WAYLAND_NS ++ "#interface") [("name", "bar"), ("version", "1")],
      example_junk, example_junk),
    (xml_event.start (WAYLAND_NS ++ "#request") [("name", "swap")],
      example_junk, example_junk),
    (xml_event.start (WAYLAND_NS ++ "#arg")
      [("name", "front"), ("type", "object"), ("interface", "wl_buffer")],
      example_junk, example_junk),
    (xml_event.start (WAYLAND_NS ++ "#arg")
      [("name", "back"), ("type", "object"), ("interface", "wl_buffer")],
      example_junk, example_junk) ]

/-- A document whose interface is flagged `custom` for the client and has one event. -/
def custom_event_document : List (xml_event × uninit × uninit) :=
  [ (xml_event.start (WAYLAND_NS ++ "#protocol") [("name", "p")], example_junk, example_junk),
    (xml_event.start (WAYLAND_NS ++ "#interface")
      [("name", "bar"), ("version", "1"), (WAYLAND_CLIENT_NS ++ "#custom", "yes")],
      example_junk, example_junk),
    (xml_event.start (WAYLAND_NS ++ "#event") [("name", "ping")],
      example_junk, example_junk) ]

/-- A document with one interface that has one writable string property, parsed with the
storage contents `junk` in every allocation. -/
def writable_property_document (junk : uninit) : List (xml_event × uninit × uninit) :=
  [ (xml_event.start (WAYLAND_NS ++ "#protocol") [("name", "p")], junk, junk),
    (xml_event.start (WAYLAND_NS ++ "#interface") [("name", "bar"), ("version", "1")],
      junk, junk),
    (xml_event.start (WAYLAND_NS ++ "#property")
      [("name", "foo"), ("type", "string"), ("writable", "yes")], junk, junk) ]

/-- Storage in which every field is zero. -/
def zero_junk : uninit :=
  { type_index := 0, all_null := false, destructor := false, client_custom := false }

/-- A document whose copyright text neither starts nor ends with a newline. -/
def copyright_document : List (xml_event × uninit × uninit) :=
  [ (xml_event.start (WAYLAND_NS ++ "#protocol") [("name", "p")], example_junk, example_junk),
    (xml_event.start (WAYLAND_NS ++ "#copyright") [], example_junk, example_junk),
    (xml_event.text "Copyright X\nlast", example_junk, example_junk),
    (xml_event.finish (WAYLAND_NS ++ "#copyright"), example_junk, example_junk) ]

/-- A document whose protocol element holds a request or event element directly, outside
any interface element. -/
def orphan_message_document (element_name : String) (atts : List (String × String)) :
    List (xml_event × uninit × uninit) :=
  [ (xml_event.start (WAYLAND_NS ++ "#protocol") [("name", "p")], example_junk, example_junk),
    (xml_event.start (WAYLAND_NS ++ element_name) atts, example_junk, example_junk) ]

/-! ## The builder keeps the model well formed -/

theorem type_from_string_ne_flags (t : String) : type_from_string t ≠ arg_type.FLAGS := by
  unfold type_from_string
  repeat' split
  all_goals simp

theorem make_arg_ok {n t i : Option String} {a : arg} (h : make_arg n t i = .ok a) :
    arg_ok a := by
  unfold make_arg at h
  split at h
  · cases h
  · split at h
    · cases h
    · rename_i name type
      split at h
      · rename_i hne
        cases h
        refine ⟨hne, type_from_string_ne_flags _, ?_⟩
        intro ho
        exfalso
        have hv : type_from_string type ≠ arg_type.NEW_ID ∧
            type_from_string type ≠ arg_type.OBJECT := by
          unfold type_from_string
          repeat' split
          all_goals simp
        rcases ho with ho | ho
        · exact hv.1 ho
        · exact hv.2 ho
      · split at h
        · split at h
          · cases h
          · cases h
            exact ⟨by simp, by simp, fun _ => ⟨_, rfl⟩⟩
        · split at h
          · split at h
            · cases h
            · cases h
              exact ⟨by simp, by simp, fun _ => ⟨_, rfl⟩⟩
          · cases h

theorem mem_set_cases {α : Type} {l : List α} {n : Nat} {a x : α} (h : x ∈ l.set n a) :
    x = a ∨ x ∈ l := by
  rcases List.mem_or_eq_of_mem_set h with h | h
  · exact Or.inr h
  · exact Or.inl h

theorem mem_of_getElem? {α : Type} {l : List α} {n : Nat} {a : α} (h : l[n]? = some a) :
    a ∈ l :=
  List.mem_iff_getElem?.mpr ⟨n, h⟩

theorem protocol_ok_set_interface {ctx : parse_context} {ii : Nat} {i : interface}
    (hp : protocol_ok ctx.protocol) (hi : interface_ok i) :
    protocol_ok (set_interface ctx ii i).protocol := by
  refine ⟨hp.1, hp.2.1, ?_⟩
  intro x hx
  rcases mem_set_cases hx with h | h
  · exact h ▸ hi
  · exact hp.2.2 x h

theorem current_interface_mem {ctx : parse_context} {ii : Nat} {i : interface}
    (h : current_interface ctx = .ok (ii, i)) :
    ctx.interface = some ii ∧ ctx.protocol.interface_list[ii]? = some i := by
  unfold current_interface at h
  cases h1 : ctx.interface with
  | none => simp [h1] at h
  | some k =>
    simp only [h1] at h
    cases h2 : ctx.protocol.interface_list[k]? with
    | none => simp [h2] at h
    | some j =>
      simp only [h2] at h
      cases h
      exact ⟨rfl, h2⟩

theorem synthesize_ok {junk : uninit} {p : property} {mn t : String} {i : Option String}
    {m : message} (h : synthesize junk p mn t i = .ok m) : message_ok m := by
  unfold synthesize at h
  split at h
  · split at h
    · cases h
    · split at h
      · cases h
      · rename_i a1 h1 _ a2 h2
        cases h
        refine ⟨rfl, rfl, ?_⟩
        intro a ha
        simp at ha
        rcases ha with rfl | rfl
        · exact make_arg_ok h1
        · exact make_arg_ok h2
  · split at h
    · cases h
    · rename_i a1 h1
      cases h
      refine ⟨rfl, rfl, ?_⟩
      intro a ha
      simp at ha
      subst ha
      exact make_arg_ok h1

theorem interface_ok_of_getElem? {p : protocol} {ii : Nat} {i : interface}
    (hp : protocol_ok p) (h : p.interface_list[ii]? = some i) : interface_ok i :=
  hp.2.2 i (mem_of_getElem? h)

theorem start_interface_ok {ctx ctx' : parse_context} {a : attributes}
    (hp : protocol_ok ctx.protocol) (h : start_interface ctx a = .ok ctx') :
    protocol_ok ctx'.protocol := by
  unfold start_interface at h
  split at h
  · cases h
  · split at h
    · cases h
    · cases h
      refine ⟨hp.1, hp.2.1, ?_⟩
      intro x hx
      simp only [List.mem_append, List.mem_singleton] at hx
      rcases hx with hx | rfl
      · exact hp.2.2 x hx
      · exact ⟨rfl, by simp, by simp⟩

theorem start_message_ok {junk : uninit} {ctx ctx' : parse_context} {a : attributes}
    {ev : Bool} (hp : protocol_ok ctx.protocol) (h : start_message junk ctx a ev = .ok ctx') :
    protocol_ok ctx'.protocol := by
  unfold start_message at h
  split at h
  · cases h
  · split at h
    · cases h
    · rename_i ii i hci
      have hi := interface_ok_of_getElem? hp (current_interface_mem hci).2
      have hm : ∀ (n : String) (d : Bool), message_ok
          { name := n, uppercase_name := uppercase_dup n, arg_list := [], arg_count := 0,
            property := none, client_custom := a.client_custom, destructor := d,
            type_index := junk.type_index, all_null := junk.all_null } :=
        fun n d => ⟨rfl, rfl, by simp⟩
      dsimp only at h
      split at h
      · cases h
      · split at h
        · cases h
          apply protocol_ok_set_interface hp
          refine ⟨hi.1, hi.2.1, ?_⟩
          intro m hmem
          simp only [List.mem_append, List.mem_singleton] at hmem
          rcases hmem with hmem | rfl
          · exact hi.2.2 m hmem
          · exact hm _ _
        · cases h
          apply protocol_ok_set_interface hp
          refine ⟨hi.1, ?_, hi.2.2⟩
          intro m hmem
          simp only [List.mem_append, List.mem_singleton] at hmem
          rcases hmem with hmem | rfl
          · exact hi.2.1 m hmem
          · exact hm _ _

theorem start_property_ok {junk₁ junk₂ : uninit} {ctx ctx' : parse_context} {a : attributes}
    (hp : protocol_ok ctx.protocol) (h : start_property junk₁ junk₂ ctx a = .ok ctx') :
    protocol_ok ctx'.protocol := by
  unfold start_property at h
  split at h
  · cases h
  · split at h
    · cases h
    · split at h
      · cases h
      · rename_i ii i hci
        have hi := interface_ok_of_getElem? hp (current_interface_mem hci).2
        dsimp only at h
        split at h
        · cases h
        · rename_i i1 h1
          split at h
          · cases h
          · rename_i i2 h2
            cases h
            apply protocol_ok_set_interface hp
            have hi1 : interface_ok i1 := by
              split at h1
              · split at h1
                · cases h1
                · rename_i m hs
                  cases h1
                  refine ⟨hi.1, ?_, hi.2.2⟩
                  intro x hx
                  simp only [List.mem_append, List.mem_singleton] at hx
                  rcases hx with hx | rfl
                  · exact hi.2.1 x hx
                  · exact synthesize_ok hs
              · cases h1
                exact hi
            split at h2
            · split at h2
              · cases h2
              · rename_i m hs
                cases h2
                refine ⟨hi1.1, hi1.2.1, ?_⟩
                intro x hx
                simp only [List.mem_append, List.mem_singleton] at hx
                rcases hx with hx | rfl
                · exact hi1.2.2 x hx
                · exact synthesize_ok hs
            · cases h2
              exact hi1

theorem start_arg_inv {ctx ctx' : parse_context} {a : attributes}
    (h : start_arg ctx a = .ok ctx') :
    ∃ x ii ev mi i m, make_arg a.name a.type a.interface_name = .ok x ∧
      ctx.message = some (ii, ev, mi) ∧ ctx.protocol.interface_list[ii]? = some i ∧
      (if ev then i.event_list else i.request_list)[mi]? = some m ∧
      ctx' = set_interface ctx ii
        (if ev then
          { i with event_list := i.event_list.set mi (add_arg m x) }
        else
          { i with request_list := i.request_list.set mi (add_arg m x) }) := by
  unfold start_arg at h
  cases hx : make_arg a.name a.type a.interface_name with
  | error e => simp [hx] at h
  | ok x =>
    simp only [hx] at h
    cases hmsg : ctx.message with
    | none => simp [hmsg] at h
    | some loc =>
      obtain ⟨ii, ev, mi⟩ := loc
      simp only [hmsg] at h
      cases hi : ctx.protocol.interface_list[ii]? with
      | none => simp [hi] at h
      | some i =>
        simp only [hi] at h
        cases hm : (if ev then i.event_list else i.request_list)[mi]? with
        | none => simp [hm] at h
        | some m =>
          simp only [hm] at h
          refine ⟨x, ii, ev, mi, i, m, rfl, rfl, hi, hm, ?_⟩
          cases ev
          · simp at h
            simp [← h]
          · simp at h
            simp [← h]

theorem start_arg_ok {ctx ctx' : parse_context} {a : attributes}
    (hp : protocol_ok ctx.protocol) (h : start_arg ctx a = .ok ctx') :
    protocol_ok ctx'.protocol := by
  obtain ⟨x, ii, ev, mi, i, m, hx, -, hi, hm, rfl⟩ := start_arg_inv h
  have hio := interface_ok_of_getElem? hp hi
  have hmo : message_ok m := by
    have := mem_of_getElem? hm
    cases ev
    · exact hio.2.1 m (by simpa using this)
    · exact hio.2.2 m (by simpa using this)
  have hm' : message_ok (add_arg m x) := by
    refine ⟨by simp [add_arg, hmo.1], hmo.2.1, ?_⟩
    intro y hy
    simp only [add_arg, List.mem_append, List.mem_singleton] at hy
    rcases hy with hy | rfl
    · exact hmo.2.2 y hy
    · exact make_arg_ok hx
  apply protocol_ok_set_interface hp
  cases ev
  · refine ⟨hio.1, ?_, hio.2.2⟩
    intro y hy
    rcases mem_set_cases hy with rfl | hy
    · exact hm'
    · exact hio.2.1 y hy
  · refine ⟨hio.1, hio.2.1, ?_⟩
    intro y hy
    rcases mem_set_cases hy with rfl | hy
    · exact hm'
    · exact hio.2.2 y hy

theorem start_enum_ok {ctx ctx' : parse_context} {a : attributes}
    (hp : protocol_ok ctx.protocol) (h : start_enum ctx a = .ok ctx') :
    protocol_ok ctx'.protocol := by
  unfold start_enum at h
  split at h
  · cases h
  · split at h
    · cases h
    · rename_i ii i hci
      have hi := interface_ok_of_getElem? hp (current_interface_mem hci).2
      cases h
      exact protocol_ok_set_interface hp ⟨hi.1, hi.2.1, hi.2.2⟩

theorem start_entry_ok {ctx ctx' : parse_context} {a : attributes}
    (hp : protocol_ok ctx.protocol) (h : start_entry ctx a = .ok ctx') :
    protocol_ok ctx'.protocol := by
  unfold start_entry at h
  split at h
  · split at h
    · cases h
    · split at h
      · cases h
      · rename_i i hi
        have hio := interface_ok_of_getElem? hp hi
        split at h
        · cases h
        · cases h
          exact protocol_ok_set_interface hp ⟨hio.1, hio.2.1, hio.2.2⟩
  · cases h

theorem start_element_ok {junk₁ junk₂ : uninit} {ctx ctx' : parse_context} {en : String}
    {atts : List (String × String)} (hp : protocol_ok ctx.protocol)
    (h : start_element junk₁ junk₂ ctx en atts = .ok ctx') : protocol_ok ctx'.protocol := by
  unfold start_element at h
  simp only at h
  have hp0 : protocol_ok
      ({ ctx with character_data_length := 0 } : parse_context).protocol := hp
  split at h
  · split at h
    · cases h
    · cases h
      exact hp
  · split at h
    · cases h
      exact hp
    · split at h
      · exact start_interface_ok hp0 h
      · split at h
        · exact start_message_ok hp0 h
        · split at h
          · exact start_message_ok hp0 h
          · split at h
            · exact start_property_ok hp0 h
            · split at h
              · exact start_arg_ok hp0 h
              · split at h
                · exact start_enum_ok hp0 h
                · split at h
                  · exact start_entry_ok hp0 h
                  · cases h
                    exact hp

theorem handle_ok {ctx ctx' : parse_context} {e : xml_event × uninit × uninit}
    (hp : protocol_ok ctx.protocol) (h : handle ctx e = .ok ctx') :
    protocol_ok ctx'.protocol := by
  unfold handle at h
  split at h
  · exact start_element_ok hp h
  · cases h
    unfold end_element
    split
    · exact hp
    · exact hp
  · unfold character_data at h
    simp only at h
    split at h
    · cases h
    · split at h
      · cases h
      · cases h
        exact hp

theorem feed_ok {events : List (xml_event × uninit × uninit)} {ctx ctx' : parse_context}
    (hp : protocol_ok ctx.protocol) (h : feed ctx events = .ok ctx') :
    protocol_ok ctx'.protocol := by
  induction events generalizing ctx with
  | nil =>
    simp only [feed] at h
    cases h
    exact hp
  | cons e rest ih =>
    simp only [feed] at h
    split at h
    · cases h
    · rename_i c hc
      exact ih (handle_ok hp hc) h

/-- Every model that the builder accepts is well formed: each message counts its args,
each arg has a tag assigned by `make_arg`, and the upper-case names are those of
`uppercase_dup`. -/
theorem build_ok {sd : List Char} {sl : Int} {events : List (xml_event × uninit × uninit)}
    {ctx : parse_context} (h : build sd sl events = .ok ctx) : protocol_ok ctx.protocol := by
  apply feed_ok _ h
  refine ⟨rfl, rfl, ?_⟩
  intro i hi
  simp [init_context] at hi

/-! ## The planning loops in closed form -/

theorem forward_args_spec (l : List arg) (n : Nat) (b : Bool) :
    (emit_types_forward_declarations_args l n b).1 = n + l.length ∧
    (emit_types_forward_declarations_args l n b).2.1 =
      (b && l.all fun a => a.type ≠ arg_type.NEW_ID && a.type ≠ arg_type.OBJECT) := by
  induction l generalizing n b with
  | nil => simp [emit_types_forward_declarations_args]
  | cons a rest ih =>
    cases hty : a.type <;>
      simp [emit_types_forward_declarations_args, hty, ih] <;> omega

theorem forward_head (m : message) :
    (emit_types_forward_declarations_args m.arg_list 0 true).1 = m.arg_list.length ∧
    (emit_types_forward_declarations_args m.arg_list 0 true).2.1 = no_object_arg m := by
  have h := forward_args_spec m.arg_list 0 true
  simp only [Nat.zero_add, Bool.true_and] at h
  exact ⟨h.1, h.2⟩

theorem null_run_of_nil : null_run_of [] = 0 := rfl

theorem null_run_of_cons (m : message) (ms : List message) :
    null_run_of (m :: ms) =
      if no_object_arg m then max m.arg_list.length (null_run_of ms) else null_run_of ms := by
  unfold null_run_of
  by_cases h : no_object_arg m = true <;> simp [List.filter_cons, h]

theorem null_run_of_append (a b : List message) :
    null_run_of (a ++ b) = max (null_run_of a) (null_run_of b) := by
  induction a with
  | nil => simp [null_run_of_nil]
  | cons m ms ih =>
    simp only [List.cons_append, null_run_of_cons, ih]
    split <;> simp [Nat.max_assoc]

theorem forward_declarations_spec (ms : List message) (n : Nat) :
    (emit_types_forward_declarations n ms).1 = max n (null_run_of ms) ∧
    (emit_types_forward_declarations n ms).2.1 = ms.map flagged := by
  induction ms generalizing n with
  | nil => simp [emit_types_forward_declarations, null_run_of_nil]
  | cons m rest ih =>
    have hh := forward_head m
    simp only [emit_types_forward_declarations, ih, hh.1, hh.2, null_run_of_cons,
      List.map_cons, flagged, and_true]
    by_cases h : no_object_arg m = true
    · simp only [h, Bool.true_and, if_true]
      split
      · rename_i hgt
        simp only [decide_eq_true_eq] at hgt
        omega
      · rename_i hgt
        simp only [decide_eq_true_eq] at hgt
        omega
    · simp [h]

theorem messages_of_cons (i : interface) (l : List interface) :
    messages_of (i :: l) = i.request_list ++ i.event_list ++ messages_of l := by
  simp [messages_of]

theorem code_forward_declarations_spec (l : List interface) (n : Nat) :
    (emit_code_forward_declarations n l).1 = max n (null_run_of (messages_of l)) ∧
    messages_of (emit_code_forward_declarations n l).2.1 = (messages_of l).map flagged := by
  induction l generalizing n with
  | nil => simp [emit_code_forward_declarations, messages_of, null_run_of_nil]
  | cons i rest ih =>
    simp only [emit_code_forward_declarations, ih, forward_declarations_spec,
      messages_of_cons, null_run_of_append, List.map_append, and_true]
    omega

theorem advance_nil : advance [] = 0 := rfl

theorem advance_cons (m : message) (ms : List message) :
    advance (m :: ms) = (if m.all_null then 0 else m.arg_count) + advance ms := by
  unfold advance
  cases h : m.all_null <;> simp [List.filter_cons, h]

theorem advance_append (a b : List message) : advance (a ++ b) = advance a + advance b := by
  simp [advance, List.filter_append, List.sum_append]

theorem entries_append (a b : List message) : entries (a ++ b) = entries a ++ entries b := by
  simp [entries, List.filter_append]

theorem entries_cons (m : message) (ms : List message) :
    entries (m :: ms) =
      (if m.all_null then [] else m.arg_list.map emit_types_arg) ++ entries ms := by
  unfold entries
  cases h : m.all_null <;> simp [List.filter_cons, h]

theorem emit_types_fst (n c : Nat) (ms : List message) :
    (emit_types n c ms).1 = c + advance ms := by
  induction ms generalizing c with
  | nil => simp [emit_types, advance_nil]
  | cons m rest ih =>
    cases h : m.all_null <;> simp [emit_types, h, ih, advance_cons]
    omega

theorem emit_types_entries (n c : Nat) (ms : List message) :
    (emit_types n c ms).2.2 = entries ms := by
  induction ms generalizing c with
  | nil => simp [emit_types, entries]
  | cons m rest ih =>
    cases h : m.all_null <;> simp [emit_types, h, ih, entries_cons]

theorem emit_types_getElem? (n c : Nat) (ms : List message) (j : Nat) :
    (emit_types n c ms).2.1[j]? =
      ms[j]?.map (placed n (c + advance (ms.take j))) := by
  induction ms generalizing c j with
  | nil => simp [emit_types]
  | cons m rest ih =>
    cases j with
    | zero =>
      cases h : m.all_null <;> simp [emit_types, h, placed, advance_nil]
    | succ j =>
      cases h : m.all_null <;>
        simp [emit_types, h, ih, advance_cons, Nat.add_assoc]

theorem emit_types_length (n c : Nat) (ms : List message) :
    (emit_types n c ms).2.1.length = ms.length := by
  induction ms generalizing c with
  | nil => simp [emit_types]
  | cons m rest ih =>
    cases h : m.all_null <;> simp [emit_types, h, ih]

theorem emit_types_append (n c : Nat) (a b : List message) :
    emit_types n c (a ++ b) =
      ((emit_types n (emit_types n c a).1 b).1,
        (emit_types n c a).2.1 ++ (emit_types n (emit_types n c a).1 b).2.1,
        (emit_types n c a).2.2 ++ (emit_types n (emit_types n c a).1 b).2.2) := by
  induction a generalizing c with
  | nil => simp [emit_types]
  | cons m rest ih =>
    cases h : m.all_null <;> simp [emit_types, h, ih]

theorem code_types_spec (n c : Nat) (l : List interface) :
    (emit_code_types n c l).1 = (emit_types n c (messages_of l)).1 ∧
    messages_of (emit_code_types n c l).2.1 = (emit_types n c (messages_of l)).2.1 ∧
    (emit_code_types n c l).2.2 = (emit_types n c (messages_of l)).2.2 := by
  induction l generalizing c with
  | nil => simp [emit_code_types, messages_of, emit_types]
  | cons i rest ih =>
    simp only [emit_code_types, messages_of_cons, emit_types_append, ih, List.append_assoc,
      and_self]

theorem messages_eq (p : protocol) : messages p = messages_of p.interface_list := rfl

theorem advance_map_flagged (ms : List message) :
    advance (ms.map flagged) = slice_total ms := by
  induction ms with
  | nil => rfl
  | cons m rest ih =>
    have h1 : slice_total (m :: rest) =
        (if no_object_arg m then 0 else m.arg_count) + slice_total rest := by
      unfold slice_total
      cases h : no_object_arg m <;> simp [List.filter_cons, h]
    rw [List.map_cons, advance_cons, ih, h1]
    rfl

theorem null_run_of_map_flagged (ms : List message) :
    null_run_of (ms.map flagged) = null_run_of ms := by
  induction ms with
  | nil => rfl
  | cons m rest ih =>
    rw [List.map_cons, null_run_of_cons, null_run_of_cons, ih]
    rfl

/-- What the two planning loops of `emit_code` compute, in closed form. -/
theorem plan_spec (p : protocol) :
    (emit_code_plan p).protocol.null_run_length =
      max p.null_run_length (null_run_of (messages p)) ∧
    (emit_code_plan p).protocol.type_index = p.type_index + slice_total (messages p) ∧
    (∀ j, (messages (emit_code_plan p).protocol)[j]? =
      (messages p)[j]?.map fun m =>
        placed (max p.null_run_length (null_run_of (messages p)))
          (p.type_index + slice_total ((messages p).take j)) (flagged m)) ∧
    (emit_code_plan p).null_run =
      List.replicate (max p.null_run_length (null_run_of (messages p))) "\tNULL,\n" ∧
    (emit_code_plan p).types = entries ((messages p).map flagged) := by
  have hf := code_forward_declarations_spec p.interface_list p.null_run_length
  have ht := code_types_spec
    (emit_code_forward_declarations p.null_run_length p.interface_list).1 p.type_index
    (emit_code_forward_declarations p.null_run_length p.interface_list).2.1
  rw [hf.2] at ht
  refine ⟨hf.1, ?_, ?_, ?_, ?_⟩
  · show (emit_code_types _ _ _).1 = _
    rw [ht.1, emit_types_fst, advance_map_flagged]
    rfl
  · intro j
    show (messages_of (emit_code_types _ _ _).2.1)[j]? = _
    rw [ht.2.1, emit_types_getElem?, hf.1, ← List.map_take, advance_map_flagged,
      List.getElem?_map, Option.map_map]
    rfl
  · show List.replicate (emit_code_forward_declarations _ _).1 _ = _
    rw [hf.1]
    rfl
  · show (emit_code_types _ _ _).2.2 = _
    rw [ht.2.2, emit_types_entries]
    rfl

/-! ## The shared type table -/

theorem slice_total_append (a b : List message) :
    slice_total (a ++ b) = slice_total a + slice_total b := by
  simp [slice_total, List.filter_append, List.sum_append]

theorem slice_total_take_succ {ms : List message} {j : Nat} {m : message}
    (h : ms[j]? = some m) :
    slice_total (ms.take (j + 1)) =
      slice_total (ms.take j) + (if no_object_arg m then 0 else m.arg_count) := by
  rw [List.take_succ, h, slice_total_append]
  cases hm : no_object_arg m <;> simp [slice_total, List.filter_cons, hm]

theorem slice_total_take_mono (ms : List message) {j k : Nat} (h : j ≤ k) :
    slice_total (ms.take j) ≤ slice_total (ms.take k) := by
  have : ms.take k = ms.take j ++ (ms.take k).drop j := by
    conv_lhs => rw [← List.take_append_drop j (ms.take k)]
    rw [List.take_take, Nat.min_eq_left h]
  rw [this, slice_total_append]
  exact Nat.le_add_right _ _

theorem null_run_of_ge {ms : List message} {m : message} (hm : m ∈ ms)
    (h : no_object_arg m = true) : m.arg_list.length ≤ null_run_of ms := by
  induction ms with
  | nil => cases hm
  | cons x rest ih =>
    rw [null_run_of_cons]
    rcases List.mem_cons.mp hm with rfl | hm
    · rw [if_pos h]
      exact Nat.le_max_left _ _
    · have := ih hm
      split
      · exact Nat.le_trans this (Nat.le_max_right _ _)
      · exact this

theorem null_run_of_attained (ms : List message) :
    null_run_of ms = 0 ∨
      ∃ m ∈ ms, no_object_arg m = true ∧ m.arg_list.length = null_run_of ms := by
  induction ms with
  | nil => exact Or.inl rfl
  | cons x rest ih =>
    rw [null_run_of_cons]
    split
    · rename_i hx
      rcases Nat.le_total x.arg_list.length (null_run_of rest) with hle | hle
      · rw [Nat.max_eq_right hle]
        rcases ih with h0 | ⟨m, hm, h1, h2⟩
        · exact Or.inl h0
        · exact Or.inr ⟨m, List.mem_cons_of_mem _ hm, h1, h2⟩
      · rw [Nat.max_eq_left hle]
        exact Or.inr ⟨x, List.mem_cons_self _ _, hx, rfl⟩
    · rcases ih with h0 | ⟨m, hm, h1, h2⟩
      · exact Or.inl h0
      · exact Or.inr ⟨m, List.mem_cons_of_mem _ hm, h1, h2⟩

/-- C7. The forward-declaration pass of `emit_code`, started with `null_run_length = 0`,
leaves in `null_run_length` the greatest arg number among the messages without `object`
and `new_id` args (an upper bound that is attained, or 0), and changes of the messages
only the flag `all_null`, which it sets exactly for the messages without such an arg;
`emit_code` ends with that `null_run_length`. -/
theorem null_run_length_is_maximum (p : protocol) (h0 : p.null_run_length = 0) :
    (emit_code_forward_declarations p.null_run_length p.interface_list).1 =
      null_run_of (messages p) ∧
    (∀ m ∈ messages p, no_object_arg m = true →
      m.arg_list.length ≤
        (emit_code_forward_declarations p.null_run_length p.interface_list).1) ∧
    ((emit_code_forward_declarations p.null_run_length p.interface_list).1 = 0 ∨
      ∃ m ∈ messages p, no_object_arg m = true ∧ m.arg_list.length =
        (emit_code_forward_declarations p.null_run_length p.interface_list).1) ∧
    messages_of (emit_code_forward_declarations p.null_run_length p.interface_list).2.1 =
      (messages p).map (fun m => { m with all_null := no_object_arg m }) ∧
    (∀ m ∈ messages_of
        (emit_code_forward_declarations p.null_run_length p.interface_list).2.1,
      m.all_null = no_object_arg m) ∧
    (emit_code p).1.null_run_length =
      (emit_code_forward_declarations p.null_run_length p.interface_list).1 := by
  have hf := code_forward_declarations_spec p.interface_list p.null_run_length
  have hN : (emit_code_forward_declarations p.null_run_length p.interface_list).1 =
      null_run_of (messages p) := by
    rw [hf.1, h0]
    exact Nat.zero_max _
  refine ⟨hN, ?_, ?_, hf.2, ?_, rfl⟩
  · intro m hm h
    rw [hN]
    exact null_run_of_ge hm h
  · rw [hN]
    exact null_run_of_attained _
  · intro m hm
    rw [hf.2] at hm
    obtain ⟨m0, -, rfl⟩ := List.mem_map.mp hm
    rfl

theorem messages_ok {p : protocol} (hp : protocol_ok p) {m : message} (hm : m ∈ messages p) :
    message_ok m := by
  simp only [messages, messages_of, List.mem_flatMap, List.mem_append] at hm
  obtain ⟨i, hi, hm | hm⟩ := hm
  · exact (hp.2.2 i hi).2.1 m hm
  · exact (hp.2.2 i hi).2.2 m hm

theorem arg_count_pos {m : message} (hm : message_ok m) (h : no_object_arg m = false) :
    0 < m.arg_count := by
  rw [hm.1]
  cases hl : m.arg_list with
  | nil => simp [no_object_arg, hl] at h
  | cons a rest => simp

/-- The planned form of a built protocol: the closed form of `plan_spec` with the two
counters at the zero that `main` gave them. -/
theorem plan_built {p : protocol} (hp : protocol_ok p) :
    (emit_code_plan p).protocol.null_run_length = null_run_of (messages p) ∧
    (emit_code_plan p).protocol.type_index = slice_total (messages p) ∧
    ∀ j, (messages (emit_code_plan p).protocol)[j]? =
      (messages p)[j]?.map fun m =>
        placed (null_run_of (messages p)) (slice_total ((messages p).take j)) (flagged m) := by
  have h := plan_spec p
  rw [hp.1, hp.2.1] at h
  simp only [Nat.zero_max, Nat.zero_add] at h
  exact ⟨h.1, h.2.1, h.2.2.1⟩

/-- C8. After `emit_code` on a built model, the message at position `j` of the traversal
is the built one with `all_null` set iff it has no `object`/`new_id` arg and with
`type_index` 0 if so (in particular if it has no arg) and otherwise `null_run_length` plus
the arg counts of the earlier messages that have such an arg; the slices
`[type_index, type_index + arg_count)` of two messages with such args are disjoint, their
offsets differ, and they start at or after the end of the null run. -/
theorem type_index_assignment (sd : List Char) (sl : Int)
    (events : List (xml_event × uninit × uninit)) (ctx : parse_context)
    (h : build sd sl events = .ok ctx) :
    (∀ (j : Nat) (m0 : message), (messages ctx.protocol)[j]? = some m0 →
      (messages (emit_code ctx.protocol).1)[j]? = some
        { m0 with
          all_null := no_object_arg m0
          type_index :=
            if no_object_arg m0 then 0
            else (emit_code ctx.protocol).1.null_run_length +
              slice_total ((messages ctx.protocol).take j) }) ∧
    (∀ m ∈ messages (emit_code ctx.protocol).1, m.arg_list = [] → m.type_index = 0) ∧
    (∀ (j k : Nat) (m m' : message), j < k →
      (messages (emit_code ctx.protocol).1)[j]? = some m →
      (messages (emit_code ctx.protocol).1)[k]? = some m' →
      m.all_null = false → m'.all_null = false →
      m.type_index + m.arg_count ≤ m'.type_index ∧ m.type_index ≠ m'.type_index ∧
      (emit_code ctx.protocol).1.null_run_length ≤ m.type_index ∧
      (emit_code ctx.protocol).1.null_run_length ≤ m'.type_index) := by
  have hp := build_ok h
  obtain ⟨hN, -, hj⟩ := plan_built hp
  have hq : (emit_code ctx.protocol).1 = (emit_code_plan ctx.protocol).protocol := rfl
  rw [hq, hN]
  have key : ∀ j m, (messages (emit_code_plan ctx.protocol).protocol)[j]? = some m →
      ∃ m0, (messages ctx.protocol)[j]? = some m0 ∧
        m = placed (null_run_of (messages ctx.protocol))
          (slice_total ((messages ctx.protocol).take j)) (flagged m0) := by
    intro j m hm
    rw [hj j] at hm
    cases h0 : (messages ctx.protocol)[j]? with
    | none => simp [h0] at hm
    | some m0 =>
      simp only [h0, Option.map_some', Option.some.injEq] at hm
      exact ⟨m0, rfl, hm.symm⟩
  refine ⟨?_, ?_, ?_⟩
  · intro j m0 h0
    rw [hj j, h0]
    rfl
  · intro m hm hnil
    obtain ⟨j, hjm⟩ := List.mem_iff_getElem?.mp hm
    obtain ⟨m0, -, rfl⟩ := key j m hjm
    have : no_object_arg m0 = true := by
      have h1 : m0.arg_list = [] := hnil
      simp [no_object_arg, h1]
    simp [placed, flagged, this]
  · intro j k m m' hjk hm hm' hn hn'
    obtain ⟨m0, h0, rfl⟩ := key j m hm
    obtain ⟨m0', h0', rfl⟩ := key k m' hm'
    have hn0 : no_object_arg m0 = false := hn
    have hn0' : no_object_arg m0' = false := hn'
    have hpos := arg_count_pos (messages_ok hp (mem_of_getElem? h0)) hn0
    have hs := slice_total_take_succ h0
    have hmono : slice_total ((messages ctx.protocol).take (j + 1)) ≤
        slice_total ((messages ctx.protocol).take k) :=
      slice_total_take_mono (messages ctx.protocol) hjk
    simp only [hn0, Bool.false_eq_true, if_false] at hs
    simp only [placed, flagged, hn0, hn0', Bool.false_eq_true, if_false]
    refine ⟨?_, ?_, ?_, ?_⟩ <;> omega

theorem null_run_of_congr {a b : List message} (h : a.map shape = b.map shape) :
    null_run_of a = null_run_of b := by
  induction a generalizing b with
  | nil =>
    cases b with
    | nil => rfl
    | cons y ys => simp at h
  | cons x xs ih =>
    cases b with
    | nil => simp at h
    | cons y ys =>
      simp only [List.map_cons, List.cons.injEq] at h
      have hxy : x.arg_list = y.arg_list := congrArg Prod.fst h.1
      rw [null_run_of_cons, null_run_of_cons, ih h.2]
      simp only [no_object_arg, hxy]

theorem slice_total_congr {a b : List message} (h : a.map shape = b.map shape) :
    slice_total a = slice_total b := by
  induction a generalizing b with
  | nil =>
    cases b with
    | nil => rfl
    | cons y ys => simp at h
  | cons x xs ih =>
    cases b with
    | nil => simp at h
    | cons y ys =>
      simp only [List.map_cons, List.cons.injEq] at h
      have hxy : x.arg_list = y.arg_list := congrArg Prod.fst h.1
      have hc : x.arg_count = y.arg_count := congrArg Prod.snd h.1
      have e : ∀ (m : message) (ms : List message), slice_total (m :: ms) =
          (if no_object_arg m then 0 else m.arg_count) + slice_total ms := by
        intro m ms
        unfold slice_total
        cases hm : no_object_arg m <;> simp [List.filter_cons, hm]
      rw [e, e, ih h.2]
      simp only [no_object_arg, hxy, hc]

theorem plan_shape (p : protocol) :
    (messages (emit_code_plan p).protocol).map shape = (messages p).map shape := by
  apply List.ext_getElem?
  intro j
  rw [List.getElem?_map, List.getElem?_map, (plan_spec p).2.2.1 j, Option.map_map]
  rfl

/-- C9, as the code has it. A second run of the two planning loops of `emit_code` leaves
`null_run_length` and every `all_null` flag as the first run left them and leaves the
`type_index` of every message without `object`/`new_id` arg at 0, but it adds to the
`type_index` of every other message the sum of the arg counts of all messages with such an
arg: the cursor `protocol->type_index` goes on from where the first run stopped. -/
theorem second_planning_run (p : protocol) :
    (emit_code_plan (emit_code_plan p).protocol).protocol.null_run_length =
      (emit_code_plan p).protocol.null_run_length ∧
    (emit_code_plan (emit_code_plan p).protocol).protocol.type_index =
      (emit_code_plan p).protocol.type_index + slice_total (messages p) ∧
    ∀ (j : Nat) (m : message), (messages (emit_code_plan p).protocol)[j]? = some m →
      (messages (emit_code_plan (emit_code_plan p).protocol).protocol)[j]? = some
        { m with type_index :=
            if m.all_null then m.type_index else m.type_index + slice_total (messages p) } ∧
      (m.all_null = true → m.type_index = 0) := by
  have h1 := plan_spec p
  have h2 := plan_spec (emit_code_plan p).protocol
  have hs := plan_shape p
  have hn := null_run_of_congr hs
  have ht := slice_total_congr hs
  rw [hn, h1.1] at h2
  rw [ht, h1.2.1] at h2
  have hmax : max (max p.null_run_length (null_run_of (messages p)))
      (null_run_of (messages p)) = max p.null_run_length (null_run_of (messages p)) := by
    omega
  rw [hmax] at h2
  refine ⟨by rw [h2.1, h1.1], by rw [h2.2.1, h1.2.1], ?_⟩
  intro j m hm
  have hst : slice_total ((messages (emit_code_plan p).protocol).take j) =
      slice_total ((messages p).take j) := by
    apply slice_total_congr
    rw [List.map_take, List.map_take, hs]
  rw [h2.2.2.1 j, hm, hst]
  rw [h1.2.2.1 j] at hm
  cases h0 : (messages p)[j]? with
  | none => simp [h0] at hm
  | some m0 =>
    simp only [h0, Option.map_some', Option.some.injEq] at hm
    subst hm
    have hfl : ∀ n c, flagged (placed n c (flagged m0)) = placed n c (flagged m0) :=
      fun _ _ => rfl
    simp only [Option.map_some', hfl]
    cases hno : no_object_arg m0
    · simp [placed, flagged, hno]
      omega
    · simp [placed, flagged, hno]

/-- C9, as stated, fails: on the built document `object_request_document` the first
planning run gives the request `attach` the offset 0 and the second run the offset 1. -/
theorem second_planning_run_moves_type_index :
    (build [] 0 object_request_document).map (fun ctx =>
      ((messages (emit_code_plan ctx.protocol).protocol).map (fun m => m.type_index),
       (messages (emit_code_plan (emit_code_plan ctx.protocol).protocol).protocol).map
          (fun m => m.type_index))) = .ok ([0], [1]) := by
  rfl

theorem entries_length {ms : List message} (h : ∀ m ∈ ms, message_ok m) :
    (entries (ms.map flagged)).length = slice_total ms := by
  induction ms with
  | nil => rfl
  | cons m rest ih =>
    have e : slice_total (m :: rest) =
        (if no_object_arg m then 0 else m.arg_count) + slice_total rest := by
      unfold slice_total
      cases hm : no_object_arg m <;> simp [List.filter_cons, hm]
    have hm := (h m (List.mem_cons_self _ _)).1
    rw [List.map_cons, entries_cons, List.length_append,
      ih (fun x hx => h x (List.mem_cons_of_mem _ hx)), e]
    cases hn : no_object_arg m <;> simp [flagged, hn, hm]

theorem entries_getElem?_split (pre post : List message) (h : ∀ m ∈ pre, message_ok m)
    {m : message} (hn : no_object_arg m = false) (k : Nat) (hk : k < m.arg_list.length) :
    (entries ((pre ++ m :: post).map flagged))[slice_total pre + k]? =
      (m.arg_list.map emit_types_arg)[k]? := by
  have hlen := entries_length h
  rw [List.map_append, entries_append, List.map_cons, entries_cons]
  have hf : (flagged m).all_null = false := hn
  rw [hf]
  simp only [Bool.false_eq_true, if_false]
  rw [List.getElem?_append_right (by rw [hlen]; omega), hlen]
  rw [Nat.add_sub_cancel_left]
  rw [List.getElem?_append_left (by simpa [flagged] using hk)]
  rfl

theorem entries_getElem? {ms : List message} (h : ∀ m ∈ ms, message_ok m) {j : Nat}
    {m : message} (hj : ms[j]? = some m) (hn : no_object_arg m = false) (k : Nat)
    (hk : k < m.arg_list.length) :
    (entries (ms.map flagged))[slice_total (ms.take j) + k]? =
      (m.arg_list.map emit_types_arg)[k]? := by
  have hsplit : ms.take j ++ m :: ms.drop (j + 1) = ms := by
    have := (List.getElem?_eq_some_iff.mp hj).2
    rw [← this]
    simp
  have := entries_getElem?_split (ms.take j) (ms.drop (j + 1))
    (fun x hx => h x (List.mem_of_mem_take hx)) hn k hk
  rw [hsplit] at this
  exact this

/-- C1. For a built model, let `T` be the entries of the `types[]` array that `emit_code`
prints (`emit_null_run`, then `emit_types` over the requests and events of every
interface). For every message `m` and every arg `a` at position `k` of `m`, the entry
`T[m.type_index + k]` exists; it is `NULL` when `a` is not an `object`/`new_id` arg or
names `wl_object`, and `&<interface_name>_interface` otherwise (such an arg always has a
name). A message with `all_null` set has offset 0 and at most `null_run_length` args, so
its slice lies in the leading run of `NULL`s. -/
theorem types_table_entries (sd : List Char) (sl : Int)
    (events : List (xml_event × uninit × uninit)) (ctx : parse_context)
    (h : build sd sl events = .ok ctx) :
    (∃ pre post, (emit_code ctx.protocol).2 =
      pre ++ "static const struct wl_interface *types[] = \x7b\n" ++
        String.join ((emit_code_plan ctx.protocol).null_run ++
          (emit_code_plan ctx.protocol).types) ++ "\x7d;\n\n" ++ post) ∧
    (emit_code_plan ctx.protocol).null_run =
      List.replicate (emit_code ctx.protocol).1.null_run_length "\tNULL,\n" ∧
    ∀ (m : message), m ∈ messages (emit_code ctx.protocol).1 →
      (m.all_null = true → m.type_index = 0 ∧
        m.arg_list.length ≤ (emit_code ctx.protocol).1.null_run_length) ∧
      ∀ (k : Nat) (a : arg), m.arg_list[k]? = some a →
        ((a.type ≠ arg_type.NEW_ID ∧ a.type ≠ arg_type.OBJECT) ∨
            a.interface_name = some "wl_object" →
          ((emit_code_plan ctx.protocol).null_run ++
            (emit_code_plan ctx.protocol).types)[m.type_index + k]? = some "\tNULL,\n") ∧
        (a.type = arg_type.NEW_ID ∨ a.type = arg_type.OBJECT →
          ∃ n, a.interface_name = some n ∧
            (n ≠ "wl_object" →
              ((emit_code_plan ctx.protocol).null_run ++
                (emit_code_plan ctx.protocol).types)[m.type_index + k]? =
                  some ("\t&" ++ n ++ "_interface,\n"))) := by
  have hp := build_ok h
  have hs := plan_spec ctx.protocol
  obtain ⟨hN, -, hj⟩ := plan_built hp
  have hq : (emit_code ctx.protocol).1 = (emit_code_plan ctx.protocol).protocol := rfl
  have hnull : (emit_code_plan ctx.protocol).null_run =
      List.replicate (null_run_of (messages ctx.protocol)) "\tNULL,\n" := by
    rw [hs.2.2.2.1, hp.2.1, Nat.zero_max]
  refine ⟨⟨_, _, rfl⟩, by rw [hq, hN, hnull], ?_⟩
  intro m hm
  rw [hq] at hm
  obtain ⟨j, hjm⟩ := List.mem_iff_getElem?.mp hm
  rw [hj j] at hjm
  cases h0 : (messages ctx.protocol)[j]? with
  | none => simp [h0] at hjm
  | some m0 =>
    simp only [h0, Option.map_some', Option.some.injEq] at hjm
    subst hjm
    have hmem := mem_of_getElem? h0
    have hok := messages_ok hp hmem
    have hall : ∀ ms : List message, (∀ x ∈ ms, x ∈ messages ctx.protocol) →
        ∀ x ∈ ms, message_ok x := fun ms hms x hx => messages_ok hp (hms x hx)
    rw [hq, hN, hnull, hs.2.2.2.2]
    constructor
    · intro hn
      have hn0 : no_object_arg m0 = true := hn
      have hle : m0.arg_list.length ≤ null_run_of (messages ctx.protocol) :=
        null_run_of_ge hmem hn0
      exact ⟨by simp [placed, flagged, hn0], hle⟩
    · intro k a hka
      have hka0 : m0.arg_list[k]? = some a := hka
      have hk : k < m0.arg_list.length := (List.getElem?_eq_some_iff.mp hka0).1
      have ha := hok.2.2 a (mem_of_getElem? hka0)
      have hentry : (List.replicate (null_run_of (messages ctx.protocol)) "\tNULL,\n" ++
          entries ((messages ctx.protocol).map flagged))[
            (placed (null_run_of (messages ctx.protocol))
              (slice_total ((messages ctx.protocol).take j)) (flagged m0)).type_index + k]? =
          some (if a.type = arg_type.NEW_ID ∨ a.type = arg_type.OBJECT then emit_types_arg a
            else "\tNULL,\n") := by
        cases hn : no_object_arg m0
        · have hobj : emit_types_arg a =
              (if a.type = arg_type.NEW_ID ∨ a.type = arg_type.OBJECT then emit_types_arg a
                else "\tNULL,\n") := by
            cases hty : a.type <;> simp [emit_types_arg, hty]
          have hti : (placed (null_run_of (messages ctx.protocol))
              (slice_total ((messages ctx.protocol).take j)) (flagged m0)).type_index =
              null_run_of (messages ctx.protocol) +
                slice_total ((messages ctx.protocol).take j) := by
            simp [placed, flagged, hn]
          rw [hti, List.getElem?_append_right (by simp; omega)]
          simp only [List.length_replicate]
          rw [show null_run_of (messages ctx.protocol) +
              slice_total ((messages ctx.protocol).take j) + k -
                null_run_of (messages ctx.protocol) =
              slice_total ((messages ctx.protocol).take j) + k by omega]
          rw [entries_getElem? (fun x hx => messages_ok hp hx) h0 hn k hk,
            List.getElem?_map, hka0, ← hobj]
          rfl
        · have hti : (placed (null_run_of (messages ctx.protocol))
              (slice_total ((messages ctx.protocol).take j)) (flagged m0)).type_index = 0 := by
            simp [placed, flagged, hn]
          have hle := null_run_of_ge hmem hn
          have hnot : ¬(a.type = arg_type.NEW_ID ∨ a.type = arg_type.OBJECT) := by
            have := List.all_eq_true.mp hn a (mem_of_getElem? hka0)
            simpa using this
          rw [hti, Nat.zero_add, List.getElem?_append_left (by simp; omega),
            List.getElem?_replicate, if_pos (by omega), if_neg hnot]
      rw [hentry]
      constructor
      · rintro (⟨h1, h2⟩ | h1)
        · rw [if_neg (by simp [h1, h2])]
        · split
          · rename_i hty
            rcases hty with hty | hty <;>
              simp [emit_types_arg, hty, interface_name_text, h1]
          · rfl
      · intro hty
        obtain ⟨n, hn⟩ := ha.2.2 hty
        refine ⟨n, hn, ?_⟩
        intro hne
        rw [if_pos hty]
        rcases hty with hty | hty <;>
          simp [emit_types_arg, hty, interface_name_text, hn, hne]

/-! ## The opcode constants and the signatures -/

theorem string_join_cons (a : String) (l : List String) :
    String.join (a :: l) = a ++ String.join l := by
  apply String.ext
  simp [String.join_eq, String.data_append]

theorem emit_opcodes_loop_spec (i : interface) (ml : List message) (n : Nat) :
    emit_opcodes_loop i ml n =
      String.join ((ml.enumFrom n).map fun km =>
        "#define " ++ i.uppercase_name ++ "_" ++ km.2.uppercase_name ++ "\t" ++
          toString km.1 ++ "\n") := by
  induction ml generalizing n with
  | nil => rfl
  | cons m rest ih =>
    rw [emit_opcodes_loop, ih, List.enumFrom_cons, List.map_cons, string_join_cons]

theorem interface_lists_ok {p : protocol} (hp : protocol_ok p) {i : interface}
    (hi : i ∈ p.interface_list) {ml : List message}
    (hml : ml = i.request_list ∨ ml = i.event_list) : ∀ m ∈ ml, message_ok m := by
  rcases hml with rfl | rfl
  · exact (hp.2.2 i hi).2.1
  · exact (hp.2.2 i hi).2.2

/-- C2. For an interface of a built model and either of its message lists, `emit_opcodes`
prints nothing when the list is empty and otherwise one line
`#define <UPPER(interface)>_<UPPER(message)>\t<k>` per message, in list order, `k` being
the position of the message in the list counted from 0, and then an empty line. The
function reads the list and the interface and writes neither, so every call on the same
list prints these same values. -/
theorem opcodes_are_positions (sd : List Char) (sl : Int)
    (events : List (xml_event × uninit × uninit)) (ctx : parse_context)
    (h : build sd sl events = .ok ctx) (i : interface) (hi : i ∈ ctx.protocol.interface_list)
    (ml : List message) (hml : ml = i.request_list ∨ ml = i.event_list) :
    (ml = [] → emit_opcodes ml i = "") ∧
    (ml ≠ [] → emit_opcodes ml i =
      String.join (ml.enum.map fun km =>
        "#define " ++ uppercase_dup i.name ++ "_" ++ uppercase_dup km.2.name ++ "\t" ++
          toString km.1 ++ "\n") ++ "\n") := by
  have hp := build_ok h
  constructor
  · rintro rfl
    rfl
  · intro hne
    have hemp : ml.isEmpty = false := by
      cases ml with
      | nil => exact absurd rfl hne
      | cons _ _ => rfl
    unfold emit_opcodes
    rw [hemp]
    simp only [Bool.false_eq_true, if_false]
    rw [emit_opcodes_loop_spec, (hp.2.2 i hi).1]
    congr 2
    apply List.map_congr_left
    intro km hkm
    have hm : km.2 ∈ ml := List.snd_mem_of_mem_enumFrom hkm
    rw [(interface_lists_ok hp hi hml km.2 hm).2.1]

theorem emit_messages_args_data (l : List arg) :
    (emit_messages_args l).data = l.map fun a =>
      match a.type with
      | arg_type.NEW_ID => 'n'
      | arg_type.UNSIGNED => 'u'
      | arg_type.STRING => 's'
      | arg_type.OBJECT => 'o'
      | arg_type.ARRAY => 'a'
      | arg_type.FD => 'h'
      | arg_type.DOUBLE => 'd'
      | _ => 'i' := by
  induction l with
  | nil => rfl
  | cons a rest ih =>
    rw [emit_messages_args, String.data_append, ih, List.map_cons]
    cases a.type <;> rfl

/-- C3. For every message of a built model, before or after planning, the row that
`emit_messages` prints has between its second pair of quotes a signature with one
character per arg, the `k`-th being the letter of the type of the `k`-th arg (`i`, `u`,
`s`, `o`, `a`, `h`, `d`, `n` for int, unsigned, string, object, array, fd, double,
new_id); a message without args has the empty signature. -/
theorem signature_matches_args (sd : List Char) (sl : Int)
    (events : List (xml_event × uninit × uninit)) (ctx : parse_context)
    (h : build sd sl events = .ok ctx) (m : message)
    (hm : m ∈ messages ctx.protocol ∨ m ∈ messages (emit_code ctx.protocol).1) :
    emit_messages_row m =
      "\t\x7b \"" ++ m.name ++ "\", \"" ++ emit_messages_args m.arg_list ++
        "\", types + " ++ toString m.type_index ++ " \x7d,\n" ∧
    (∀ (ml : List message) (i : interface) (suffix : String), ml ≠ [] →
      emit_messages ml i suffix =
        "static const struct wl_message " ++ i.name ++ "_" ++ suffix ++ "[] = \x7b\n" ++
          String.join (ml.map emit_messages_row) ++ "\x7d;\n\n") ∧
    (emit_messages_args m.arg_list).length = m.arg_list.length ∧
    (∀ (k : Nat) (a : arg), m.arg_list[k]? = some a →
      (emit_messages_args m.arg_list).data[k]? = signature_letter a.type) ∧
    (m.arg_list = [] → emit_messages_args m.arg_list = "") := by
  have hp := build_ok h
  have hargs : ∀ a ∈ m.arg_list, arg_ok a := by
    rcases hm with hm | hm
    · exact (messages_ok hp hm).2.2
    · obtain ⟨j, hj⟩ := List.mem_iff_getElem?.mp hm
      have hq : (emit_code ctx.protocol).1 = (emit_code_plan ctx.protocol).protocol := rfl
      rw [hq, (plan_spec ctx.protocol).2.2.1 j] at hj
      cases h0 : (messages ctx.protocol)[j]? with
      | none => simp [h0] at hj
      | some m0 =>
        simp only [h0, Option.map_some', Option.some.injEq] at hj
        subst hj
        exact (messages_ok hp (mem_of_getElem? h0)).2.2
  refine ⟨rfl, ?_, ?_, ?_, ?_⟩
  · intro ml i suffix hne
    have hemp : ml.isEmpty = false := by
      cases ml with
      | nil => exact absurd rfl hne
      | cons _ _ => rfl
    unfold emit_messages
    rw [hemp]
    rfl
  · rw [String.length, emit_messages_args_data, List.length_map]
  · intro k a hka
    have ha := hargs a (mem_of_getElem? hka)
    rw [emit_messages_args_data, List.getElem?_map, hka]
    cases hty : a.type <;> simp [hty, signature_letter]
    · exact ha.1 hty
    · exact ha.2.1 hty
  · intro hnil
    rw [hnil]
    rfl

/-! ## The attribute loop and the property branch -/

theorem attribute_value_nil (key : String) : attribute_value [] key = none := rfl

theorem attribute_value_append (atts : List (String × String)) (kv : String × String)
    (key : String) :
    attribute_value (atts ++ [kv]) key =
      if kv.1 = key then some kv.2 else attribute_value atts key := by
  unfold attribute_value
  rw [List.reverse_append, List.reverse_singleton, List.singleton_append, List.find?_cons]
  by_cases h : kv.1 = key <;> simp [h]

theorem parse_attribute_fields (l : attributes) (kv : String × String) :
    (parse_attribute l kv).name = (if kv.1 = "name" then some kv.2 else l.name) ∧
    (parse_attribute l kv).type = (if kv.1 = "type" then some kv.2 else l.type) ∧
    (parse_attribute l kv).interface_name =
      (if kv.1 = "interface" then some kv.2 else l.interface_name) ∧
    (parse_attribute l kv).value = (if kv.1 = "value" then some kv.2 else l.value) ∧
    (parse_attribute l kv).version = (if kv.1 = "version" then atoi kv.2 else l.version) ∧
    (parse_attribute l kv).writable =
      (if kv.1 = "writable" then decide (kv.2 = "yes") else l.writable) ∧
    (parse_attribute l kv).change_notify =
      (if kv.1 = "change-notify" then decide (kv.2 = "yes") else l.change_notify) ∧
    (parse_attribute l kv).client_custom =
      (if kv.1 = WAYLAND_CLIENT_NS ++ "#custom" then decide (kv.2 = "yes")
        else l.client_custom) ∧
    (parse_attribute l kv).client_global =
      (if kv.1 = WAYLAND_CLIENT_NS ++ "#global" then decide (kv.2 = "yes")
        else l.client_global) := by
  exact ⟨rfl, rfl, rfl, rfl, rfl, rfl, rfl, rfl, rfl⟩

/-- The attribute loop of `start_element` leaves in each local the value of the last
occurrence of its attribute. -/
theorem parse_attributes_spec (atts : List (String × String)) :
    (parse_attributes atts).name = attribute_value atts "name" ∧
    (parse_attributes atts).type = attribute_value atts "type" ∧
    (parse_attributes atts).interface_name = attribute_value atts "interface" ∧
    (parse_attributes atts).value = attribute_value atts "value" ∧
    (parse_attributes atts).version =
      ((attribute_value atts "version").map atoi).getD 0 ∧
    (parse_attributes atts).writable =
      decide (attribute_value atts "writable" = some "yes") ∧
    (parse_attributes atts).change_notify =
      decide (attribute_value atts "change-notify" = some "yes") ∧
    (parse_attributes atts).client_custom =
      decide (attribute_value atts (WAYLAND_CLIENT_NS ++ "#custom") = some "yes") ∧
    (parse_attributes atts).client_global =
      decide (attribute_value atts (WAYLAND_CLIENT_NS ++ "#global") = some "yes") := by
  induction atts using List.reverseRecOn with
  | nil => exact ⟨rfl, rfl, rfl, rfl, rfl, rfl, rfl, rfl, rfl⟩
  | append_singleton atts kv ih =>
    have hf := parse_attribute_fields (parse_attributes atts) kv
    have hstep : parse_attributes (atts ++ [kv]) =
        parse_attribute (parse_attributes atts) kv := by
      simp [parse_attributes, List.foldl_append]
    rw [hstep]
    simp only [attribute_value_append]
    obtain ⟨h1, h2, h3, h4, h5, h6, h7, h8, h9⟩ := hf
    obtain ⟨i1, i2, i3, i4, i5, i6, i7, i8, i9⟩ := ih
    refine ⟨?_, ?_, ?_, ?_, ?_, ?_, ?_, ?_, ?_⟩
    · rw [h1, i1]
    · rw [h2, i2]
    · rw [h3, i3]
    · rw [h4, i4]
    · rw [h5, i5]; split <;> rfl
    · rw [h6, i6]; split <;> simp
    · rw [h7, i7]; split <;> simp
    · rw [h8, i8]; split <;> simp
    · rw [h9, i9]; split <;> simp

theorem start_element_property (junk₁ junk₂ : uninit) (ctx : parse_context)
    (atts : List (String × String)) :
    start_element junk₁ junk₂ ctx (WAYLAND_NS ++ "#property") atts =
      start_property junk₁ junk₂ { ctx with character_data_length := 0 }
        (parse_attributes atts) := by
  unfold start_element
  dsimp only
  rw [if_neg (by decide), if_neg (by decide), if_neg (by decide), if_neg (by decide),
    if_neg (by decide), if_pos rfl]

theorem start_element_message (junk₁ junk₂ : uninit) (ctx : parse_context)
    (atts : List (String × String)) (is_event : Bool) :
    start_element junk₁ junk₂ ctx
        (if is_event then WAYLAND_NS ++ "#event" else WAYLAND_NS ++ "#request") atts =
      start_message junk₁ { ctx with character_data_length := 0 }
        (parse_attributes atts) is_event := by
  unfold start_element
  cases is_event
  · dsimp only
    rw [if_neg (by decide), if_neg (by decide), if_neg (by decide)]
    simp only [Bool.false_eq_true, if_false, if_true]
  · dsimp only
    rw [if_neg (by decide), if_neg (by decide), if_neg (by decide)]
    simp only [if_true]
    rw [if_neg (by decide)]

theorem synthesize_inv {junk : uninit} {p : property} {mn t : String} {iname : Option String}
    {m : message} (h : synthesize junk p mn t iname = .ok m) :
    m.name = mn ∧ m.uppercase_name = uppercase_dup mn ∧ m.property = some p ∧
    m.type_index = junk.type_index ∧ m.all_null = junk.all_null ∧
    m.destructor = junk.destructor ∧ m.client_custom = junk.client_custom ∧
    (p.type = arg_type.FLAGS → m.arg_count = 2 ∧ m.arg_list =
      [{ name := "value", type := arg_type.UNSIGNED, interface_name := none },
       { name := "change_mask", type := arg_type.UNSIGNED, interface_name := none }]) ∧
    (p.type ≠ arg_type.FLAGS → m.arg_count = 1 ∧
      ∃ a, make_arg (some "value") (some t) iname = .ok a ∧ m.arg_list = [a]) := by
  unfold synthesize at h
  dsimp only at h
  by_cases hf : p.type = arg_type.FLAGS
  · rw [if_pos hf] at h
    have h1 : make_arg (some "value") (some "uint") none =
        .ok { name := "value", type := arg_type.UNSIGNED, interface_name := none } := by
      rfl
    have h2 : make_arg (some "change_mask") (some "uint") none =
        .ok { name := "change_mask", type := arg_type.UNSIGNED, interface_name := none } := by
      rfl
    rw [h1, h2] at h
    dsimp only at h
    cases h
    exact ⟨rfl, rfl, rfl, rfl, rfl, rfl, rfl, fun _ => ⟨rfl, rfl⟩, fun hn => absurd hf hn⟩
  · rw [if_neg hf] at h
    cases ha : make_arg (some "value") (some t) iname with
    | error e => simp [ha] at h
    | ok a =>
      simp only [ha] at h
      cases h
      exact ⟨rfl, rfl, rfl, rfl, rfl, rfl, rfl, fun hn => absurd hn hf,
        fun _ => ⟨rfl, a, rfl, rfl⟩⟩

theorem start_property_inv {junk₁ junk₂ : uninit} {ctx ctx' : parse_context}
    {a : attributes} (h : start_property junk₁ junk₂ ctx a = .ok ctx') :
    ∃ name type ii i, a.name = some name ∧ a.type = some type ∧
      ctx.interface = some ii ∧ ctx.protocol.interface_list[ii]? = some i ∧
      ∃ reqs evs : List message,
        (if a.writable then
          ∃ m, synthesize junk₁ (property_record name type a.writable a.change_notify)
            ("set_" ++ name) type a.interface_name = .ok m ∧ reqs = [m]
         else reqs = []) ∧
        (if a.change_notify then
          ∃ m, synthesize junk₂ (property_record name type a.writable a.change_notify)
            (name ++ "_notify") type a.interface_name = .ok m ∧ evs = [m]
         else evs = []) ∧
        ctx' = set_interface ctx ii
          { i with
            property_list :=
              i.property_list ++ [property_record name type a.writable a.change_notify]
            request_list := i.request_list ++ reqs
            event_list := i.event_list ++ evs } := by
  unfold start_property at h
  cases hn : a.name with
  | none => simp [hn] at h
  | some name =>
    cases ht : a.type with
    | none => simp [hn, ht] at h
    | some type =>
      cases hc : current_interface ctx with
      | error e => simp [hn, ht, hc] at h
      | ok r =>
        obtain ⟨ii, i⟩ := r
        obtain ⟨hci, hii⟩ := current_interface_mem hc
        simp only [hn, ht, hc] at h
        refine ⟨name, type, ii, i, rfl, rfl, hci, hii, ?_⟩
        generalize property_record name type a.writable a.change_notify = prop at h ⊢
        cases hw : a.writable
        · cases hcn : a.change_notify
          · simp only [hw, hcn, Bool.false_eq_true, if_false] at h ⊢
            cases h
            exact ⟨[], [], rfl, rfl, by simp⟩
          · simp only [hw, hcn, Bool.false_eq_true, if_false, if_true] at h ⊢
            cases hs : synthesize junk₂ prop (name ++ "_notify") type a.interface_name with
            | error e => simp [hs] at h
            | ok m =>
              simp only [hs] at h
              cases h
              exact ⟨[], [m], rfl, ⟨m, rfl, rfl⟩, by simp⟩
        · cases hs1 : synthesize junk₁ prop ("set_" ++ name) type a.interface_name with
          | error e => simp [hw, hs1] at h
          | ok m1 =>
            cases hcn : a.change_notify
            · simp only [hw, hcn, hs1, Bool.false_eq_true, if_false, if_true] at h ⊢
              cases h
              exact ⟨[m1], [], ⟨m1, rfl, rfl⟩, rfl, by simp⟩
            · simp only [hw, hcn, hs1, if_true] at h ⊢
              cases hs : synthesize junk₂ prop (name ++ "_notify") type a.interface_name with
              | error e => simp [hs] at h
              | ok m =>
                simp only [hs] at h
                cases h
                exact ⟨[m1], [m], ⟨m1, rfl, rfl⟩, ⟨m, rfl, rfl⟩, rfl⟩

theorem make_arg_inv {n t : String} {iname : Option String} {a : arg}
    (h : make_arg (some n) (some t) iname = .ok a) :
    a.name = n ∧
    ((type_from_string t ≠ arg_type.INVALID ∧ a.type = type_from_string t ∧
        a.interface_name = none) ∨
      (type_from_string t = arg_type.INVALID ∧ t = "new_id" ∧ a.type = arg_type.NEW_ID ∧
        ∃ x, iname = some x ∧ a.interface_name = some x) ∨
      (type_from_string t = arg_type.INVALID ∧ t = "object" ∧ a.type = arg_type.OBJECT ∧
        ∃ x, iname = some x ∧ a.interface_name = some x)) := by
  unfold make_arg at h
  dsimp only at h
  by_cases h1 : type_from_string t ≠ arg_type.INVALID
  · rw [if_pos h1] at h
    cases h
    exact ⟨rfl, Or.inl ⟨h1, rfl, rfl⟩⟩
  · rw [if_neg h1] at h
    have h1' : type_from_string t = arg_type.INVALID := not_not.mp h1
    by_cases h2 : t = "new_id"
    · rw [if_pos h2] at h
      cases hi : iname with
      | none => simp [hi] at h
      | some x =>
        simp only [hi] at h
        cases h
        exact ⟨rfl, Or.inr (Or.inl ⟨h1', h2, rfl, x, rfl, rfl⟩)⟩
    · rw [if_neg h2] at h
      by_cases h3 : t = "object"
      · rw [if_pos h3] at h
        cases hi : iname with
        | none => simp [hi] at h
        | some x =>
          simp only [hi] at h
          cases h
          exact ⟨rfl, Or.inr (Or.inr ⟨h1', h3, rfl, x, rfl, rfl⟩)⟩
      · rw [if_neg h3] at h
        cases h

/-- What a successful property start element does to the current interface, in terms of
the attribute values. -/
theorem property_step {junk₁ junk₂ : uninit} {ctx ctx' : parse_context}
    {atts : List (String × String)} {ii : Nat} {i : interface}
    (hcur : ctx.interface = some ii) (hi : ctx.protocol.interface_list[ii]? = some i)
    (h : start_element junk₁ junk₂ ctx (WAYLAND_NS ++ "#property") atts = .ok ctx') :
    ∃ (p type : String) (reqs evs : List message),
      attribute_value atts "name" = some p ∧ attribute_value atts "type" = some type ∧
      (if attribute_value atts "writable" = some "yes" then
        ∃ m, synthesize junk₁
          (property_record p type (decide (attribute_value atts "writable" = some "yes"))
            (decide (attribute_value atts "change-notify" = some "yes")))
          ("set_" ++ p) type (attribute_value atts "interface") = .ok m ∧ reqs = [m]
       else reqs = []) ∧
      (if attribute_value atts "change-notify" = some "yes" then
        ∃ m, synthesize junk₂
          (property_record p type (decide (attribute_value atts "writable" = some "yes"))
            (decide (attribute_value atts "change-notify" = some "yes")))
          (p ++ "_notify") type (attribute_value atts "interface") = .ok m ∧ evs = [m]
       else evs = []) ∧
      ctx'.interface = some ii ∧
      (∀ k, k ≠ ii → ctx'.protocol.interface_list[k]? = ctx.protocol.interface_list[k]?) ∧
      ctx'.protocol.interface_list[ii]? = some
        { i with
          property_list := i.property_list ++
            [property_record p type (decide (attribute_value atts "writable" = some "yes"))
              (decide (attribute_value atts "change-notify" = some "yes"))]
          request_list := i.request_list ++ reqs
          event_list := i.event_list ++ evs } := by
  rw [start_element_property] at h
  obtain ⟨p, type, ii', i', hn, ht, hc, hii, reqs, evs, hw, he, rfl⟩ := start_property_inv h
  have hs := parse_attributes_spec atts
  obtain ⟨s1, s2, s3, -, -, s6, s7, -, -⟩ := hs
  have e1 : ii' = ii := by
    have : some ii' = some ii := hc.symm.trans hcur
    exact Option.some.inj this
  subst e1
  have e2 : i' = i := by
    have : some i' = some i := hii.symm.trans hi
    exact Option.some.inj this
  subst e2
  rw [s1] at hn
  rw [s2] at ht
  rw [s6, s7, s3] at hw he
  have hlt : ii' < ctx.protocol.interface_list.length := (List.getElem?_eq_some_iff.mp hi).1
  refine ⟨p, type, reqs, evs, hn, ht, ?_, ?_, hcur, ?_, ?_⟩
  · simpa using hw
  · simpa using he
  · intro k hk
    simp only [set_interface]
    rw [List.getElem?_set_ne (Ne.symm hk)]
  · simp only [set_interface, s6, s7]
    rw [List.getElem?_set_self hlt]

/-- C4. A property start element named `p` that is processed without failure on a state
with a current interface leaves every other interface alone and changes the current one
as follows: the property list gains the record of `p` at the end, in every case; the
request list gains at the end exactly one message, named `set_<p>`, if `writable` is
`yes`, and is unchanged otherwise; the event list gains at the end exactly one message,
named `<p>_notify`, if `change-notify` is `yes`, and is unchanged otherwise; each
synthesized message refers back to the record of `p`. -/
theorem property_synthesis_appends (junk₁ junk₂ : uninit) (ctx ctx' : parse_context)
    (atts : List (String × String)) (ii : Nat) (i : interface)
    (hcur : ctx.interface = some ii) (hi : ctx.protocol.interface_list[ii]? = some i)
    (h : start_element junk₁ junk₂ ctx (WAYLAND_NS ++ "#property") atts = .ok ctx') :
    ∃ (p type : String) (i' : interface),
      attribute_value atts "name" = some p ∧ attribute_value atts "type" = some type ∧
      ctx'.protocol.interface_list[ii]? = some i' ∧
      (∀ k, k ≠ ii → ctx'.protocol.interface_list[k]? = ctx.protocol.interface_list[k]?) ∧
      i'.property_list = i.property_list ++
        [property_record p type (decide (attribute_value atts "writable" = some "yes"))
          (decide (attribute_value atts "change-notify" = some "yes"))] ∧
      (attribute_value atts "writable" = some "yes" →
        ∃ m, i'.request_list = i.request_list ++ [m] ∧ m.name = "set_" ++ p ∧
          m.property = some
            (property_record p type (decide (attribute_value atts "writable" = some "yes"))
              (decide (attribute_value atts "change-notify" = some "yes")))) ∧
      (attribute_value atts "writable" ≠ some "yes" → i'.request_list = i.request_list) ∧
      (attribute_value atts "change-notify" = some "yes" →
        ∃ m, i'.event_list = i.event_list ++ [m] ∧ m.name = p ++ "_notify" ∧
          m.property = some
            (property_record p type (decide (attribute_value atts "writable" = some "yes"))
              (decide (attribute_value atts "change-notify" = some "yes")))) ∧
      (attribute_value atts "change-notify" ≠ some "yes" → i'.event_list = i.event_list) := by
  obtain ⟨p, type, reqs, evs, hn, ht, hw, he, -, hother, hself⟩ := property_step hcur hi h
  refine ⟨p, type, _, hn, ht, hself, hother, rfl, ?_, ?_, ?_, ?_⟩
  · intro hy
    rw [if_pos hy] at hw
    obtain ⟨m, hm, rfl⟩ := hw
    have := synthesize_inv hm
    exact ⟨m, rfl, this.1, this.2.2.1⟩
  · intro hy
    rw [if_neg hy] at hw
    subst hw
    simp
  · intro hy
    rw [if_pos hy] at he
    obtain ⟨m, hm, rfl⟩ := he
    have := synthesize_inv hm
    exact ⟨m, rfl, this.1, this.2.2.1⟩
  · intro hy
    rw [if_neg hy] at he
    subst he
    simp

/-- C5. When the `type` attribute of a property start element is `flags`, each message
synthesized from it (the `set_<p>` request when `writable` is `yes`, the `<p>_notify`
event when `change-notify` is `yes`) has `arg_count` 2 and exactly the two args `value`
and `change_mask`, in this order, both unsigned. -/
theorem flags_property_two_args (junk₁ junk₂ : uninit) (ctx ctx' : parse_context)
    (atts : List (String × String)) (ii : Nat) (i : interface)
    (hcur : ctx.interface = some ii) (hi : ctx.protocol.interface_list[ii]? = some i)
    (hflags : attribute_value atts "type" = some "flags")
    (h : start_element junk₁ junk₂ ctx (WAYLAND_NS ++ "#property") atts = .ok ctx') :
    ∃ (i' : interface), ctx'.protocol.interface_list[ii]? = some i' ∧
      (attribute_value atts "writable" = some "yes" →
        ∃ m, i'.request_list = i.request_list ++ [m] ∧ m.arg_count = 2 ∧ m.arg_list =
          [{ name := "value", type := arg_type.UNSIGNED, interface_name := none },
           { name := "change_mask", type := arg_type.UNSIGNED, interface_name := none }]) ∧
      (attribute_value atts "change-notify" = some "yes" →
        ∃ m, i'.event_list = i.event_list ++ [m] ∧ m.arg_count = 2 ∧ m.arg_list =
          [{ name := "value", type := arg_type.UNSIGNED, interface_name := none },
           { name := "change_mask", type := arg_type.UNSIGNED, interface_name := none }]) := by
  obtain ⟨p, type, reqs, evs, hn, ht, hw, he, -, hother, hself⟩ := property_step hcur hi h
  have hty : type = "flags" := by
    have : some type = some "flags" := ht.symm.trans hflags
    exact Option.some.inj this
  subst hty
  have hfl : ∀ w c, (property_record p "flags" w c).type = arg_type.FLAGS := fun _ _ => rfl
  refine ⟨_, hself, ?_, ?_⟩
  · intro hy
    rw [if_pos hy] at hw
    obtain ⟨m, hm, rfl⟩ := hw
    have := (synthesize_inv hm).2.2.2.2.2.2.2.1 (hfl _ _)
    exact ⟨m, rfl, this.1, this.2⟩
  · intro hy
    rw [if_pos hy] at he
    obtain ⟨m, hm, rfl⟩ := he
    have := (synthesize_inv hm).2.2.2.2.2.2.2.1 (hfl _ _)
    exact ⟨m, rfl, this.1, this.2⟩

/-- The arg of a message synthesized from a property whose type text is not `flags`. -/
theorem value_arg_spec (p : String) (w c : Bool) {type : String} {iname : Option String}
    {a : arg} (hnf : type ≠ "flags")
    (ha : make_arg (some "value") (some type) iname = .ok a) :
    a.name = "value" ∧
    (type_from_string type ≠ arg_type.INVALID ∨ type = "new_id" ∨ type = "object") ∧
    (type_from_string type ≠ arg_type.INVALID →
      a.type = type_from_string type ∧ a.type = (property_record p type w c).type) ∧
    (type = "new_id" → a.type = arg_type.NEW_ID ∧
      (property_record p type w c).type = arg_type.INVALID ∧
      ∃ n, iname = some n ∧ a.interface_name = some n) ∧
    (type = "object" → a.type = arg_type.OBJECT ∧
      (property_record p type w c).type = arg_type.INVALID ∧
      ∃ n, iname = some n ∧ a.interface_name = some n) := by
  have hpt : (property_record p type w c).type = type_from_string type := by
    simp [property_record, property_type, hnf]
  obtain ⟨h1, h2⟩ := make_arg_inv ha
  rw [hpt]
  refine ⟨h1, ?_, ?_, ?_, ?_⟩
  · rcases h2 with h2 | h2 | h2
    · exact Or.inl h2.1
    · exact Or.inr (Or.inl h2.2.1)
    · exact Or.inr (Or.inr h2.2.1)
  · intro hv
    rcases h2 with h2 | h2 | h2
    · exact ⟨h2.2.1, h2.2.1⟩
    · exact absurd h2.1 hv
    · exact absurd h2.1 hv
  · intro ht
    subst ht
    rcases h2 with h2 | h2 | h2
    · exact absurd rfl h2.1
    · exact ⟨h2.2.2.1, rfl, h2.2.2.2⟩
    · exact absurd h2.2.1 (by decide)
  · intro ht
    subst ht
    rcases h2 with h2 | h2 | h2
    · exact absurd rfl h2.1
    · exact absurd h2.2.1 (by decide)
    · exact ⟨h2.2.2.1, rfl, h2.2.2.2⟩

/-- C6, as the code has it. When the `type` attribute of a property start element is not
`flags` and the element is processed without failure, each synthesized message has
`arg_count` 1 and exactly one arg, named `value`, with the tag that `make_arg` gives the
type text: for `int`, `uint`, `string`, `array`, `fd` and `double` this is the tag stored
on the property record; for `new_id` and `object` the arg has the tag `NEW_ID` or
`OBJECT` and the interface name of the element, while the property record stores
`INVALID`. -/
theorem plain_property_one_arg (junk₁ junk₂ : uninit) (ctx ctx' : parse_context)
    (atts : List (String × String)) (ii : Nat) (i : interface) (type : String)
    (hcur : ctx.interface = some ii) (hi : ctx.protocol.interface_list[ii]? = some i)
    (htype : attribute_value atts "type" = some type) (hnf : type ≠ "flags")
    (h : start_element junk₁ junk₂ ctx (WAYLAND_NS ++ "#property") atts = .ok ctx') :
    ∃ (i' : interface) (pr : property),
      ctx'.protocol.interface_list[ii]? = some i' ∧
      i'.property_list = i.property_list ++ [pr] ∧
      (type_from_string type ≠ arg_type.INVALID ∨ type = "new_id" ∨ type = "object" ∨
        (attribute_value atts "writable" ≠ some "yes" ∧
          attribute_value atts "change-notify" ≠ some "yes")) ∧
      (∀ (l l' : List message),
        (l = i.request_list ∧ l' = i'.request_list ∧
            attribute_value atts "writable" = some "yes") ∨
          (l = i.event_list ∧ l' = i'.event_list ∧
            attribute_value atts "change-notify" = some "yes") →
        ∃ m a, l' = l ++ [m] ∧ m.property = some pr ∧ m.arg_count = 1 ∧ m.arg_list = [a] ∧
          a.name = "value" ∧
          (type_from_string type ≠ arg_type.INVALID →
            a.type = type_from_string type ∧ a.type = pr.type) ∧
          (type = "new_id" → a.type = arg_type.NEW_ID ∧ pr.type = arg_type.INVALID ∧
            ∃ n, attribute_value atts "interface" = some n ∧ a.interface_name = some n) ∧
          (type = "object" → a.type = arg_type.OBJECT ∧ pr.type = arg_type.INVALID ∧
            ∃ n, attribute_value atts "interface" = some n ∧ a.interface_name = some n)) := by
  obtain ⟨p, type', reqs, evs, hn, ht, hw, he, -, hother, hself⟩ := property_step hcur hi h
  have hty : type' = type := by
    have : some type' = some type := ht.symm.trans htype
    exact Option.some.inj this
  subst hty
  have hnfl : ∀ w c, (property_record p type' w c).type ≠ arg_type.FLAGS := by
    intro w c
    simp only [property_record, property_type, if_neg hnf]
    exact type_from_string_ne_flags _
  have hsyn : ∀ {junk : uninit} {w c : Bool} {mn : String} {m : message},
      synthesize junk (property_record p type' w c) mn type'
        (attribute_value atts "interface") = .ok m →
      ∃ a, m.property = some (property_record p type' w c) ∧ m.arg_count = 1 ∧
        m.arg_list = [a] ∧
        make_arg (some "value") (some type') (attribute_value atts "interface") = .ok a := by
    intro junk w c mn m hm
    have hs := synthesize_inv hm
    obtain ⟨hc1, a, ha, hl⟩ := hs.2.2.2.2.2.2.2.2 (hnfl w c)
    exact ⟨a, hs.2.2.1, hc1, hl, ha⟩
  refine ⟨_, _, hself, rfl, ?_, ?_⟩
  · by_cases hy : attribute_value atts "writable" = some "yes"
    · rw [if_pos hy] at hw
      obtain ⟨m, hm, -⟩ := hw
      obtain ⟨a, -, -, -, ha⟩ := hsyn hm
      rcases (value_arg_spec p true true hnf ha).2.1 with h1 | h1 | h1
      · exact Or.inl h1
      · exact Or.inr (Or.inl h1)
      · exact Or.inr (Or.inr (Or.inl h1))
    · by_cases hz : attribute_value atts "change-notify" = some "yes"
      · rw [if_pos hz] at he
        obtain ⟨m, hm, -⟩ := he
        obtain ⟨a, -, -, -, ha⟩ := hsyn hm
        rcases (value_arg_spec p true true hnf ha).2.1 with h1 | h1 | h1
        · exact Or.inl h1
        · exact Or.inr (Or.inl h1)
        · exact Or.inr (Or.inr (Or.inl h1))
      · exact Or.inr (Or.inr (Or.inr ⟨hy, hz⟩))
  · intro l l' hl
    rcases hl with ⟨rfl, rfl, hy⟩ | ⟨rfl, rfl, hy⟩
    · rw [if_pos hy] at hw
      obtain ⟨m, hm, rfl⟩ := hw
      obtain ⟨a, h1, h2, h3, ha⟩ := hsyn hm
      have hv := value_arg_spec p
        (decide (attribute_value atts "writable" = some "yes"))
        (decide (attribute_value atts "change-notify" = some "yes")) hnf ha
      exact ⟨m, a, rfl, h1, h2, h3, hv.1, hv.2.2.1, hv.2.2.2.1, hv.2.2.2.2⟩
    · rw [if_pos hy] at he
      obtain ⟨m, hm, rfl⟩ := he
      obtain ⟨a, h1, h2, h3, ha⟩ := hsyn hm
      have hv := value_arg_spec p
        (decide (attribute_value atts "writable" = some "yes"))
        (decide (attribute_value atts "change-notify" = some "yes")) hnf ha
      exact ⟨m, a, rfl, h1, h2, h3, hv.1, hv.2.2.1, hv.2.2.2.1, hv.2.2.2.2⟩

/-- C6, as stated, fails: the writable property `parent` of type `object` yields the
request `set_parent` whose arg `value` has the tag `OBJECT`, while the property record
that the request refers to stores the tag `INVALID`. -/
theorem object_property_tag_differs :
    (build [] 0 object_property_document).map (fun ctx =>
      (messages ctx.protocol).map fun m =>
        (m.name, m.property.map (fun p => p.type), m.arg_list.map (fun a => a.type))) =
      .ok [("set_parent", some arg_type.INVALID, [arg_type.OBJECT])] := by
  rfl

theorem current_interface_eq {ctx : parse_context} {ii : Nat} {i : interface}
    (hcur : ctx.interface = some ii) (hi : ctx.protocol.interface_list[ii]? = some i) :
    current_interface ctx = .ok (ii, i) := by
  unfold current_interface
  rw [hcur]
  dsimp only
  rw [hi]

/-- C10, as stated, fails outside an interface element. For a request or event element
named `destroy` that is a child of the protocol element, the handler links the message
into the list of `ctx->interface`, a pointer that no interface start element has
assigned, before it looks at the name: the parse does not end with
`destroy request should be destructor type`, and with `type="destructor"` the element is
not accepted either. -/
theorem destroy_outside_interface :
    attribute_value [("name", "destroy")] "name" = some "destroy" ∧
    build [] 0 (orphan_message_document "#request" [("name", "destroy")]) =
      .error error.undefined ∧
    build [] 0 (orphan_message_document "#event" [("name", "destroy")]) =
      .error error.undefined ∧
    build [] 0 (orphan_message_document "#request" [("name", "destroy")]) ≠
      .error (error.fail "destroy request should be destructor type") ∧
    build [] 0 (orphan_message_document "#request"
      [("name", "destroy"), ("type", "destructor")]) = .error error.undefined ∧
    start_element example_junk example_junk (init_context [] 0) (WAYLAND_NS ++ "#request")
      [("name", "destroy")] = .error error.undefined ∧
    main ["scanner", "code"] [] 0 (orphan_message_document "#request" [("name", "destroy")]) =
      none := by
  refine ⟨by decide, rfl, rfl, ?_, rfl, rfl, rfl⟩
  intro h
  have e : build [] 0 (orphan_message_document "#request" [("name", "destroy")]) =
      .error error.undefined := rfl
  rw [e] at h
  cases h

/-- C10, amended. A request or event start element with a name, inside an interface
element (the state has a current interface): when the name is `destroy` and the `type`
attribute is not `destructor`, the handler fails with
`destroy request should be destructor type`, for an event as for a request, and so does
every parse that reaches this element, whatever follows (no emitter runs); otherwise the element is accepted, one message with that name and no args is
linked at the end of the request or event list and becomes the current message, and its
destructor flag is set iff the `type` attribute is present and equal to `destructor`. -/
theorem destroy_needs_destructor (junk₁ junk₂ : uninit) (ctx : parse_context)
    (atts : List (String × String)) (is_event : Bool) (name : String) (ii : Nat)
    (i : interface) (hname : attribute_value atts "name" = some name)
    (hcur : ctx.interface = some ii) (hi : ctx.protocol.interface_list[ii]? = some i) :
    (name = "destroy" ∧ attribute_value atts "type" ≠ some "destructor" →
      start_element junk₁ junk₂ ctx
          (if is_event then WAYLAND_NS ++ "#event" else WAYLAND_NS ++ "#request") atts =
        .error (error.fail "destroy request should be destructor type") ∧
      ∀ rest, feed ctx ((xml_event.start
          (if is_event then WAYLAND_NS ++ "#event" else WAYLAND_NS ++ "#request") atts,
          junk₁, junk₂) :: rest) =
        .error (error.fail "destroy request should be destructor type")) ∧
    (¬(name = "destroy" ∧ attribute_value atts "type" ≠ some "destructor") →
      ∃ (ctx' : parse_context) (i' : interface) (m : message),
        start_element junk₁ junk₂ ctx
          (if is_event then WAYLAND_NS ++ "#event" else WAYLAND_NS ++ "#request") atts =
            .ok ctx' ∧
        ctx'.protocol.interface_list[ii]? = some i' ∧
        (if is_event then
          i'.event_list = i.event_list ++ [m] ∧ i'.request_list = i.request_list
         else i'.request_list = i.request_list ++ [m] ∧ i'.event_list = i.event_list) ∧
        ctx'.message =
          some (ii, is_event, (if is_event then i.event_list else i.request_list).length) ∧
        m.name = name ∧ m.arg_list = [] ∧ m.arg_count = 0 ∧ m.property = none ∧
        (m.destructor = true ↔ attribute_value atts "type" = some "destructor")) := by
  have hs := parse_attributes_spec atts
  have hc : current_interface
      ({ ctx with character_data_length := 0 } : parse_context) = .ok (ii, i) :=
    current_interface_eq hcur hi
  have hlt : ii < ctx.protocol.interface_list.length := (List.getElem?_eq_some_iff.mp hi).1
  have hstep := start_element_message junk₁ junk₂ ctx atts is_event
  unfold start_message at hstep
  rw [hs.1, hname] at hstep
  dsimp only at hstep
  rw [hc, hs.2.1] at hstep
  dsimp only at hstep
  constructor
  · rintro ⟨rfl, hnd⟩
    have : start_element junk₁ junk₂ ctx
        (if is_event then WAYLAND_NS ++ "#event" else WAYLAND_NS ++ "#request") atts =
        .error (error.fail "destroy request should be destructor type") := by
      rw [hstep, if_pos (by simp [hnd])]
    refine ⟨this, ?_⟩
    intro rest
    simp only [feed, handle, this]
  · intro hok
    have hcond : ¬((decide (name = "destroy") &&
        !decide (attribute_value atts "type" = some "destructor")) = true) := by
      simpa using hok
    rw [if_neg hcond] at hstep
    have hm : ∃ m : message, m =
        { name := name, uppercase_name := uppercase_dup name, arg_list := [], arg_count := 0,
          property := none, client_custom := (parse_attributes atts).client_custom,
          destructor := decide (attribute_value atts "type" = some "destructor"),
          type_index := junk₁.type_index, all_null := junk₁.all_null } := ⟨_, rfl⟩
    obtain ⟨m, hm⟩ := hm
    rw [← hm] at hstep
    have hfields : m.name = name ∧ m.arg_list = [] ∧ m.arg_count = 0 ∧ m.property = none ∧
        (m.destructor = true ↔ attribute_value atts "type" = some "destructor") := by
      rw [hm]
      exact ⟨rfl, rfl, rfl, rfl, by simp⟩
    cases is_event
    · simp only [Bool.false_eq_true, if_false] at hstep ⊢
      refine ⟨_, { i with request_list := i.request_list ++ [m] }, m, hstep, ?_,
        ⟨rfl, rfl⟩, rfl, hfields⟩
      simp only [set_interface]
      rw [List.getElem?_set_self hlt]
    · simp only [if_true] at hstep ⊢
      refine ⟨_, { i with event_list := i.event_list ++ [m] }, m, hstep, ?_,
        ⟨rfl, rfl⟩, rfl, hfields⟩
      simp only [set_interface]
      rw [List.getElem?_set_self hlt]

/-! ## The argument and interface elements -/

theorem type_from_string_invalid_iff (t : String) :
    type_from_string t = arg_type.INVALID ↔
      t ≠ "int" ∧ t ≠ "uint" ∧ t ≠ "string" ∧ t ≠ "array" ∧ t ≠ "fd" ∧ t ≠ "double" := by
  unfold type_from_string
  constructor
  · intro h
    refine ⟨?_, ?_, ?_, ?_, ?_, ?_⟩ <;> (rintro rfl; simp at h)
  · rintro ⟨h1, h2, h3, h4, h5, h6⟩
    rw [if_neg h1, if_neg h2, if_neg h3, if_neg h4, if_neg h5, if_neg h6]

/-- C11. With a name and a type text, `make_arg` succeeds with the plain tag for each of
`int`, `uint`, `string`, `array`, `fd`, `double`, whatever the interface attribute; it
succeeds with `NEW_ID` or `OBJECT` and the given interface name for `new_id` or `object`
with an interface; it fails with `no interface name given` iff the type is `new_id` or
`object` and no interface is given; and it fails with `unknown type` iff the type is none
of the eight texts. -/
theorem make_arg_cases (name type : String) (interface_name : Option String) :
    make_arg (some name) (some "int") interface_name =
      .ok { name := name, type := arg_type.INT, interface_name := none } ∧
    make_arg (some name) (some "uint") interface_name =
      .ok { name := name, type := arg_type.UNSIGNED, interface_name := none } ∧
    make_arg (some name) (some "string") interface_name =
      .ok { name := name, type := arg_type.STRING, interface_name := none } ∧
    make_arg (some name) (some "array") interface_name =
      .ok { name := name, type := arg_type.ARRAY, interface_name := none } ∧
    make_arg (some name) (some "fd") interface_name =
      .ok { name := name, type := arg_type.FD, interface_name := none } ∧
    make_arg (some name) (some "double") interface_name =
      .ok { name := name, type := arg_type.DOUBLE, interface_name := none } ∧
    (∀ n, make_arg (some name) (some "new_id") (some n) =
      .ok { name := name, type := arg_type.NEW_ID, interface_name := some n }) ∧
    (∀ n, make_arg (some name) (some "object") (some n) =
      .ok { name := name, type := arg_type.OBJECT, interface_name := some n }) ∧
    (make_arg (some name) (some type) interface_name =
        .error (error.fail "no interface name given") ↔
      (type = "new_id" ∨ type = "object") ∧ interface_name = none) ∧
    (make_arg (some name) (some type) interface_name = .error (error.fail "unknown type") ↔
      type ≠ "int" ∧ type ≠ "uint" ∧ type ≠ "string" ∧ type ≠ "array" ∧ type ≠ "fd" ∧
        type ≠ "double" ∧ type ≠ "new_id" ∧ type ≠ "object") := by
  refine ⟨rfl, rfl, rfl, rfl, rfl, rfl, fun _ => rfl, fun _ => rfl, ?_, ?_⟩
  · unfold make_arg
    dsimp only
    by_cases h1 : type_from_string type = arg_type.INVALID
    · have h6 := (type_from_string_invalid_iff type).mp h1
      rw [if_neg (not_not.mpr h1)]
      by_cases h2 : type = "new_id"
      · rw [if_pos h2]
        cases interface_name <;> simp [h2]
      · rw [if_neg h2]
        by_cases h3 : type = "object"
        · rw [if_pos h3]
          cases interface_name <;> simp [h3]
        · rw [if_neg h3]
          simp [h2, h3]
    · rw [if_pos h1]
      have : ¬(type = "new_id" ∨ type = "object") := by
        rintro (rfl | rfl) <;> exact h1 rfl
      simp [this]
  · unfold make_arg
    dsimp only
    by_cases h1 : type_from_string type = arg_type.INVALID
    · have h6 := (type_from_string_invalid_iff type).mp h1
      rw [if_neg (not_not.mpr h1)]
      by_cases h2 : type = "new_id"
      · rw [if_pos h2]
        cases interface_name <;> simp [h2]
      · rw [if_neg h2]
        by_cases h3 : type = "object"
        · rw [if_pos h3]
          cases interface_name <;> simp [h3]
        · rw [if_neg h3]
          simp only [true_iff]
          exact ⟨h6.1, h6.2.1, h6.2.2.1, h6.2.2.2.1, h6.2.2.2.2.1, h6.2.2.2.2.2, h2, h3⟩
    · rw [if_pos h1]
      have h6 := mt (type_from_string_invalid_iff type).mpr h1
      constructor
      · intro h
        cases h
      · rintro ⟨a, b, c, d, e, f, -, -⟩
        exact absurd ⟨a, b, c, d, e, f⟩ h6

theorem start_element_interface (junk₁ junk₂ : uninit) (ctx : parse_context)
    (atts : List (String × String)) :
    start_element junk₁ junk₂ ctx (WAYLAND_NS ++ "#interface") atts =
      start_interface { ctx with character_data_length := 0 } (parse_attributes atts) := by
  unfold start_element
  dsimp only
  rw [if_neg (by decide), if_neg (by decide), if_pos rfl]

/-- C12. An interface start element without a `name` attribute fails with
`no interface name given`; with a name, it fails with `no interface version given` when
the `version` attribute is absent or read as 0 by `atoi`; otherwise it appends at the end
of the interface list of the protocol a new interface with that name, version and
extension flags and with four empty lists, and makes it the current interface. -/
theorem interface_start_element (junk₁ junk₂ : uninit) (ctx : parse_context)
    (atts : List (String × String)) :
    (attribute_value atts "name" = none →
      start_element junk₁ junk₂ ctx (WAYLAND_NS ++ "#interface") atts =
        .error (error.fail "no interface name given")) ∧
    (∀ name, attribute_value atts "name" = some name →
      (attribute_value atts "version" = none ∨
          (∃ v, attribute_value atts "version" = some v ∧ atoi v = 0) →
        start_element junk₁ junk₂ ctx (WAYLAND_NS ++ "#interface") atts =
          .error (error.fail "no interface version given")) ∧
      (∀ v, attribute_value atts "version" = some v → atoi v ≠ 0 →
        ∃ ctx', start_element junk₁ junk₂ ctx (WAYLAND_NS ++ "#interface") atts = .ok ctx' ∧
          ctx'.protocol.interface_list = ctx.protocol.interface_list ++
            [{ name := name, uppercase_name := uppercase_dup name, version := atoi v,
               client_custom :=
                 decide (attribute_value atts (WAYLAND_CLIENT_NS ++ "#custom") = some "yes"),
               client_global :=
                 decide (attribute_value atts (WAYLAND_CLIENT_NS ++ "#global") = some "yes"),
               request_list := [], event_list := [], enumeration_list := [],
               property_list := [] }] ∧
          ctx'.interface = some ctx.protocol.interface_list.length ∧
          ctx'.message = ctx.message ∧ ctx'.enumeration = ctx.enumeration)) := by
  obtain ⟨s1, -, -, -, s5, -, -, s8, s9⟩ := parse_attributes_spec atts
  rw [start_element_interface]
  unfold start_interface
  rw [s1, s5, s8, s9]
  refine ⟨?_, ?_⟩
  · intro hn
    rw [hn]
  · intro name hn
    rw [hn]
    dsimp only
    refine ⟨?_, ?_⟩
    · rintro (hv | ⟨v, hv, h0⟩)
      · rw [hv]
        rfl
      · rw [hv]
        simp [h0]
    · intro v hv h0
      rw [hv]
      simp only [Option.map_some', Option.getD_some, if_neg h0]
      exact ⟨_, rfl, rfl, rfl, rfl, rfl⟩

/-! ## The interface list only grows -/

theorem interface_extends_refl (i : interface) : interface_extends i i :=
  ⟨rfl, rfl, rfl, rfl, rfl, ⟨[], by simp⟩, ⟨[], by simp⟩⟩

theorem interface_extends_trans {a b c : interface} (h1 : interface_extends a b)
    (h2 : interface_extends b c) : interface_extends a c := by
  obtain ⟨a1, a2, a3, a4, a5, ⟨t1, a6⟩, ⟨u1, a7⟩⟩ := h1
  obtain ⟨b1, b2, b3, b4, b5, ⟨t2, b6⟩, ⟨u2, b7⟩⟩ := h2
  refine ⟨b1.trans a1, b2.trans a2, b3.trans a3, b4.trans a4, b5.trans a5,
    ⟨t1 ++ t2, ?_⟩, ⟨u1 ++ u2, ?_⟩⟩
  · rw [b6, a6, List.append_assoc]
  · rw [b7, a7, List.append_assoc]

theorem interfaces_extend_refl (l : List interface) : interfaces_extend l l :=
  fun _ i h => ⟨i, h, interface_extends_refl i⟩

theorem interfaces_extend_trans {a b c : List interface} (h1 : interfaces_extend a b)
    (h2 : interfaces_extend b c) : interfaces_extend a c := by
  intro k i hk
  obtain ⟨i', hk', e1⟩ := h1 k i hk
  obtain ⟨i'', hk'', e2⟩ := h2 k i' hk'
  exact ⟨i'', hk'', interface_extends_trans e1 e2⟩

theorem interfaces_extend_append (l t : List interface) : interfaces_extend l (l ++ t) := by
  intro k i hk
  have hlt : k < l.length := (List.getElem?_eq_some_iff.mp hk).1
  exact ⟨i, by rw [List.getElem?_append_left hlt]; exact hk, interface_extends_refl i⟩

theorem interfaces_extend_set {l : List interface} {ii : Nat} {i i' : interface}
    (hi : l[ii]? = some i) (h : interface_extends i i') :
    interfaces_extend l (l.set ii i') := by
  intro k x hk
  have hlt : ii < l.length := (List.getElem?_eq_some_iff.mp hi).1
  by_cases hki : ii = k
  · subst hki
    have : x = i := Option.some.inj (hk.symm.trans hi)
    subst this
    exact ⟨i', List.getElem?_set_self hlt, h⟩
  · exact ⟨x, by rw [List.getElem?_set_ne hki]; exact hk, interface_extends_refl x⟩

theorem message_names_set {l : List message} {mi : Nat} {m m' : message}
    (hm : l[mi]? = some m) (hn : m'.name = m.name) :
    message_names (l.set mi m') = message_names l := by
  unfold message_names
  apply List.ext_getElem?
  intro k
  rw [List.getElem?_map, List.getElem?_map]
  by_cases hk : mi = k
  · subst hk
    rw [List.getElem?_set_self (List.getElem?_eq_some_iff.mp hm).1, hm]
    simp [hn]
  · rw [List.getElem?_set_ne hk]

theorem start_message_shape {junk : uninit} {ctx ctx' : parse_context} {a : attributes}
    {ev : Bool} (h : start_message junk ctx a ev = .ok ctx') :
    ∃ ii i i', ctx.protocol.interface_list[ii]? = some i ∧
      ctx'.protocol.interface_list = ctx.protocol.interface_list.set ii i' ∧
      interface_extends i i' := by
  unfold start_message at h
  cases hn : a.name with
  | none => simp [hn] at h
  | some name =>
    cases hc : current_interface ctx with
    | error e => simp [hn, hc] at h
    | ok r =>
      obtain ⟨ii, i⟩ := r
      obtain ⟨-, hii⟩ := current_interface_mem hc
      simp only [hn, hc] at h
      split at h
      · cases h
      · split at h
        · cases h
          exact ⟨ii, i, _, hii, rfl, rfl, rfl, rfl, rfl, rfl, ⟨[], by simp⟩,
            ⟨[name], by simp [message_names]⟩⟩
        · cases h
          exact ⟨ii, i, _, hii, rfl, rfl, rfl, rfl, rfl, rfl,
            ⟨[name], by simp [message_names]⟩, ⟨[], by simp⟩⟩

theorem start_enum_shape {ctx ctx' : parse_context} {a : attributes}
    (h : start_enum ctx a = .ok ctx') :
    ∃ ii i i', ctx.protocol.interface_list[ii]? = some i ∧
      ctx'.protocol.interface_list = ctx.protocol.interface_list.set ii i' ∧
      interface_extends i i' := by
  unfold start_enum at h
  cases hn : a.name with
  | none => simp [hn] at h
  | some name =>
    cases hc : current_interface ctx with
    | error e => simp [hn, hc] at h
    | ok r =>
      obtain ⟨ii, i⟩ := r
      obtain ⟨-, hii⟩ := current_interface_mem hc
      simp only [hn, hc] at h
      cases h
      exact ⟨ii, i, _, hii, rfl, rfl, rfl, rfl, rfl, rfl, ⟨[], by simp⟩, ⟨[], by simp⟩⟩

theorem start_entry_shape {ctx ctx' : parse_context} {a : attributes}
    (h : start_entry ctx a = .ok ctx') :
    ∃ ii i i', ctx.protocol.interface_list[ii]? = some i ∧
      ctx'.protocol.interface_list = ctx.protocol.interface_list.set ii i' ∧
      interface_extends i i' := by
  unfold start_entry at h
  split at h
  · split at h
    · cases h
    · rename_i ii ei _
      split at h
      · cases h
      · rename_i i hi
        split at h
        · cases h
        · cases h
          exact ⟨ii, i, _, hi, rfl, rfl, rfl, rfl, rfl, rfl, ⟨[], by simp⟩, ⟨[], by simp⟩⟩
  · cases h

/-- The three ways in which a successful start element changes the interface list: not at
all, by a new interface at the end, or by new children of one interface. -/
theorem start_element_shape {junk₁ junk₂ : uninit} {ctx ctx' : parse_context} {en : String}
    {atts : List (String × String)}
    (h : start_element junk₁ junk₂ ctx en atts = .ok ctx') :
    ctx'.protocol.interface_list = ctx.protocol.interface_list ∨
    (∃ i, ctx'.protocol.interface_list = ctx.protocol.interface_list ++ [i] ∧
      i.version ≠ 0 ∧ i.request_list = [] ∧ i.event_list = []) ∨
    (∃ ii i i', ctx.protocol.interface_list[ii]? = some i ∧
      ctx'.protocol.interface_list = ctx.protocol.interface_list.set ii i' ∧
      interface_extends i i') := by
  unfold start_element at h
  dsimp only at h
  split at h
  · split at h
    · cases h
    · cases h
      exact Or.inl rfl
  · split at h
    · cases h
      exact Or.inl rfl
    · split at h
      · -- interface
        unfold start_interface at h
        split at h
        · cases h
        · split at h
          · cases h
          · rename_i hv
            cases h
            exact Or.inr (Or.inl ⟨_, rfl, hv, rfl, rfl⟩)
      · split at h
        · have hs := start_message_shape h
          exact Or.inr (Or.inr hs)
        · split at h
          · have hs := start_message_shape h
            exact Or.inr (Or.inr hs)
          · split at h
            · obtain ⟨name, type, ii, i, -, -, -, hii, reqs, evs, -, -, rfl⟩ :=
                start_property_inv h
              refine Or.inr (Or.inr ⟨ii, i, _, hii, rfl, rfl, rfl, rfl, rfl, rfl,
                ⟨message_names reqs, by simp [message_names]⟩,
                ⟨message_names evs, by simp [message_names]⟩⟩)
            · split at h
              · obtain ⟨x, ii, ev, mi, i, m, -, -, hi, hm, rfl⟩ := start_arg_inv h
                refine Or.inr (Or.inr ⟨ii, i, _, hi, rfl, ?_⟩)
                cases ev
                · simp only [Bool.false_eq_true, if_false] at hm ⊢
                  exact ⟨rfl, rfl, rfl, rfl, rfl,
                    ⟨[], by rw [List.append_nil]; exact message_names_set hm rfl⟩,
                    ⟨[], by simp⟩⟩
                · simp only [if_true] at hm ⊢
                  exact ⟨rfl, rfl, rfl, rfl, rfl, ⟨[], by simp⟩,
                    ⟨[], by rw [List.append_nil]; exact message_names_set hm rfl⟩⟩
              · split at h
                · have hs := start_enum_shape h
                  exact Or.inr (Or.inr hs)
                · split at h
                  · have hs := start_entry_shape h
                    exact Or.inr (Or.inr hs)
                  · cases h
                    exact Or.inl rfl

theorem handle_shape {ctx ctx' : parse_context} {e : xml_event × uninit × uninit}
    (h : handle ctx e = .ok ctx') :
    ctx'.protocol.interface_list = ctx.protocol.interface_list ∨
    (∃ i, ctx'.protocol.interface_list = ctx.protocol.interface_list ++ [i] ∧
      i.version ≠ 0 ∧ i.request_list = [] ∧ i.event_list = []) ∨
    (∃ ii i i', ctx.protocol.interface_list[ii]? = some i ∧
      ctx'.protocol.interface_list = ctx.protocol.interface_list.set ii i' ∧
      interface_extends i i') := by
  unfold handle at h
  split at h
  · exact start_element_shape h
  · cases h
    unfold end_element
    split <;> exact Or.inl rfl
  · unfold character_data at h
    dsimp only at h
    split at h
    · cases h
    · split at h
      · cases h
      · cases h
        exact Or.inl rfl

theorem shape_extends {l l' : List interface}
    (h : l' = l ∨
      (∃ i, l' = l ++ [i] ∧ i.version ≠ 0 ∧ i.request_list = [] ∧ i.event_list = []) ∨
      (∃ ii i i', l[ii]? = some i ∧ l' = l.set ii i' ∧ interface_extends i i')) :
    interfaces_extend l l' ∧
    (∃ t, l'.map (fun i => i.name) = l.map (fun i => i.name) ++ t) ∧
    ((∀ i ∈ l, i.version ≠ 0) → ∀ i ∈ l', i.version ≠ 0) := by
  rcases h with rfl | ⟨i, rfl, hv, -, -⟩ | ⟨ii, i, i', hi, rfl, he⟩
  · exact ⟨interfaces_extend_refl _, ⟨[], by simp⟩, fun h => h⟩
  · refine ⟨interfaces_extend_append _ _, ⟨[i.name], by simp⟩, ?_⟩
    intro h x hx
    rcases List.mem_append.mp hx with hx | hx
    · exact h x hx
    · rw [List.mem_singleton.mp hx]
      exact hv
  · refine ⟨interfaces_extend_set hi he, ⟨[], ?_⟩, ?_⟩
    · rw [List.append_nil]
      apply List.ext_getElem?
      intro k
      rw [List.getElem?_map, List.getElem?_map]
      by_cases hk : ii = k
      · subst hk
        rw [List.getElem?_set_self (List.getElem?_eq_some_iff.mp hi).1, hi]
        simp [he.1]
      · rw [List.getElem?_set_ne hk]
    · intro h x hx
      rcases mem_set_cases hx with rfl | hx
      · rw [he.2.2.1]
        exact h i (mem_of_getElem? hi)
      · exact h x hx

theorem feed_extends {events : List (xml_event × uninit × uninit)} {ctx ctx' : parse_context}
    (h : feed ctx events = .ok ctx') :
    interfaces_extend ctx.protocol.interface_list ctx'.protocol.interface_list ∧
    ((∀ i ∈ ctx.protocol.interface_list, i.version ≠ 0) →
      ∀ i ∈ ctx'.protocol.interface_list, i.version ≠ 0) := by
  induction events generalizing ctx with
  | nil =>
    simp only [feed] at h
    cases h
    exact ⟨interfaces_extend_refl _, fun h => h⟩
  | cons e rest ih =>
    simp only [feed] at h
    cases hc : handle ctx e with
    | error err => simp [hc] at h
    | ok c =>
      simp only [hc] at h
      have h1 := shape_extends (handle_shape hc)
      have h2 := ih h
      exact ⟨interfaces_extend_trans h1.1 h2.1, fun hv => h2.2 (h1.2.2 hv)⟩

/-- C13, as the code has it. Every interface in a model that the builder accepts has a
version different from 0. -/
theorem version_is_nonzero (sd : List Char) (sl : Int)
    (events : List (xml_event × uninit × uninit)) (ctx : parse_context)
    (h : build sd sl events = .ok ctx) :
    ∀ i ∈ ctx.protocol.interface_list, i.version ≠ 0 := by
  refine (feed_extends h).2 ?_
  intro i hi
  simp [init_context] at hi

/-- C13, as stated, fails: the builder accepts the interface `bar` of
`negative_version_document`, whose version text `-1` is read as the version -1. -/
theorem negative_version_accepted :
    (build [] 0 negative_version_document).map (fun ctx =>
      ctx.protocol.interface_list.map fun i => (i.name, i.version, decide (i.version > 0))) =
      .ok [("bar", -1, false)] := by
  rfl

theorem names_at_of_extends {a b : List message} {t : List String}
    (h : message_names b = message_names a ++ t) {j : Nat} {m : message}
    (hm : a[j]? = some m) : ∃ m', b[j]? = some m' ∧ m'.name = m.name := by
  have hlt : j < a.length := (List.getElem?_eq_some_iff.mp hm).1
  have h1 : (message_names b)[j]? = some m.name := by
    rw [h, List.getElem?_append_left (by simpa [message_names] using hlt)]
    simp [message_names, hm]
  unfold message_names at h1
  rw [List.getElem?_map] at h1
  cases hb : b[j]? with
  | none => simp [hb] at h1
  | some m' =>
    simp only [hb, Option.map_some', Option.some.injEq] at h1
    exact ⟨m', rfl, h1⟩

/-- C14. A start element that is processed without failure keeps every interface at its
position in the interface list (the names of the interfaces before are the first names
after), and in every interface the names of the requests and of the events before are
the first names after. The same holds from the state before the element to the state
after any further handler calls; so a message that has been linked keeps its position,
its opcode, for the rest of the parse. -/
theorem opcodes_are_stable (junk₁ junk₂ : uninit) (ctx ctx' : parse_context)
    (element_name : String) (atts : List (String × String))
    (h : start_element junk₁ junk₂ ctx element_name atts = .ok ctx') :
    (∃ t, ctx'.protocol.interface_list.map (fun i => i.name) =
      ctx.protocol.interface_list.map (fun i => i.name) ++ t) ∧
    (∀ (k : Nat) (i : interface), ctx.protocol.interface_list[k]? = some i →
      ∃ i', ctx'.protocol.interface_list[k]? = some i' ∧ i'.name = i.name ∧
        (∃ t, message_names i'.request_list = message_names i.request_list ++ t) ∧
        (∃ t, message_names i'.event_list = message_names i.event_list ++ t)) ∧
    (∀ (rest : List (xml_event × uninit × uninit)) (ctx'' : parse_context),
      feed ctx' rest = .ok ctx'' →
      ∀ (k : Nat) (i : interface), ctx.protocol.interface_list[k]? = some i →
        ∃ i'', ctx''.protocol.interface_list[k]? = some i'' ∧ i''.name = i.name ∧
          (∀ (j : Nat) (m : message), i.request_list[j]? = some m →
            ∃ m'', i''.request_list[j]? = some m'' ∧ m''.name = m.name) ∧
          (∀ (j : Nat) (m : message), i.event_list[j]? = some m →
            ∃ m'', i''.event_list[j]? = some m'' ∧ m''.name = m.name)) := by
  have hs := shape_extends (start_element_shape h)
  refine ⟨hs.2.1, ?_, ?_⟩
  · intro k i hk
    obtain ⟨i', hk', he⟩ := hs.1 k i hk
    exact ⟨i', hk', he.1, he.2.2.2.2.2.1, he.2.2.2.2.2.2⟩
  · intro rest ctx'' hf k i hk
    obtain ⟨i'', hk'', he⟩ := interfaces_extend_trans hs.1 (feed_extends hf).1 k i hk
    obtain ⟨t, ht⟩ := he.2.2.2.2.2.1
    obtain ⟨u, hu⟩ := he.2.2.2.2.2.2
    exact ⟨i'', hk'', he.1, fun j m hm => names_at_of_extends ht hm,
      fun j m hm => names_at_of_extends hu hm⟩

/-! ## The descriptors and the forward declarations -/

theorem array_length_ne (s : String) : "\tARRAY_LENGTH(" ++ s ≠ "\t0, NULL,\n" := by
  intro h
  have h1 : ("\tARRAY_LENGTH(" ++ s).data[1]? = some 'A' := by
    rw [String.data_append]
    rfl
  rw [h] at h1
  exact absurd h1 (by decide)

theorem emit_messages_eq_empty_iff (ml : List message) (i : interface) (suffix : String) :
    emit_messages ml i suffix = "" ↔ ml = [] := by
  constructor
  · intro h
    cases ml with
    | nil => rfl
    | cons m rest =>
      exfalso
      have hl := congrArg String.length h
      simp only [emit_messages, List.isEmpty_cons, Bool.false_eq_true, if_false,
        String.length_append] at hl
      have : ("static const struct wl_message " : String).length = 31 := by decide
      rw [this] at hl
      have h0 : ("" : String).length = 0 := rfl
      omega
  · rintro rfl
    rfl

/-- C15. The text that `emit_code` prints for an interface is its two message tables and
then its descriptor. The request field of the descriptor is `0, NULL,` iff the request
list is empty and names the array `<name>_requests` otherwise; `emit_messages` prints
nothing for the requests iff the list is empty and otherwise prints the declaration of
the array `<name>_requests[]`; and likewise for the events. So the descriptor names an
array exactly when the array is declared. -/
theorem descriptor_tables (i : interface) :
    (∀ p : protocol, ∃ pre, (emit_code p).2 =
      pre ++ String.join ((emit_code p).1.interface_list.map emit_code_interface)) ∧
    ∃ req ev : String,
      emit_code_interface i =
        emit_messages i.request_list i "requests" ++ emit_messages i.event_list i "events" ++
        "WL_EXPORT const struct wl_interface " ++ i.name ++ "_interface = \x7b\n" ++
        "\t\"" ++ i.name ++ "\", " ++ toString i.version ++ ",\n" ++
        req ++ ev ++ "\x7d;\n\n" ∧
      (req = "\t0, NULL,\n" ↔ i.request_list = []) ∧
      (i.request_list ≠ [] →
        req = "\tARRAY_LENGTH(" ++ i.name ++ "_requests), " ++ i.name ++ "_requests,\n") ∧
      (emit_messages i.request_list i "requests" = "" ↔ i.request_list = []) ∧
      (i.request_list ≠ [] →
        emit_messages i.request_list i "requests" =
          "static const struct wl_message " ++ i.name ++ "_requests[] = \x7b\n" ++
            String.join (i.request_list.map emit_messages_row) ++ "\x7d;\n\n") ∧
      (ev = "\t0, NULL,\n" ↔ i.event_list = []) ∧
      (i.event_list ≠ [] →
        ev = "\tARRAY_LENGTH(" ++ i.name ++ "_events), " ++ i.name ++ "_events,\n") ∧
      (emit_messages i.event_list i "events" = "" ↔ i.event_list = []) ∧
      (i.event_list ≠ [] →
        emit_messages i.event_list i "events" =
          "static const struct wl_message " ++ i.name ++ "_events[] = \x7b\n" ++
            String.join (i.event_list.map emit_messages_row) ++ "\x7d;\n\n") := by
  have hfield : ∀ (l : List message) (a b : String),
      ((if !l.isEmpty then "\tARRAY_LENGTH(" ++ i.name ++ a ++ i.name ++ b
        else "\t0, NULL,\n") = "\t0, NULL,\n" ↔ l = []) ∧
      (l ≠ [] → (if !l.isEmpty then "\tARRAY_LENGTH(" ++ i.name ++ a ++ i.name ++ b
        else "\t0, NULL,\n") = "\tARRAY_LENGTH(" ++ i.name ++ a ++ i.name ++ b) := by
    intro l a b
    cases l with
    | nil =>
      refine ⟨?_, fun h => absurd rfl h⟩
      simp
    | cons m rest =>
      simp only [List.isEmpty_cons, Bool.not_false, if_true]
      refine ⟨⟨?_, fun h => by cases h⟩, by simp⟩
      intro h
      rw [String.append_assoc, String.append_assoc, String.append_assoc] at h
      exact absurd h (array_length_ne _)
  have hmsg : ∀ (l : List message) (suffix : String), l ≠ [] →
      emit_messages l i suffix =
        "static const struct wl_message " ++ i.name ++ "_" ++ suffix ++ "[] = \x7b\n" ++
          String.join (l.map emit_messages_row) ++ "\x7d;\n\n" := by
    intro l suffix hne
    cases l with
    | nil => exact absurd rfl hne
    | cons m rest => rfl
  refine ⟨fun p => ⟨_, rfl⟩, _, _, rfl, ?_, ?_, emit_messages_eq_empty_iff _ _ _, ?_, ?_, ?_,
    emit_messages_eq_empty_iff _ _ _, ?_⟩
  · exact (hfield i.request_list "_requests), " "_requests,\n").1
  · exact (hfield i.request_list "_requests), " "_requests,\n").2
  · intro h
    have := hmsg i.request_list "requests" h
    simpa [String.append_assoc] using this
  · exact (hfield i.event_list "_events), " "_events,\n").1
  · exact (hfield i.event_list "_events), " "_events,\n").2
  · intro h
    have := hmsg i.event_list "events" h
    simpa [String.append_assoc] using this

theorem forward_args_lines (l : List arg) (n : Nat) (b : Bool) :
    (emit_types_forward_declarations_args l n b).2.2 =
      (l.filter is_reference).map fun a => forward_declaration (interface_name_text a) := by
  induction l generalizing n b with
  | nil => rfl
  | cons a rest ih =>
    cases hty : a.type <;>
      simp [emit_types_forward_declarations_args, hty, ih, is_reference, List.filter_cons,
        forward_declaration]

theorem references_of_cons (m : message) (ms : List message) :
    references_of (m :: ms) = m.arg_list.filter is_reference ++ references_of ms := by
  simp [references_of]

theorem references_of_append (a b : List message) :
    references_of (a ++ b) = references_of a ++ references_of b := by
  simp [references_of]

theorem forward_declarations_lines (ms : List message) (n : Nat) :
    (emit_types_forward_declarations n ms).2.2 =
      (references_of ms).map fun a => forward_declaration (interface_name_text a) := by
  induction ms generalizing n with
  | nil => rfl
  | cons m rest ih =>
    simp only [emit_types_forward_declarations, ih, forward_args_lines, references_of_cons,
      List.map_append]

theorem code_forward_declarations_lines (l : List interface) (n : Nat) :
    (emit_code_forward_declarations n l).2.2 =
      (references_of (messages_of l)).map fun a =>
        forward_declaration (interface_name_text a) := by
  induction l generalizing n with
  | nil => rfl
  | cons i rest ih =>
    simp only [emit_code_forward_declarations, ih, forward_declarations_lines,
      messages_of_cons, references_of_append, List.map_append, List.append_assoc]

theorem forward_declaration_injective {a b : String}
    (h : forward_declaration a = forward_declaration b) : a = b := by
  unfold forward_declaration at h
  have hd := congrArg String.data h
  simp only [String.data_append] at hd
  have h1 := List.append_cancel_right hd
  have h2 := List.append_cancel_left h1
  exact String.ext h2

/-- C16, as the code has it. The forward-declaration pass of `emit_code` prints one line
`extern const struct wl_interface <name>_interface;` for every `object` or `new_id` arg
of the protocol, in traversal order; so in a built model the interface name `n` is
declared as many times as there are such args that name it. -/
theorem forward_declaration_per_arg (sd : List Char) (sl : Int)
    (events : List (xml_event × uninit × uninit)) (ctx : parse_context)
    (h : build sd sl events = .ok ctx) :
    (∃ pre post, (emit_code ctx.protocol).2 =
      pre ++ String.join (emit_code_plan ctx.protocol).forward_declarations ++ "\n" ++ post) ∧
    (emit_code_plan ctx.protocol).forward_declarations =
      (references_of (messages ctx.protocol)).map
        (fun a => forward_declaration (interface_name_text a)) ∧
    (∀ a ∈ references_of (messages ctx.protocol),
      ∃ n, a.interface_name = some n ∧ interface_name_text a = n) ∧
    ∀ n : String,
      (emit_code_plan ctx.protocol).forward_declarations.count (forward_declaration n) =
        (references_of (messages ctx.protocol)).countP
          (fun a => decide (a.interface_name = some n)) := by
  have hp := build_ok h
  have hl : (emit_code_plan ctx.protocol).forward_declarations =
      (references_of (messages ctx.protocol)).map
        (fun a => forward_declaration (interface_name_text a)) :=
    code_forward_declarations_lines _ _
  have hname : ∀ a ∈ references_of (messages ctx.protocol),
      ∃ n, a.interface_name = some n ∧ interface_name_text a = n := by
    intro a ha
    simp only [references_of, List.mem_flatMap, List.mem_filter] at ha
    obtain ⟨m, hm, ham, hr⟩ := ha
    have hok := (messages_ok hp hm).2.2 a ham
    have : a.type = arg_type.NEW_ID ∨ a.type = arg_type.OBJECT := by
      simpa [is_reference] using hr
    obtain ⟨n, hn⟩ := hok.2.2 this
    exact ⟨n, hn, by simp [interface_name_text, hn]⟩
  refine ⟨⟨(match ctx.protocol.copyright with
      | some c => format_copyright c
      | none => "") ++
      "#include <stdlib.h>\n#include <stdint.h>\n#include \"wayland-util.h\"\n\n",
    "static const struct wl_interface *types[] = \x7b\n" ++
      (String.join ((emit_code_plan ctx.protocol).null_run ++
        (emit_code_plan ctx.protocol).types) ++
      ("\x7d;\n\n" ++ String.join
        ((emit_code_plan ctx.protocol).protocol.interface_list.map emit_code_interface))),
    by simp only [emit_code, String.append_assoc]⟩, hl, hname, ?_⟩
  intro n
  rw [hl, List.count, List.countP_map]
  apply List.countP_congr
  intro a ha
  obtain ⟨x, hx, hxt⟩ := hname a ha
  simp only [Function.comp, beq_iff_eq, decide_eq_true_eq, hx, hxt, Option.some.injEq]
  constructor
  · intro he
    exact forward_declaration_injective he
  · intro he
    rw [he]

/-- C16, as stated, fails: the request `swap` of `two_buffers_document` has two args of
interface `wl_buffer`, and the forward-declaration pass declares `wl_buffer_interface`
twice. -/
theorem forward_declaration_repeated :
    (build [] 0 two_buffers_document).map (fun ctx =>
      (emit_code_plan ctx.protocol).forward_declarations) =
      .ok ["extern const struct wl_interface wl_buffer_interface;\n",
           "extern const struct wl_interface wl_buffer_interface;\n"] := by
  rfl

/-! ## The client renderers -/

theorem string_join_nil : String.join [] = "" := rfl

theorem string_join_append (a b : List String) :
    String.join (a ++ b) = String.join a ++ String.join b := by
  apply String.ext
  simp [String.join_eq, String.data_append]

theorem has_destructor_eq_any (l : List message) :
    emit_destructor_has_destructor l = l.any fun m => m.destructor := by
  induction l with
  | nil => rfl
  | cons m rest ih =>
    cases hd : m.destructor <;> simp [emit_destructor_has_destructor, hd, ih]

theorem emit_destructor_properties_spec (i : interface) (l : List property) :
    emit_destructor_properties i l =
      String.join ((l.filter fun p => p.type = arg_type.STRING).flatMap fun p =>
        ["\tfree(" ++ i.name ++ "->" ++ p.name ++ ");\n",
         "\t" ++ i.name ++ "->" ++ p.name ++ " = NULL;\n", "\n"]) := by
  induction l with
  | nil => rfl
  | cons p rest ih =>
    by_cases hp : p.type = arg_type.STRING
    · simp only [emit_destructor_properties, ih, if_pos hp, List.filter_cons, hp,
        decide_True, if_true, List.flatMap_cons, string_join_append, string_join_cons,
        string_join_nil]
      simp only [String.append_assoc]
      rfl
    · simp only [emit_destructor_properties, ih, if_neg hp, List.filter_cons, hp,
        decide_False, Bool.false_eq_true, if_false]
      exact String.empty_append _

/-- C20. The text of `emit_destructor` is, line by line: `WL_EXPORT void`; the function
name with its parameter, the name being `_<iface>_proxy_destroy` when some request of the
interface has the destructor flag set and `<iface>_destroy` otherwise; the opening brace;
for each property of type string, in declaration order, the line `free(<iface>-><prop>);`
followed by the reset of the field and an empty line, and nothing for a property of any
other type; then the one line `wl_proxy_destroy(...)`; then the closing brace and an
empty line. The client code of an interface that is not custom contains this text. -/
theorem destructor_releases_strings (i : interface) :
    emit_destructor i = String.join
      (["WL_EXPORT void\n",
        (if i.request_list.any (fun m => m.destructor) then "_" ++ i.name ++ "_proxy_destroy"
          else i.name ++ "_destroy") ++ "(struct " ++ i.name ++ "* " ++ i.name ++ ")\n",
        "\x7b\n"] ++
      ((i.property_list.filter fun p => p.type = arg_type.STRING).flatMap fun p =>
        ["\tfree(" ++ i.name ++ "->" ++ p.name ++ ");\n",
         "\t" ++ i.name ++ "->" ++ p.name ++ " = NULL;\n", "\n"]) ++
      ["\twl_proxy_destroy((struct wl_proxy *) " ++ i.name ++ ");\n", "\x7d\n", "\n"]) ∧
    (i.client_custom = false →
      emit_client_code_interface i =
        emit_property_listeners i ++ emit_constructor i ++ emit_destructor i ++
          emit_property_get_set i) := by
  constructor
  · unfold emit_destructor
    rw [has_destructor_eq_any, emit_destructor_properties_spec]
    simp only [string_join_append, string_join_cons, string_join_nil, String.append_assoc]
    rfl
  · intro hc
    unfold emit_client_code_interface
    rw [hc]
    rfl

theorem seq_emit_ok_empty (a : Except stop String) : seq_emit a (.ok "") = a := by
  unfold seq_emit
  cases a with
  | error e => rfl
  | ok s =>
    dsimp only
    rw [String.append_empty]

theorem emit_client_code_filter (l : List interface) :
    String.join (l.map fun i => if i.client_custom then "" else emit_object_struct i) =
      String.join ((l.filter fun i => !i.client_custom).map fun i =>
        if i.client_custom then "" else emit_object_struct i) ∧
    String.join (l.map emit_client_code_interface) =
      String.join ((l.filter fun i => !i.client_custom).map emit_client_code_interface) := by
  induction l with
  | nil => exact ⟨rfl, rfl⟩
  | cons i rest ih =>
    cases hc : i.client_custom
    · constructor
      · simp only [List.map_cons, List.filter_cons, hc, Bool.not_false, if_true,
          string_join_cons, ih.1]
      · simp only [List.map_cons, List.filter_cons, hc, Bool.not_false, if_true,
          string_join_cons, ih.2]
    · constructor
      · simp only [List.map_cons, List.filter_cons, hc, Bool.not_true, Bool.false_eq_true,
          if_false, if_true, string_join_cons, ih.1, String.empty_append]
      · have he : emit_client_code_interface i = "" := by
          unfold emit_client_code_interface
          rw [hc]
          rfl
        simp only [List.map_cons, List.filter_cons, hc, Bool.not_true, Bool.false_eq_true,
          if_false, string_join_cons, ih.2, he, String.empty_append]

theorem emit_structs_messages_congr (b : Bool) {i i' : interface} (hn : i'.name = i.name)
    (l : List message) : emit_structs_messages b i' l = emit_structs_messages b i l := by
  induction l with
  | nil => rfl
  | cons m rest ih =>
    simp only [emit_structs_messages, emit_structs_message, hn, ih]

theorem emit_structs_congr (b : Bool) (i i' : interface) (hn : i'.name = i.name)
    (hp : i'.property_list = i.property_list) (l : List message) :
    emit_structs l i' b = emit_structs l i b := by
  simp only [emit_structs, emit_structs_messages_congr b hn, emit_structs_add_listener,
    emit_structs_properties, hn, hp]

theorem emit_opcodes_congr (i i' : interface) (hu : i'.uppercase_name = i.uppercase_name)
    (l : List message) : emit_opcodes l i' = emit_opcodes l i := by
  have hl : ∀ n, emit_opcodes_loop i' l n = emit_opcodes_loop i l n := by
    induction l with
    | nil => intro n; rfl
    | cons m rest ih =>
      intro n
      simp only [emit_opcodes_loop, hu, ih]
  simp only [emit_opcodes, hl]

/-- C17, as the code has it. For an interface flagged `client_custom`: `emit_stubs` prints
nothing, so its section of the client header is its enumerations, its listener struct
with `add_listener` and the accessor prototypes, and its opcode constants, as for any
other interface; the client code has neither a struct nor functions for it, and is the
client code of the protocol without its custom interfaces. The flag does not enter the
section of the server header. -/
theorem custom_interface_rendering (i : interface) (hc : i.client_custom = true) :
    emit_stubs i.request_list i = .ok "" ∧
    emit_header_interface false i =
      seq_emit (.ok (emit_enumerations i))
        (seq_emit (emit_structs i.event_list i false) (.ok (emit_opcodes i.request_list i))) ∧
    emit_header_interface true i =
      emit_header_interface true { i with client_custom := false } ∧
    emit_object_struct i = "" ∧
    emit_client_code_interface i = "" ∧
    ∀ p : protocol, emit_client_code p =
      emit_client_code
        { p with interface_list := p.interface_list.filter fun i => !i.client_custom } := by
  have hs : emit_stubs i.request_list i = .ok "" := by
    unfold emit_stubs
    rw [if_pos hc]
  refine ⟨hs, ?_, ?_, ?_, ?_, ?_⟩
  · unfold emit_header_interface
    simp only [Bool.false_eq_true, if_false, hs]
    have e : seq_emit (Except.ok (emit_opcodes i.request_list i)) (Except.ok "") =
        (Except.ok (emit_opcodes i.request_list i) : Except stop String) :=
      seq_emit_ok_empty _
    rw [e]
  · simp only [emit_header_interface, if_true]
    rw [emit_structs_congr true i { i with client_custom := false } rfl rfl,
      emit_opcodes_congr i { i with client_custom := false } rfl]
    rfl
  · unfold emit_object_struct
    rw [if_pos hc]
  · unfold emit_client_code_interface
    rw [if_pos hc]
  · intro p
    unfold emit_client_code
    have hf := emit_client_code_filter p.interface_list
    simp only [hf.1, hf.2]

set_option maxRecDepth 100000

/-- C17, as stated, fails: for the custom interface `bar` of `custom_event_document` the
section of the client header holds the listener struct and `bar_add_listener`, while the
section of the same interface without children is empty. -/
theorem custom_interface_keeps_listener :
    (build [] 0 custom_event_document).map (fun ctx =>
      ctx.protocol.interface_list.map fun i =>
        (i.client_custom, emit_header_interface false i,
          emit_header_interface false (without_children i))) =
      .ok [(true,
        .ok ("struct bar_listener \x7b\n\tvoid (*ping)(void *data,\n\t\t     struct bar *bar);\n" ++
          "\x7d;\n\nstatic inline int\nbar_add_listener(struct bar *bar,\n" ++
          "\t\t    const struct bar_listener *listener, void *data)\n\x7b\n" ++
          "\treturn wl_proxy_add_listener((struct wl_proxy *) bar,\n" ++
          "\t\t\t\t     (void (**)(void)) listener, data);\n\x7d\n\n"),
        .ok "")] := by
  rfl

/-! ## Runs of the program -/

/-- C18. The same document, `writable_property_document`, compiled twice in the same mode
gives two different texts when the storage that `malloc` returns for the synthesized
request `set_foo` differs: its destructor flag is never assigned, and `emit_stubs`
(client header) and `emit_destructor` (client code) read it. -/
theorem output_depends_on_uninitialised_storage :
    (writable_property_document zero_junk).map Prod.fst =
      (writable_property_document example_junk).map Prod.fst ∧
    main ["scanner", "client-header"] [] 0 (writable_property_document zero_junk) ≠
      main ["scanner", "client-header"] [] 0 (writable_property_document example_junk) ∧
    main ["scanner", "client-code"] [] 0 (writable_property_document zero_junk) ≠
      main ["scanner", "client-code"] [] 0 (writable_property_document example_junk) := by
  refine ⟨rfl, ?_, ?_⟩ <;> decide

/-- C19. With the single argument `bogus`, which is neither a mode nor `--help`, `main`
parses the document, runs no emitter and returns 0. With another number of arguments the
status is `EXIT_FAILURE` and nothing is written on the standard output, and with the
single argument `--help` the status is 0. -/
theorem unknown_mode_exits_zero :
    main ["scanner", "bogus"] [] 0 example_document =
      some { status := 0, stdout := "", stderr := "" } ∧
    (∀ (argv : List String) (sd : List Char) (sl : Int)
        (events : List (xml_event × uninit × uninit)),
      argv.length ≠ 2 → main argv sd sl events = some (usage 1)) ∧
    (∀ (prog : String) (sd : List Char) (sl : Int)
        (events : List (xml_event × uninit × uninit)),
      main [prog, "--help"] sd sl events = some (usage 0)) ∧
    (usage 1).status = 1 ∧ (usage 1).stdout = "" ∧ (usage 0).status = 0 := by
  refine ⟨by rfl, ?_, ?_, rfl, rfl, rfl⟩
  · intro argv sd sl events h
    unfold main
    rw [if_pos h]
  · intro prog sd sl events
    rfl

/-! ## The arg counts and the arg tags of a built model -/

/-- C21. In every state that the builder reaches, every message, declared or synthesized,
has `arg_count` equal to the length of its arg list. Hence `emit_types`, run on such a
message with `all_null` clear at any cursor `c`, prints as many entries as the message has
args and advances the cursor by exactly that number; and over the whole built model the
planning of `emit_code` prints as many entries after the null run as it advances
`protocol.type_index`. -/
theorem arg_count_is_length (sd : List Char) (sl : Int)
    (events : List (xml_event × uninit × uninit)) (ctx : parse_context)
    (h : build sd sl events = .ok ctx) :
    (∀ m ∈ messages ctx.protocol, m.arg_count = m.arg_list.length) ∧
    (∀ m ∈ messages ctx.protocol, ∀ (n c : Nat) (b : Bool) (t : Nat),
      (emit_types n c [{ m with all_null := false, type_index := t }]).2.2.length =
          m.arg_list.length ∧
      (emit_types n c [{ m with all_null := false, type_index := t }]).1 =
          c + (emit_types n c [{ m with all_null := false, type_index := t }]).2.2.length ∧
      (emit_types n c [{ m with all_null := true, type_index := t }]).2.2 = [] ∧
      (emit_types n c [{ m with all_null := b, type_index := t }]).1 =
          c + (emit_types n c [{ m with all_null := b, type_index := t }]).2.2.length) ∧
    (emit_code_plan ctx.protocol).protocol.type_index =
      ctx.protocol.type_index + (emit_code_plan ctx.protocol).types.length := by
  have hp := build_ok h
  refine ⟨fun m hm => (messages_ok hp hm).1, ?_, ?_⟩
  · intro m hm n c b t
    have hc := (messages_ok hp hm).1
    refine ⟨by simp [emit_types], by simp [emit_types, hc], by simp [emit_types], ?_⟩
    cases b <;> simp [emit_types, hc]
  · rw [(plan_spec ctx.protocol).2.1, (plan_spec ctx.protocol).2.2.2.2,
      entries_length (fun m hm => messages_ok hp hm)]

theorem mem_messages_of_set {l : List interface} {ii : Nat} {i' : interface} {m : message}
    (h : m ∈ messages_of (l.set ii i')) :
    m ∈ messages_of l ∨ m ∈ i'.request_list ∨ m ∈ i'.event_list := by
  simp only [messages_of, List.mem_flatMap, List.mem_append] at h ⊢
  obtain ⟨i, hi, hm⟩ := h
  rcases mem_set_cases hi with rfl | hi
  · exact Or.inr hm
  · exact Or.inl ⟨i, hi, hm⟩

theorem mem_messages_of_getElem? {l : List interface} {ii : Nat} {i : interface}
    {m : message} (hi : l[ii]? = some i) (hm : m ∈ i.request_list ∨ m ∈ i.event_list) :
    m ∈ messages_of l := by
  simp only [messages_of, List.mem_flatMap, List.mem_append]
  exact ⟨i, mem_of_getElem? hi, hm⟩

theorem start_enum_lists {ctx ctx' : parse_context} {a : attributes}
    (h : start_enum ctx a = .ok ctx') :
    ∃ ii i i', ctx.protocol.interface_list[ii]? = some i ∧
      ctx'.protocol.interface_list = ctx.protocol.interface_list.set ii i' ∧
      i'.request_list = i.request_list ∧ i'.event_list = i.event_list ∧
      i'.property_list = i.property_list := by
  unfold start_enum at h
  cases hn : a.name with
  | none => simp [hn] at h
  | some name =>
    cases hc : current_interface ctx with
    | error e => simp [hn, hc] at h
    | ok r =>
      obtain ⟨ii, i⟩ := r
      obtain ⟨-, hii⟩ := current_interface_mem hc
      simp only [hn, hc] at h
      cases h
      exact ⟨ii, i, _, hii, rfl, rfl, rfl, rfl⟩

theorem start_entry_lists {ctx ctx' : parse_context} {a : attributes}
    (h : start_entry ctx a = .ok ctx') :
    ∃ ii i i', ctx.protocol.interface_list[ii]? = some i ∧
      ctx'.protocol.interface_list = ctx.protocol.interface_list.set ii i' ∧
      i'.request_list = i.request_list ∧ i'.event_list = i.event_list ∧
      i'.property_list = i.property_list := by
  unfold start_entry at h
  split at h
  · split at h
    · cases h
    · rename_i ii ei _
      split at h
      · cases h
      · rename_i i hi
        split at h
        · cases h
        · cases h
          exact ⟨ii, i, _, hi, rfl, rfl, rfl, rfl⟩
  · cases h

/-- A property of messages that holds of every declared message, of every synthesized
message, and is kept when an arg is added, holds of every message after a start element
when it held before. -/
theorem start_element_messages (P : message → Prop)
    (hdecl : ∀ (junk : uninit) (name : String) (a : attributes),
      ¬(name = "destroy" ∧ a.type ≠ some "destructor") →
      P { name := name, uppercase_name := uppercase_dup name, arg_list := [],
          arg_count := 0, property := none, client_custom := a.client_custom,
          destructor := a.type = some "destructor",
          type_index := junk.type_index, all_null := junk.all_null })
    (hsyn : ∀ (junk : uninit) (p : property) (name t : String) (iname : Option String)
      (m : message), synthesize junk p ("set_" ++ name) t iname = .ok m ∨
        synthesize junk p (name ++ "_notify") t iname = .ok m → P m)
    (hadd : ∀ m x, P m → P (add_arg m x))
    {junk₁ junk₂ : uninit} {ctx ctx' : parse_context} {en : String}
    {atts : List (String × String)}
    (h : start_element junk₁ junk₂ ctx en atts = .ok ctx')
    (hp : ∀ m ∈ messages ctx.protocol, P m) : ∀ m ∈ messages ctx'.protocol, P m := by
  have hmsg : ∀ {c c' : parse_context} {a : attributes} {ev : Bool} {junk : uninit},
      start_message junk c a ev = .ok c' → c.protocol = ctx.protocol →
      ∀ m ∈ messages c'.protocol, P m := by
    intro c c' a ev junk h hc m hm
    unfold start_message at h
    cases hn : a.name with
    | none => simp [hn] at h
    | some name =>
      cases hcur : current_interface c with
      | error e => simp [hn, hcur] at h
      | ok r =>
        obtain ⟨ii, i⟩ := r
        obtain ⟨-, hii⟩ := current_interface_mem hcur
        simp only [hn, hcur] at h
        split at h
        · cases h
        · rename_i hd
          have hd' : ¬(name = "destroy" ∧ a.type ≠ some "destructor") := by
            intro hx
            apply hd
            simp [hx.1, hx.2]
          have hnew := hdecl junk name a hd'
          rw [hc] at hii
          split at h
          · cases h
            simp only [messages, set_interface, hc] at hm
            rcases mem_messages_of_set hm with hm | hm | hm
            · exact hp m hm
            · exact hp m (mem_messages_of_getElem? hii (Or.inl hm))
            · simp only [List.mem_append, List.mem_singleton] at hm
              rcases hm with hm | rfl
              · exact hp m (mem_messages_of_getElem? hii (Or.inr hm))
              · exact hnew
          · cases h
            simp only [messages, set_interface, hc] at hm
            rcases mem_messages_of_set hm with hm | hm | hm
            · exact hp m hm
            · simp only [List.mem_append, List.mem_singleton] at hm
              rcases hm with hm | rfl
              · exact hp m (mem_messages_of_getElem? hii (Or.inl hm))
              · exact hnew
            · exact hp m (mem_messages_of_getElem? hii (Or.inr hm))
  unfold start_element at h
  dsimp only at h
  split at h
  · split at h
    · cases h
    · cases h
      exact hp
  · split at h
    · cases h
      exact hp
    · split at h
      · unfold start_interface at h
        split at h
        · cases h
        · split at h
          · cases h
          · cases h
            intro m hm
            simp only [messages, messages_of, List.flatMap_append, List.mem_append,
              List.flatMap_singleton, List.append_nil, List.not_mem_nil, or_false] at hm
            exact hp m hm
      · split at h
        · exact hmsg h rfl
        · split at h
          · exact hmsg h rfl
          · split at h
            · obtain ⟨name, type, ii, i, -, -, -, hii, reqs, evs, hr, he, rfl⟩ :=
                start_property_inv h
              intro m hm
              simp only [messages, set_interface] at hm
              rcases mem_messages_of_set hm with hm | hm | hm
              · exact hp m hm
              · simp only [List.mem_append] at hm
                rcases hm with hm | hm
                · exact hp m (mem_messages_of_getElem? hii (Or.inl hm))
                · split at hr
                  · obtain ⟨s, hs, rfl⟩ := hr
                    simp only [List.mem_singleton] at hm
                    subst hm
                    exact hsyn _ _ _ _ _ _ (Or.inl hs)
                  · subst hr
                    simp at hm
              · simp only [List.mem_append] at hm
                rcases hm with hm | hm
                · exact hp m (mem_messages_of_getElem? hii (Or.inr hm))
                · split at he
                  · obtain ⟨s, hs, rfl⟩ := he
                    simp only [List.mem_singleton] at hm
                    subst hm
                    exact hsyn _ _ _ _ _ _ (Or.inr hs)
                  · subst he
                    simp at hm
            · split at h
              · obtain ⟨x, ii, ev, mi, i, m0, -, -, hi, hm0, rfl⟩ := start_arg_inv h
                intro m hm
                simp only [messages, set_interface] at hm
                rcases mem_messages_of_set hm with hm | hm
                · exact hp m hm
                · cases ev
                  · simp only [Bool.false_eq_true, if_false] at hm0 hm
                    rcases hm with hm | hm
                    · rcases mem_set_cases hm with rfl | hm
                      · exact hadd _ _ (hp m0 (mem_messages_of_getElem? hi
                          (Or.inl (mem_of_getElem? hm0))))
                      · exact hp m (mem_messages_of_getElem? hi (Or.inl hm))
                    · exact hp m (mem_messages_of_getElem? hi (Or.inr hm))
                  · simp only [if_true] at hm0 hm
                    rcases hm with hm | hm
                    · exact hp m (mem_messages_of_getElem? hi (Or.inl hm))
                    · rcases mem_set_cases hm with rfl | hm
                      · exact hadd _ _ (hp m0 (mem_messages_of_getElem? hi
                          (Or.inr (mem_of_getElem? hm0))))
                      · exact hp m (mem_messages_of_getElem? hi (Or.inr hm))
              · have same : ∀ {ii : Nat} {i i' : interface},
                    ctx.protocol.interface_list[ii]? = some i →
                    ctx'.protocol.interface_list = ctx.protocol.interface_list.set ii i' →
                    i'.request_list = i.request_list → i'.event_list = i.event_list →
                    ∀ m ∈ messages ctx'.protocol, P m := by
                  intro ii i i' hi hl hr he m hm
                  simp only [messages, hl] at hm
                  rcases mem_messages_of_set hm with hm | hm | hm
                  · exact hp m hm
                  · exact hp m (mem_messages_of_getElem? hi (Or.inl (hr ▸ hm)))
                  · exact hp m (mem_messages_of_getElem? hi (Or.inr (he ▸ hm)))
                split at h
                · obtain ⟨ii, i, i', hi, hl, hr, he, -⟩ := start_enum_lists h
                  exact same hi hl hr he
                · split at h
                  · obtain ⟨ii, i, i', hi, hl, hr, he, -⟩ := start_entry_lists h
                    exact same hi hl hr he
                  · cases h
                    exact hp

theorem handle_messages (P : message → Prop)
    (hdecl : ∀ (junk : uninit) (name : String) (a : attributes),
      ¬(name = "destroy" ∧ a.type ≠ some "destructor") →
      P { name := name, uppercase_name := uppercase_dup name, arg_list := [],
          arg_count := 0, property := none, client_custom := a.client_custom,
          destructor := a.type = some "destructor",
          type_index := junk.type_index, all_null := junk.all_null })
    (hsyn : ∀ (junk : uninit) (p : property) (name t : String) (iname : Option String)
      (m : message), synthesize junk p ("set_" ++ name) t iname = .ok m ∨
        synthesize junk p (name ++ "_notify") t iname = .ok m → P m)
    (hadd : ∀ m x, P m → P (add_arg m x))
    {ctx ctx' : parse_context} {e : xml_event × uninit × uninit}
    (h : handle ctx e = .ok ctx')
    (hp : ∀ m ∈ messages ctx.protocol, P m) : ∀ m ∈ messages ctx'.protocol, P m := by
  unfold handle at h
  split at h
  · exact start_element_messages P hdecl hsyn hadd h hp
  · cases h
    unfold end_element
    split
    · exact hp
    · exact hp
  · unfold character_data at h
    simp only at h
    split at h
    · cases h
    · split at h
      · cases h
      · cases h
        exact hp

/-- A property of messages that holds of every declared message, of every synthesized
message, and is kept when an arg is added, holds of every message of a built model. -/
theorem build_messages (P : message → Prop)
    (hdecl : ∀ (junk : uninit) (name : String) (a : attributes),
      ¬(name = "destroy" ∧ a.type ≠ some "destructor") →
      P { name := name, uppercase_name := uppercase_dup name, arg_list := [],
          arg_count := 0, property := none, client_custom := a.client_custom,
          destructor := a.type = some "destructor",
          type_index := junk.type_index, all_null := junk.all_null })
    (hsyn : ∀ (junk : uninit) (p : property) (name t : String) (iname : Option String)
      (m : message), synthesize junk p ("set_" ++ name) t iname = .ok m ∨
        synthesize junk p (name ++ "_notify") t iname = .ok m → P m)
    (hadd : ∀ m x, P m → P (add_arg m x))
    {sd : List Char} {sl : Int} {events : List (xml_event × uninit × uninit)}
    {ctx : parse_context} (h : build sd sl events = .ok ctx) :
    ∀ m ∈ messages ctx.protocol, P m := by
  have key : ∀ (events : List (xml_event × uninit × uninit)) (c c' : parse_context),
      feed c events = .ok c' → (∀ m ∈ messages c.protocol, P m) →
      ∀ m ∈ messages c'.protocol, P m := by
    intro events
    induction events with
    | nil =>
      intro c c' h hp
      simp only [feed] at h
      cases h
      exact hp
    | cons e rest ih =>
      intro c c' h hp
      simp only [feed] at h
      split at h
      · cases h
      · rename_i c1 hc
        exact ih c1 c' h (handle_messages P hdecl hsyn hadd hc hp)
  apply key events _ _ h
  intro m hm
  simp [messages, messages_of, init_context] at hm

theorem set_name_ne_destroy (name : String) : "set_" ++ name ≠ "destroy" := by
  intro h
  have := congrArg String.data h
  rw [String.data_append] at this
  exact absurd (List.head_eq_of_cons_eq this) (by decide)

theorem notify_name_ne_destroy (name : String) : name ++ "_notify" ≠ "destroy" := by
  intro h
  have hl := congrArg String.length h
  rw [String.length_append] at hl
  have h0 : name.length = 0 := by
    have e1 : "_notify".length = 7 := rfl
    have e2 : "destroy".length = 7 := rfl
    omega
  have hd : name.data = [] := List.length_eq_zero.mp h0
  have := congrArg String.data h
  rw [String.data_append, hd] at this
  exact absurd (List.head_eq_of_cons_eq this) (by decide)

/-- Every message of a built model that is named `destroy` has its destructor flag set,
and every message with a property has a synthesized name. -/
theorem build_destroy_flagged {sd : List Char} {sl : Int}
    {events : List (xml_event × uninit × uninit)} {ctx : parse_context}
    (h : build sd sl events = .ok ctx) :
    ∀ m ∈ messages ctx.protocol, (m.name = "destroy" → m.destructor = true) ∧
      (m.property ≠ none → ∃ p, m.name = "set_" ++ p ∨ m.name = p ++ "_notify") := by
  apply build_messages (fun m => (m.name = "destroy" → m.destructor = true) ∧
      (m.property ≠ none → ∃ p, m.name = "set_" ++ p ∨ m.name = p ++ "_notify")) _ _ _ h
  · intro junk name a hd
    refine ⟨?_, fun hx => absurd rfl hx⟩
    intro hn
    simp only at hn
    by_contra hc
    apply hd
    refine ⟨hn, ?_⟩
    intro ht
    apply hc
    simp [ht]
  · intro junk p name t iname m hm
    rcases hm with hm | hm
    · have hn := (synthesize_inv hm).1
      exact ⟨fun hx => absurd (hn ▸ hx) (set_name_ne_destroy name), fun _ => ⟨name, Or.inl hn⟩⟩
    · have hn := (synthesize_inv hm).1
      exact ⟨fun hx => absurd (hn ▸ hx) (notify_name_ne_destroy name),
        fun _ => ⟨name, Or.inr hn⟩⟩
  · intro m x hm
    exact hm

theorem mem_messages_of_interface {p : protocol} {i : interface} {m : message}
    (hi : i ∈ p.interface_list) (hm : m ∈ i.request_list ∨ m ∈ i.event_list) :
    m ∈ messages p := by
  simp only [messages, messages_of, List.mem_flatMap, List.mem_append]
  exact ⟨i, hi, hm⟩

theorem emit_stubs_ok {i : interface}
    (h : ∀ m ∈ i.request_list, m.name = "destroy" → m.destructor = true) :
    ∃ s, emit_stubs i.request_list i = .ok s := by
  unfold emit_stubs
  split
  · exact ⟨_, rfl⟩
  · dsimp only
    split
    · rename_i hc
      simp only [Bool.and_eq_true, Bool.not_eq_true', List.any_eq_true, decide_eq_true_eq,
        List.any_eq_false] at hc
      obtain ⟨hnd, m, hm, hn⟩ := hc
      exact absurd (h m hm hn) (hnd m hm)
    · split
      · exact ⟨_, rfl⟩
      · exact ⟨_, rfl⟩

/-! ## The failure branch of the stub emitter -/

/-- C23. For every interface of a built model, the failure branch of `emit_stubs` (the
exit with `interface ... has method named destroy but no destructor`) is not taken:
`emit_stubs` on the request list returns its text. Every request (and event) named
`destroy` has its destructor flag set, so a request list with a message named `destroy`
has a message with the destructor flag; a declared message named `destroy` without the
flag is rejected by the builder, and a synthesized message is named `set_<p>` or
`<p>_notify`, never `destroy`. -/
theorem stubs_failure_unreachable (sd : List Char) (sl : Int)
    (events : List (xml_event × uninit × uninit)) (ctx : parse_context)
    (h : build sd sl events = .ok ctx) :
    ∀ i ∈ ctx.protocol.interface_list,
      (∃ s, emit_stubs i.request_list i = .ok s) ∧
      (∀ out err, emit_stubs i.request_list i ≠ .error (stop.exit out err)) ∧
      ((∃ m ∈ i.request_list, m.name = "destroy") →
        ∃ m ∈ i.request_list, m.destructor = true) ∧
      (∀ m ∈ i.request_list ++ i.event_list,
        (m.name = "destroy" → m.destructor = true) ∧
        (m.property ≠ none → m.name ≠ "destroy" ∧
          ∃ p, m.name = "set_" ++ p ∨ m.name = p ++ "_notify")) := by
  intro i hi
  have hall := build_destroy_flagged h
  have hreq : ∀ m ∈ i.request_list, m.name = "destroy" → m.destructor = true :=
    fun m hm => (hall m (mem_messages_of_interface hi (Or.inl hm))).1
  obtain ⟨s, hs⟩ := emit_stubs_ok hreq
  refine ⟨⟨s, hs⟩, ?_, ?_, ?_⟩
  · intro out err he
    rw [hs] at he
    cases he
  · rintro ⟨m, hm, hn⟩
    exact ⟨m, hm, hreq m hm hn⟩
  · intro m hm
    have hx := hall m (mem_messages_of_interface hi (List.mem_append.mp hm))
    refine ⟨hx.1, fun hp => ⟨?_, hx.2 hp⟩⟩
    obtain ⟨p, hn | hn⟩ := hx.2 hp
    · rw [hn]
      exact set_name_ne_destroy p
    · rw [hn]
      exact notify_name_ne_destroy p

/-! ## The setter requests of the writable properties -/

theorem properties_ok_of_kept {i i' : interface} (hq : properties_ok i)
    (hp : i'.property_list = i.property_list)
    (hk : ∀ m ∈ i.request_list, ∃ m' ∈ i'.request_list, m'.property = m.property ∧
      m'.name = m.name ∧ m'.uppercase_name = m.uppercase_name) : properties_ok i' := by
  intro p hpm
  rw [hp] at hpm
  refine ⟨(hq p hpm).1, fun hw => ?_⟩
  obtain ⟨m, hm, h1, h2, h3⟩ := (hq p hpm).2 hw
  obtain ⟨m', hm', e1, e2, e3⟩ := hk m hm
  exact ⟨m', hm', e1.trans h1, e2.trans h2, e3.trans h3⟩

theorem kept_of_set {l : List message} {mi : Nat} {m0 : message} {x : arg}
    (h0 : l[mi]? = some m0) :
    ∀ m ∈ l, ∃ m' ∈ l.set mi (add_arg m0 x), m'.property = m.property ∧
      m'.name = m.name ∧ m'.uppercase_name = m.uppercase_name := by
  intro m hm
  obtain ⟨k, hk⟩ := List.mem_iff_getElem?.mp hm
  by_cases hkm : mi = k
  · subst hkm
    rw [h0] at hk
    cases hk
    refine ⟨add_arg m0 x, ?_, rfl, rfl, rfl⟩
    apply mem_of_getElem?
    exact List.getElem?_set_self (List.getElem?_eq_some_iff.mp h0).1
  · refine ⟨m, ?_, rfl, rfl, rfl⟩
    apply mem_of_getElem?
    rw [List.getElem?_set_ne hkm]
    exact hk

theorem start_message_lists {junk : uninit} {ctx ctx' : parse_context} {a : attributes}
    {ev : Bool} (h : start_message junk ctx a ev = .ok ctx') :
    ∃ ii i i', ctx.protocol.interface_list[ii]? = some i ∧
      ctx'.protocol.interface_list = ctx.protocol.interface_list.set ii i' ∧
      i'.property_list = i.property_list ∧ ∃ t, i'.request_list = i.request_list ++ t := by
  unfold start_message at h
  cases hn : a.name with
  | none => simp [hn] at h
  | some name =>
    cases hc : current_interface ctx with
    | error e => simp [hn, hc] at h
    | ok r =>
      obtain ⟨ii, i⟩ := r
      obtain ⟨-, hii⟩ := current_interface_mem hc
      simp only [hn, hc] at h
      split at h
      · cases h
      · split at h
        · cases h
          exact ⟨ii, i, _, hii, rfl, rfl, [], by simp⟩
        · cases h
          exact ⟨ii, i, _, hii, rfl, rfl, _, rfl⟩

theorem properties_ok_set {l : List interface} {ii : Nat} {i' : interface}
    (hall : ∀ x ∈ l, properties_ok x) (hi : properties_ok i') :
    ∀ x ∈ l.set ii i', properties_ok x := by
  intro x hx
  rcases mem_set_cases hx with rfl | hx
  · exact hi
  · exact hall x hx

theorem start_element_properties {junk₁ junk₂ : uninit} {ctx ctx' : parse_context}
    {en : String} {atts : List (String × String)}
    (h : start_element junk₁ junk₂ ctx en atts = .ok ctx')
    (hq : ∀ i ∈ ctx.protocol.interface_list, properties_ok i) :
    ∀ i ∈ ctx'.protocol.interface_list, properties_ok i := by
  have append_kept : ∀ {i i' : interface} {t : List message},
      i'.request_list = i.request_list ++ t →
      ∀ m ∈ i.request_list, ∃ m' ∈ i'.request_list, m'.property = m.property ∧
        m'.name = m.name ∧ m'.uppercase_name = m.uppercase_name := by
    intro i i' t ht m hm
    exact ⟨m, by rw [ht]; exact List.mem_append_left _ hm, rfl, rfl, rfl⟩
  have hmsg : ∀ {c c' : parse_context} {a : attributes} {ev : Bool} {junk : uninit},
      start_message junk c a ev = .ok c' → c.protocol = ctx.protocol →
      ∀ i ∈ c'.protocol.interface_list, properties_ok i := by
    intro c c' a ev junk h hc
    obtain ⟨ii, i, i', hi, hl, hp, t, ht⟩ := start_message_lists h
    rw [hl, hc]
    rw [hc] at hi
    exact properties_ok_set hq
      (properties_ok_of_kept (hq i (mem_of_getElem? hi)) hp (append_kept ht))
  have same : ∀ {ii : Nat} {i i' : interface},
      ctx.protocol.interface_list[ii]? = some i →
      ctx'.protocol.interface_list = ctx.protocol.interface_list.set ii i' →
      i'.request_list = i.request_list → i'.property_list = i.property_list →
      ∀ x ∈ ctx'.protocol.interface_list, properties_ok x := by
    intro ii i i' hi hl hr hp
    rw [hl]
    exact properties_ok_set hq
      (properties_ok_of_kept (hq i (mem_of_getElem? hi)) hp
        (append_kept (by rw [hr, List.append_nil])))
  unfold start_element at h
  dsimp only at h
  split at h
  · split at h
    · cases h
    · cases h
      exact hq
  · split at h
    · cases h
      exact hq
    · split at h
      · unfold start_interface at h
        split at h
        · cases h
        · split at h
          · cases h
          · cases h
            intro i hi
            simp only [List.mem_append, List.mem_singleton] at hi
            rcases hi with hi | rfl
            · exact hq i hi
            · intro p hp
              simp at hp
      · split at h
        · exact hmsg h rfl
        · split at h
          · exact hmsg h rfl
          · split at h
            · obtain ⟨name, type, ii, i, -, -, -, hii, reqs, evs, hr, -, rfl⟩ :=
                start_property_inv h
              apply properties_ok_set hq
              have hqi := hq i (mem_of_getElem? hii)
              intro p hp
              simp only [List.mem_append, List.mem_singleton] at hp
              rcases hp with hp | rfl
              · refine ⟨(hqi p hp).1, fun hw => ?_⟩
                obtain ⟨m, hm, hx⟩ := (hqi p hp).2 hw
                exact ⟨m, List.mem_append_left _ hm, hx⟩
              · refine ⟨rfl, fun hw => ?_⟩
                have hw' : (parse_attributes atts).writable = true := hw
                rw [if_pos hw'] at hr
                obtain ⟨m, hs, rfl⟩ := hr
                have hinv := synthesize_inv hs
                exact ⟨m, by simp, hinv.2.2.1, hinv.1, hinv.2.1⟩
            · split at h
              · obtain ⟨x, ii, ev, mi, i, m0, -, -, hi, hm0, rfl⟩ := start_arg_inv h
                apply properties_ok_set hq
                apply properties_ok_of_kept (hq i (mem_of_getElem? hi))
                · cases ev <;> rfl
                · cases ev
                  · simp only [Bool.false_eq_true, if_false] at hm0 ⊢
                    exact kept_of_set hm0
                  · simp only [if_true]
                    intro m hm
                    exact ⟨m, hm, rfl, rfl, rfl⟩
              · split at h
                · obtain ⟨ii, i, i', hi, hl, hr, -, hp⟩ := start_enum_lists h
                  exact same hi hl hr hp
                · split at h
                  · obtain ⟨ii, i, i', hi, hl, hr, -, hp⟩ := start_entry_lists h
                    exact same hi hl hr hp
                  · cases h
                    exact hq

theorem build_properties {sd : List Char} {sl : Int}
    {events : List (xml_event × uninit × uninit)} {ctx : parse_context}
    (h : build sd sl events = .ok ctx) :
    ∀ i ∈ ctx.protocol.interface_list, properties_ok i := by
  have key : ∀ (events : List (xml_event × uninit × uninit)) (c c' : parse_context),
      feed c events = .ok c' → (∀ i ∈ c.protocol.interface_list, properties_ok i) →
      ∀ i ∈ c'.protocol.interface_list, properties_ok i := by
    intro events
    induction events with
    | nil =>
      intro c c' h hp
      simp only [feed] at h
      cases h
      exact hp
    | cons e rest ih =>
      intro c c' h hp
      simp only [feed] at h
      split at h
      · cases h
      · rename_i c1 hc
        apply ih c1 c' h
        unfold handle at hc
        split at hc
        · exact start_element_properties hc hp
        · cases hc
          unfold end_element
          split
          · exact hp
          · exact hp
        · unfold character_data at hc
          simp only at hc
          split at hc
          · cases hc
          · split at hc
            · cases hc
            · cases hc
              exact hp
  apply key events _ _ h
  intro i hi
  simp [init_context] at hi

theorem uppercase_dup_append (a b : String) :
    uppercase_dup (a ++ b) = uppercase_dup a ++ uppercase_dup b := by
  apply String.ext
  simp [uppercase_dup, String.data_append]

theorem toUpper_letter (c : Char) (h : 97 ≤ c.toNat ∧ c.toNat ≤ 122) :
    c.toUpper.toNat = c.toNat - 32 := by
  unfold Char.toUpper
  simp only [ge_iff_le, h, and_self, if_true]
  have hv : (c.toNat - 32).isValidChar := by
    left
    omega
  simp only [Char.ofNat, dif_pos hv]
  rfl

theorem toUpper_other (c : Char) (h : ¬(97 ≤ c.toNat ∧ c.toNat ≤ 122)) :
    c.toUpper = c := by
  unfold Char.toUpper
  simp only [ge_iff_le]
  rw [if_neg h]

theorem emit_opcodes_loop_append (i : interface) (l₁ l₂ : List message) (n : Nat) :
    emit_opcodes_loop i (l₁ ++ l₂) n =
      emit_opcodes_loop i l₁ n ++ emit_opcodes_loop i l₂ (n + l₁.length) := by
  induction l₁ generalizing n with
  | nil => simp [emit_opcodes_loop]
  | cons m rest ih =>
    rw [List.cons_append, emit_opcodes_loop, emit_opcodes_loop, ih, List.length_cons,
      show n + 1 + rest.length = n + (rest.length + 1) by omega]
    simp only [String.append_assoc]

/-- C25. The upper-case copy of `set_<p>` is `SET_` followed by the upper-case copy of
`p`; `uppercase_dup` keeps the length, maps each of `a`..`z` to the letter 32 code points
lower (`A`..`Z`) and leaves every other character as it is. In a built model every
writable property `p` of an interface `i` has its synthesized request `set_<p>` in the
request list of `i`, at some position `k`; the line that `emit_opcodes` prints for it
defines `<UPPER(i)>_SET_<UPPER(p)>` as `k`, and the setter that `emit_property_get_set`
prints passes that same constant to `wl_proxy_marshal`. -/
theorem setter_opcode_constant (sd : List Char) (sl : Int)
    (events : List (xml_event × uninit × uninit)) (ctx : parse_context)
    (h : build sd sl events = .ok ctx) :
    (∀ p : String, uppercase_dup ("set_" ++ p) = "SET_" ++ uppercase_dup p) ∧
    (∀ s : String, (uppercase_dup s).length = s.length ∧
      ∀ (k : Nat) (c : Char), s.data[k]? = some c →
        (uppercase_dup s).data[k]? = some c.toUpper ∧
        (97 ≤ c.toNat ∧ c.toNat ≤ 122 → c.toUpper.toNat = c.toNat - 32) ∧
        (¬(97 ≤ c.toNat ∧ c.toNat ≤ 122) → c.toUpper = c)) ∧
    uppercase_dup "abcdefghijklmnopqrstuvwxyz" = "ABCDEFGHIJKLMNOPQRSTUVWXYZ" ∧
    (∀ i ∈ ctx.protocol.interface_list, ∀ p ∈ i.property_list, p.writable = true →
      ∃ (m : message) (k : Nat) (pre post before after : String),
        i.request_list[k]? = some m ∧ m.property = some p ∧ m.name = "set_" ++ p.name ∧
        emit_opcodes i.request_list i =
          pre ++ ("#define " ++ (i.uppercase_name ++ "_SET_" ++ p.uppercase_name) ++ "\t" ++
            toString k ++ "\n") ++ post ∧
        emit_property_get_set_property i p =
          before ++ ("\twl_proxy_marshal((struct wl_proxy*) " ++ i.name ++ ",\n" ++
            "\t\t\t " ++ (i.uppercase_name ++ "_SET_" ++ p.uppercase_name) ++ ", ") ++
            after) := by
  have hset : ∀ p : String, uppercase_dup ("set_" ++ p) = "SET_" ++ uppercase_dup p := by
    intro p
    rw [uppercase_dup_append]
    rfl
  refine ⟨hset, ?_, by decide, ?_⟩
  · intro s
    refine ⟨by unfold uppercase_dup; simp only [String.length, List.length_map], ?_⟩
    intro k c hk
    refine ⟨?_, toUpper_letter c, toUpper_other c⟩
    unfold uppercase_dup
    simp only [List.getElem?_map, hk, Option.map_some']
  · intro i hi p hp hw
    obtain ⟨hup, hs⟩ := build_properties h i hi p hp
    obtain ⟨m, hm, h1, h2, h3⟩ := hs hw
    obtain ⟨l₁, l₂, hl⟩ := List.append_of_mem hm
    have hk : i.request_list[l₁.length]? = some m := by
      rw [hl, List.getElem?_append_right (Nat.le_refl _), Nat.sub_self]
      exact List.getElem?_cons_zero
    have hne : i.request_list.isEmpty = false := by
      rw [hl]
      cases l₁ <;> rfl
    have hname : i.uppercase_name ++ "_" ++ m.uppercase_name =
        i.uppercase_name ++ "_SET_" ++ p.uppercase_name := by
      rw [h3, hset, hup, String.append_assoc, String.append_assoc, ← String.append_assoc "_"]
      rfl
    refine ⟨m, l₁.length, emit_opcodes_loop i l₁ 0,
      emit_opcodes_loop i l₂ (l₁.length + 1) ++ "\n",
      "WL_EXPORT " ++ emit_simple_type p.type true ++ "\n" ++
        i.name ++ "_get_" ++ p.name ++ "(struct " ++ i.name ++ "* " ++ i.name ++ ")\n" ++
        "\x7b\n" ++ "\treturn " ++ i.name ++ "->" ++ p.name ++ ";\n" ++ "\x7d\n\n" ++
        "WL_EXPORT void\n" ++
        i.name ++ "_set_" ++ p.name ++ "(struct " ++ i.name ++ "* " ++ i.name ++ ", " ++
        emit_simple_type p.type true ++ "value)\n" ++ "\x7b\n",
      (if p.type = arg_type.FLAGS then "value, value ^ " ++ i.name ++ "->" ++ p.name
        else "value") ++ ");\n\n" ++
        (if p.type = arg_type.STRING then
          "\tfree(" ++ i.name ++ "->" ++ p.name ++ ");\n" ++
          "\t" ++ i.name ++ "->" ++ p.name ++ " = strdup(value);\n"
         else "\t" ++ i.name ++ "->" ++ p.name ++ " = value;\n") ++ "\x7d\n\n",
      hk, h1, h2, ?_, ?_⟩
    · unfold emit_opcodes
      rw [hne]
      simp only [Bool.false_eq_true, if_false]
      rw [hl, emit_opcodes_loop_append, emit_opcodes_loop, Nat.zero_add]
      have hn : ∀ t, i.uppercase_name ++ ("_" ++ (m.uppercase_name ++ t)) =
          i.uppercase_name ++ ("_SET_" ++ (p.uppercase_name ++ t)) := by
        intro t
        have := congrArg (fun x => x ++ t) hname
        simpa only [String.append_assoc] using this
      simp only [String.append_assoc]
      rw [hn]
    · unfold emit_property_get_set_property
      rw [hw]
      simp only [Bool.not_true, Bool.false_eq_true, if_false, String.append_assoc]

/-! ## The names of the destructor and of the constructor -/

theorem emit_stubs_text {i : interface} (hc : i.client_custom = false)
    (h : ∀ m ∈ i.request_list, m.name = "destroy" → m.destructor = true) :
    ∃ stubs, emit_stubs i.request_list i =
      .ok (emit_stubs_user_data i ++
        ("void " ++
          (if i.request_list.any (fun m => m.destructor) then "_" ++ i.name ++ "_proxy_destroy"
            else i.name ++ "_destroy") ++
          "(struct " ++ i.name ++ " *" ++ i.name ++ ");\n\n") ++ stubs) := by
  have e1 : ∀ t, "_destroy(struct " ++ t = "_destroy" ++ ("(struct " ++ t) :=
    fun t => by rw [← String.append_assoc]; rfl
  have e2 : ∀ t, "_proxy_destroy(struct " ++ t = "_proxy_destroy" ++ ("(struct " ++ t) :=
    fun t => by rw [← String.append_assoc]; rfl
  have e3 : ∀ t, "void _" ++ t = "void " ++ ("_" ++ t) :=
    fun t => by rw [← String.append_assoc]; rfl
  have hno : (!(i.request_list.any fun m => m.destructor) &&
      i.request_list.any fun m => decide (m.name = "destroy")) = false := by
    cases hd : i.request_list.any fun m => m.destructor
    · simp only [Bool.not_false, Bool.true_and, List.any_eq_false, decide_eq_true_eq]
      intro m hm hn
      have := h m hm hn
      rw [List.any_eq_false] at hd
      exact hd m hm this
    · rfl
  unfold emit_stubs
  rw [hc]
  simp only [Bool.false_eq_true, if_false, hno]
  cases hd : i.request_list.any fun m => m.destructor
  · simp only [Bool.not_false, if_true, Bool.false_eq_true, if_false]
    split
    · refine ⟨"", ?_⟩
      simp only [String.append_assoc, e1, String.append_empty]
    · refine ⟨String.join (i.request_list.map (emit_stubs_message i)), ?_⟩
      simp only [String.append_assoc, e1]
  · simp only [Bool.not_true, Bool.false_eq_true, if_false, if_true]
    split
    · refine ⟨"", ?_⟩
      simp only [String.append_assoc, e2, e3, String.append_empty]
    · refine ⟨String.join (i.request_list.map (emit_stubs_message i)), ?_⟩
      simp only [String.append_assoc, e2, e3]

/-- On one and the same built model, for every interface that is not flagged `custom`,
`emit_stubs` declares and `emit_destructor` defines the destructor
`_<iface>_proxy_destroy` when some request has its destructor flag set and
`<iface>_destroy` otherwise, and the constructor loop of `emit_header` declares and
`emit_constructor` defines `<iface>_bind` for a global interface and
`_<iface>_proxy_create` otherwise. -/
theorem names_agree_within_model (sd : List Char) (sl : Int)
    (events : List (xml_event × uninit × uninit)) (ctx : parse_context)
    (h : build sd sl events = .ok ctx) :
    ∀ i ∈ ctx.protocol.interface_list, i.client_custom = false →
      (∃ n stubs body,
        ((∃ m ∈ i.request_list, m.destructor = true) ∧
            n = "_" ++ i.name ++ "_proxy_destroy" ∨
          (∀ m ∈ i.request_list, m.destructor = false) ∧ n = i.name ++ "_destroy") ∧
        emit_stubs i.request_list i =
          .ok (emit_stubs_user_data i ++
            ("void " ++ n ++ "(struct " ++ i.name ++ " *" ++ i.name ++ ");\n\n") ++ stubs) ∧
        emit_destructor i =
          "WL_EXPORT void\n" ++ n ++ "(struct " ++ i.name ++ "* " ++ i.name ++ ")\n" ++
            body) ∧
      (∃ n body,
        (i.client_global = true ∧ n = i.name ++ "_bind" ∨
          i.client_global = false ∧ n = "_" ++ i.name ++ "_proxy_create") ∧
        (∀ s, emit_header_constructor i = .ok s →
          ∃ params, s = "struct " ++ i.name ++ " *" ++ n ++
            "(struct wl_display *display" ++ params) ∧
        (i.client_global = false ∨ (2 * i.name.length + 15) / 8 ≤ 12 →
          ∃ s, emit_header_constructor i = .ok s) ∧
        emit_constructor i =
          "WL_EXPORT struct " ++ i.name ++ " *\n" ++ n ++ "(struct wl_display *display" ++
            body) := by
  intro i hi hc
  have hall := build_destroy_flagged h
  have hreq : ∀ m ∈ i.request_list, m.name = "destroy" → m.destructor = true :=
    fun m hm => (hall m (mem_messages_of_interface hi (Or.inl hm))).1
  obtain ⟨stubs, hs⟩ := emit_stubs_text hc hreq
  constructor
  · refine ⟨_, stubs, "\x7b\n" ++ emit_destructor_properties i i.property_list ++
      "\twl_proxy_destroy(" ++ "(struct wl_proxy *) " ++ i.name ++ ");\n" ++ "\x7d\n\n",
      ?_, hs, ?_⟩
    · cases hd : i.request_list.any fun m => m.destructor
      · right
        refine ⟨?_, by simp⟩
        intro m hm
        rw [List.any_eq_false] at hd
        simpa using hd m hm
      · left
        refine ⟨?_, by simp⟩
        rw [List.any_eq_true] at hd
        exact hd
    · unfold emit_destructor
      rw [has_destructor_eq_any]
      simp only [String.append_assoc]
  · have e4 : ∀ t, "_bind(struct wl_display *display,\n" ++ t =
        "_bind" ++ ("(struct wl_display *display" ++ (",\n" ++ t)) :=
      fun t => by rw [← String.append_assoc, ← String.append_assoc]; rfl
    have e5 : ∀ t, "_bind(struct wl_display *display, uint32_t name)\n" ++ t =
        "_bind" ++ ("(struct wl_display *display" ++ (", uint32_t name)\n" ++ t)) :=
      fun t => by rw [← String.append_assoc, ← String.append_assoc]; rfl
    have e6 : ∀ t, "_proxy_create(struct wl_display *display);\n" ++ t =
        "_proxy_create" ++ ("(struct wl_display *display" ++ (");\n" ++ t)) :=
      fun t => by rw [← String.append_assoc, ← String.append_assoc]; rfl
    have e7 : ∀ t, "_proxy_create(struct wl_display *display)\n" ++ t =
        "_proxy_create" ++ ("(struct wl_display *display" ++ (")\n" ++ t)) :=
      fun t => by rw [← String.append_assoc, ← String.append_assoc]; rfl
    have e8 : ∀ t, " *_" ++ t = " *" ++ ("_" ++ t) :=
      fun t => by rw [← String.append_assoc]; rfl
    cases hg : i.client_global
    · refine ⟨"_" ++ i.name ++ "_proxy_create", ")\n" ++ ("\x7b\n" ++
        "\tstruct " ++ i.name ++ " *proxy;\n" ++
        "\tproxy = (struct " ++ i.name ++ "*) wl_proxy_create(display, &" ++
          i.name ++ "_interface, sizeof(struct " ++ i.name ++ "));\n") ++
        (if !i.property_list.isEmpty then
          "\t" ++ i.name ++ "_add_listener(proxy, &" ++ i.name ++
            "_property_listener, NULL);\n"
         else "") ++ "\treturn proxy;\n" ++ "\x7d\n\n", Or.inr ⟨rfl, rfl⟩, ?_, ?_, ?_⟩
      · intro s hs
        unfold emit_header_constructor at hs
        rw [hg] at hs
        simp only [Bool.false_eq_true, if_false] at hs
        cases hs
        refine ⟨");\n", ?_⟩
        have := e6 ""
        simp only [String.append_empty] at this
        simp only [String.append_assoc, e8, this]
      · intro _
        unfold emit_header_constructor
        rw [hg]
        exact ⟨_, rfl⟩
      · unfold emit_constructor
        rw [hg]
        simp only [Bool.false_eq_true, if_false, String.append_assoc, e7]
    · refine ⟨i.name ++ "_bind", ", uint32_t name)\n" ++ ("\x7b\n" ++
        "\tstruct " ++ i.name ++ " *proxy;\n" ++
        "\tproxy = (struct " ++ i.name ++ "*) wl_display_bind(display, name, &" ++
          i.name ++ "_interface, sizeof(struct " ++ i.name ++ "));\n") ++
        (if !i.property_list.isEmpty then
          "\t" ++ i.name ++ "_add_listener(proxy, &" ++ i.name ++
            "_property_listener, NULL);\n"
         else "") ++ "\treturn proxy;\n" ++ "\x7d\n\n", Or.inl ⟨rfl, rfl⟩, ?_, ?_, ?_⟩
      · intro s hs
        unfold emit_header_constructor at hs
        rw [hg] at hs
        simp only [if_true] at hs
        cases hind : indent (2 * i.name.length + "struct  *_bind(".length) with
        | error e => simp [hind] at hs
        | ok ind =>
          simp only [hind] at hs
          cases hs
          refine ⟨",\n" ++ ind ++ "uint32_t name);\n", ?_⟩
          simp only [String.append_assoc, e4]
      · intro hn
        rcases hn with hn | hn
        · cases hn
        · unfold emit_header_constructor
          rw [hg]
          have hlen : "struct  *_bind(".length = 15 := rfl
          simp only [if_true, indent, hlen, if_pos hn]
          exact ⟨_, rfl⟩
      · unfold emit_constructor
        rw [hg]
        simp only [if_true, String.append_assoc, e5]

/-- C26 fails on the code. The client header and the client code are written by two runs
of the program, each with its own parse. For the document of
`writable_property_document`, whose interface `bar` has only the synthesized request
`set_foo`, the destructor flag of that request is storage that the property branch never
assigns: the header run with zeroed storage declares `bar_destroy` and no
`_bar_proxy_destroy`, and the client-code run with other storage defines
`_bar_proxy_destroy` and no `bar_destroy`. The constructor name is the same in both runs,
`_bar_proxy_create`. -/
theorem header_and_code_names_differ :
    (writable_property_document zero_junk).map Prod.fst =
      (writable_property_document example_junk).map Prod.fst ∧
    (main ["scanner", "client-header"] [] 0 (writable_property_document zero_junk)).map
      (fun o => (o.status, occurs_in "void bar_destroy(struct bar *bar);\n" o.stdout,
        occurs_in "_bar_proxy_destroy" o.stdout,
        occurs_in "struct bar *_bar_proxy_create(struct wl_display *display);\n" o.stdout)) =
      some (0, true, false, true) ∧
    (main ["scanner", "client-code"] [] 0 (writable_property_document example_junk)).map
      (fun o => (o.status,
        occurs_in "WL_EXPORT void\n_bar_proxy_destroy(struct bar* bar)\n" o.stdout,
        occurs_in "bar_destroy(" o.stdout,
        occurs_in "WL_EXPORT struct bar *\n_bar_proxy_create(struct wl_display *display)\n"
          o.stdout)) =
      some (0, true, false, true) := by
  refine ⟨rfl, by decide!, by decide!⟩

/-! ## The character data buffer -/

theorem feed_append (c : parse_context) (a b : List (xml_event × uninit × uninit)) :
    feed c (a ++ b) = (feed c a).bind fun c' => feed c' b := by
  induction a generalizing c with
  | nil => rfl
  | cons e rest ih =>
    simp only [List.cons_append, feed]
    cases handle c e with
    | error err => rfl
    | ok c1 => exact ih c1

theorem start_message_buffer {junk : uninit} {ctx ctx' : parse_context} {a : attributes}
    {ev : Bool} (h : start_message junk ctx a ev = .ok ctx') :
    ctx'.character_data_length = ctx.character_data_length ∧
    ctx'.character_data = ctx.character_data := by
  unfold start_message at h
  cases hn : a.name with
  | none => simp [hn] at h
  | some name =>
    cases hc : current_interface ctx with
    | error e => simp [hn, hc] at h
    | ok r =>
      obtain ⟨ii, i⟩ := r
      simp only [hn, hc] at h
      split at h
      · cases h
      · split at h
        · cases h
          exact ⟨rfl, rfl⟩
        · cases h
          exact ⟨rfl, rfl⟩

theorem start_enum_buffer {ctx ctx' : parse_context} {a : attributes}
    (h : start_enum ctx a = .ok ctx') :
    ctx'.character_data_length = ctx.character_data_length ∧
    ctx'.character_data = ctx.character_data := by
  unfold start_enum at h
  cases hn : a.name with
  | none => simp [hn] at h
  | some name =>
    cases hc : current_interface ctx with
    | error e => simp [hn, hc] at h
    | ok r =>
      obtain ⟨ii, i⟩ := r
      simp only [hn, hc] at h
      cases h
      exact ⟨rfl, rfl⟩

theorem start_entry_buffer {ctx ctx' : parse_context} {a : attributes}
    (h : start_entry ctx a = .ok ctx') :
    ctx'.character_data_length = ctx.character_data_length ∧
    ctx'.character_data = ctx.character_data := by
  unfold start_entry at h
  split at h
  · split at h
    · cases h
    · split at h
      · cases h
      · split at h
        · cases h
        · cases h
          exact ⟨rfl, rfl⟩
  · cases h

/-- A successful start element leaves the accumulated length at 0 and does not write the
buffer. -/
theorem start_element_buffer {junk₁ junk₂ : uninit} {ctx ctx' : parse_context} {en : String}
    {atts : List (String × String)}
    (h : start_element junk₁ junk₂ ctx en atts = .ok ctx') :
    ctx'.character_data_length = 0 ∧ ctx'.character_data = ctx.character_data := by
  unfold start_element at h
  dsimp only at h
  split at h
  · split at h
    · cases h
    · cases h
      exact ⟨rfl, rfl⟩
  · split at h
    · cases h
      exact ⟨rfl, rfl⟩
    · split at h
      · unfold start_interface at h
        split at h
        · cases h
        · split at h
          · cases h
          · cases h
            exact ⟨rfl, rfl⟩
      · split at h
        · exact start_message_buffer h
        · split at h
          · exact start_message_buffer h
          · split at h
            · obtain ⟨name, type, ii, i, -, -, -, -, reqs, evs, -, -, rfl⟩ :=
                start_property_inv h
              exact ⟨rfl, rfl⟩
            · split at h
              · obtain ⟨x, ii, ev, mi, i, m0, -, -, -, -, rfl⟩ := start_arg_inv h
                exact ⟨rfl, rfl⟩
              · split at h
                · exact start_enum_buffer h
                · split at h
                  · exact start_entry_buffer h
                  · cases h
                    exact ⟨rfl, rfl⟩

/-- What `character_data` does when the accumulated length is not negative. -/
theorem character_data_spec (ctx : parse_context) (s : String)
    (h0 : 0 ≤ ctx.character_data_length) :
    (character_data ctx s = .error (error.fail "too much character data") ↔
      ctx.character_data_length + s.length > 8192) ∧
    (ctx.character_data_length + s.length ≤ 8192 →
      character_data ctx s = .ok { ctx with
        character_data := ctx.character_data.take ctx.character_data_length.toNat ++ s.data ++ ctx.character_data.drop (ctx.character_data_length.toNat + s.length)
        character_data_length := ctx.character_data_length + s.length }) := by
  have hs : (0 : Int) ≤ (s.length : Int) := Int.ofNat_nonneg _
  constructor
  · constructor
    · intro h
      unfold character_data at h
      dsimp only at h
      split at h
      · rename_i hc
        rcases hc with hc | hc
        · omega
        · exact hc
      · split at h
        · cases h
        · cases h
    · intro h
      unfold character_data
      dsimp only
      rw [if_pos (Or.inr h)]
  · intro h
    unfold character_data
    dsimp only
    rw [if_neg (by omega), if_neg (by omega)]

/-- A successful `character_data` leaves a length between 0 and 8192, whatever the length
was. -/
theorem character_data_bound {ctx ctx' : parse_context} {s : String}
    (h : character_data ctx s = .ok ctx') :
    0 ≤ ctx.character_data_length ∧ ctx.character_data_length + s.length ≤ 8192 ∧
    ctx'.character_data_length = ctx.character_data_length + s.length ∧
    ctx'.character_data =
      ctx.character_data.take ctx.character_data_length.toNat ++ s.data ++
        ctx.character_data.drop (ctx.character_data_length.toNat + s.length) ∧
    ctx'.protocol = ctx.protocol := by
  unfold character_data at h
  dsimp only at h
  split at h
  · cases h
  · rename_i hc
    split at h
    · cases h
    · rename_i hn
      cases h
      exact ⟨by omega, by omega, rfl, rfl, rfl⟩

theorem handle_bound {ctx ctx' : parse_context} {e : xml_event × uninit × uninit}
    (h : handle ctx e = .ok ctx')
    (hb : is_start e.1 = true ∨
      (0 ≤ ctx.character_data_length ∧ ctx.character_data_length ≤ 8192)) :
    0 ≤ ctx'.character_data_length ∧ ctx'.character_data_length ≤ 8192 := by
  unfold handle at h
  split at h
  · rw [(start_element_buffer h).1]
    omega
  · rename_i name he
    cases h
    rcases hb with hb | hb
    · rw [he] at hb
      cases hb
    · unfold end_element
      split
      · exact hb
      · exact hb
  · rename_i s he
    obtain ⟨h1, h2, h3, -⟩ := character_data_bound h
    rw [h3]
    have hs : (0 : Int) ≤ (s.length : Int) := Int.ofNat_nonneg _
    omega

theorem feed_bound {events : List (xml_event × uninit × uninit)} {ctx ctx' : parse_context}
    (h : feed ctx events = .ok ctx')
    (hb : 0 ≤ ctx.character_data_length ∧ ctx.character_data_length ≤ 8192) :
    0 ≤ ctx'.character_data_length ∧ ctx'.character_data_length ≤ 8192 := by
  induction events generalizing ctx with
  | nil =>
    simp only [feed] at h
    cases h
    exact hb
  | cons e rest ih =>
    simp only [feed] at h
    split at h
    · cases h
    · rename_i c hc
      exact ih h (handle_bound hc (Or.inr hb))

/-- After events that are not start elements, the first `character_data_length` bytes of
the buffer are the bytes that were there followed by the chunks of the text events. -/
theorem feed_chunks {events : List (xml_event × uninit × uninit)} {ctx ctx' : parse_context}
    (h : feed ctx events = .ok ctx') (hns : ∀ e ∈ events, is_start e.1 = false)
    (h0 : 0 ≤ ctx.character_data_length)
    (hl : ctx.character_data_length.toNat ≤ ctx.character_data.length) :
    ctx'.character_data_length = ctx.character_data_length + (chunks events).length ∧
    ctx'.character_data.take ctx'.character_data_length.toNat =
      ctx.character_data.take ctx.character_data_length.toNat ++ chunks events := by
  induction events generalizing ctx with
  | nil =>
    simp only [feed] at h
    cases h
    simp [chunks]
  | cons e rest ih =>
    have hrest : ∀ x ∈ rest, is_start x.1 = false :=
      fun x hx => hns x (List.mem_cons_of_mem _ hx)
    have he := hns e (List.mem_cons_self _ _)
    simp only [feed] at h
    cases hc : handle ctx e with
    | error err => simp [hc] at h
    | ok c =>
      simp only [hc] at h
      unfold handle at hc
      cases hev : e.1 with
      | start en atts => simp [hev, is_start] at he
      | finish name =>
        simp only [hev] at hc
        cases hc
        have hch : chunks (e :: rest) = chunks rest := by
          simp [chunks, hev]
        rw [hch]
        have := @ih (end_element ctx name) h hrest
          (by unfold end_element; split <;> exact h0)
          (by unfold end_element; split <;> exact hl)
        have e1 : (end_element ctx name).character_data_length = ctx.character_data_length := by
          unfold end_element; split <;> rfl
        have e2 : (end_element ctx name).character_data = ctx.character_data := by
          unfold end_element; split <;> rfl
        rw [e1, e2] at this
        exact this
      | text s =>
        simp only [hev] at hc
        obtain ⟨b1, b2, b3, b4, -⟩ := character_data_bound hc
        have hch : chunks (e :: rest) = s.data ++ chunks rest := by
          simp [chunks, hev]
        have hn : (ctx.character_data.take ctx.character_data_length.toNat).length =
            ctx.character_data_length.toNat := by
          rw [List.length_take]
          omega
        have hnat : c.character_data_length.toNat =
            ctx.character_data_length.toNat + s.length := by
          rw [b3]
          omega
        have hs : s.data.length = s.length := rfl
        have := @ih c h hrest (by rw [b3]; omega)
          (by rw [hnat, b4]; simp only [List.length_append, hn, hs]; omega)
        obtain ⟨t1, t2⟩ := this
        refine ⟨?_, ?_⟩
        · rw [t1, b3, hch]
          simp only [List.length_append, hs]
          push_cast
          omega
        rw [t2, hnat, b4, hch, ← List.append_assoc]
        congr 1
        rw [List.take_append_eq_append_take]
        have : (ctx.character_data.take ctx.character_data_length.toNat ++ s.data).length =
            ctx.character_data_length.toNat + s.length := by
          rw [List.length_append, hn, hs]
        rw [List.take_of_length_le (by omega), this, Nat.sub_self, List.take_zero,
          List.append_nil]

/-- C24, as stated, fails before the first start element. `main` does not initialise the
accumulated length: after a parse without events it is whatever the stack held, here -1,
which is not between 0 and 8192; and in the state that `main` sets up with the length -5,
`character_data` refuses a chunk of 2 bytes although -5 + 2 does not exceed 8192, because
the comparison with `sizeof` is unsigned. -/
theorem character_data_length_starts_indeterminate :
    (build [] (-1) []).map (fun ctx => ctx.character_data_length) = .ok (-1) ∧
    ¬ (0 ≤ (init_context [] (-1)).character_data_length) ∧
    character_data (init_context [] (-5)) "ab" =
      .error (error.fail "too much character data") ∧
    ¬ ((init_context [] (-5)).character_data_length + ("ab".length : Int) > 8192) := by
  refine ⟨rfl, by decide, rfl, by decide⟩

/-- C24, amended. When the accumulated length is not negative, `character_data` fails
with `too much character data` iff the length plus the length of the chunk exceeds 8192,
and otherwise writes the chunk at the offset of the length and adds its length. Every
successful start element leaves the length at 0. Hence after any sequence of events that
begins with a start element and does not fail the length is between 0 and 8192, the next
chunk is either refused or written between offset 0 and offset 8192, and after the events
that follow the most recent start element the length is the total length of their chunks
and a copyright end element captures exactly these chunks, one after the other. -/
theorem character_data_bounded :
    (∀ (ctx : parse_context) (s : String), 0 ≤ ctx.character_data_length →
      (character_data ctx s = .error (error.fail "too much character data") ↔
        ctx.character_data_length + s.length > 8192) ∧
      (ctx.character_data_length + s.length ≤ 8192 →
        character_data ctx s = .ok { ctx with
          character_data := ctx.character_data.take ctx.character_data_length.toNat ++ s.data ++ ctx.character_data.drop (ctx.character_data_length.toNat + s.length)
          character_data_length := ctx.character_data_length + s.length })) ∧
    (∀ (junk₁ junk₂ : uninit) (ctx ctx' : parse_context) (en : String)
      (atts : List (String × String)),
      start_element junk₁ junk₂ ctx en atts = .ok ctx' → ctx'.character_data_length = 0) ∧
    (∀ (sd : List Char) (sl : Int) (first : xml_event × uninit × uninit)
      (rest : List (xml_event × uninit × uninit)) (ctx : parse_context),
      is_start first.1 = true → build sd sl (first :: rest) = .ok ctx →
      0 ≤ ctx.character_data_length ∧ ctx.character_data_length ≤ 8192) ∧
    (∀ (sd : List Char) (sl : Int) (first : xml_event × uninit × uninit)
      (mid : List (xml_event × uninit × uninit)) (s : String) (ctx₁ : parse_context),
      is_start first.1 = true → build sd sl (first :: mid) = .ok ctx₁ →
      character_data ctx₁ s ≠ .error error.undefined ∧
      ∀ ctx₂, character_data ctx₁ s = .ok ctx₂ →
        0 ≤ ctx₁.character_data_length ∧ ctx₁.character_data_length + s.length ≤ 8192 ∧
        ctx₂.character_data_length = ctx₁.character_data_length + s.length) ∧
    (∀ (sd : List Char) (sl : Int) (pre : List (xml_event × uninit × uninit))
      (s : xml_event × uninit × uninit) (rest : List (xml_event × uninit × uninit))
      (ctx : parse_context), is_start s.1 = true → (∀ e ∈ rest, is_start e.1 = false) →
      build sd sl (pre ++ s :: rest) = .ok ctx →
      ctx.character_data_length = (chunks rest).length ∧
      ctx.character_data.take (chunks rest).length = chunks rest ∧
      (end_element ctx (WAYLAND_NS ++ "#copyright")).protocol.copyright =
        some (String.mk (chunks rest))) := by
  have hfirst : ∀ (c : parse_context) (first : xml_event × uninit × uninit)
      (rest : List (xml_event × uninit × uninit)) (ctx : parse_context),
      is_start first.1 = true → feed c (first :: rest) = .ok ctx →
      0 ≤ ctx.character_data_length ∧ ctx.character_data_length ≤ 8192 := by
    intro c first rest ctx hf h
    simp only [feed] at h
    split at h
    · cases h
    · rename_i c1 hc
      exact feed_bound h (handle_bound hc (Or.inl hf))
  refine ⟨character_data_spec, ?_, ?_, ?_, ?_⟩
  · intro junk₁ junk₂ ctx ctx' en atts h
    exact (start_element_buffer h).1
  · intro sd sl first rest ctx hf h
    exact hfirst _ first rest ctx hf h
  · intro sd sl first mid s ctx₁ hf h
    have hb := hfirst _ first mid ctx₁ hf h
    constructor
    · intro hu
      by_cases hle : ctx₁.character_data_length + s.length ≤ 8192
      · rw [(character_data_spec ctx₁ s hb.1).2 hle] at hu
        cases hu
      · rw [(character_data_spec ctx₁ s hb.1).1.mpr (by omega)] at hu
        cases hu
    · intro ctx₂ hc
      obtain ⟨b1, b2, b3, -⟩ := character_data_bound hc
      exact ⟨b1, b2, b3⟩
  · intro sd sl pre s rest ctx hs hns h
    unfold build at h
    rw [feed_append] at h
    cases hpre : feed (init_context sd sl) pre with
    | error e => simp [hpre, Except.bind] at h
    | ok c0 =>
      simp only [hpre, Except.bind, feed] at h
      cases hc : handle c0 s with
      | error e => simp [hc] at h
      | ok c1 =>
        simp only [hc] at h
        have hz : c1.character_data_length = 0 := by
          unfold handle at hc
          cases hev : s.1 with
          | start en atts =>
            simp only [hev] at hc
            exact (start_element_buffer hc).1
          | finish name => simp [hev, is_start] at hs
          | text t => simp [hev, is_start] at hs
        obtain ⟨t1, t2⟩ := feed_chunks h hns (by rw [hz]) (by rw [hz]; exact Nat.zero_le _)
        rw [hz] at t1 t2
        simp only [Int.zero_add, Int.toNat_zero, List.take_zero, List.nil_append] at t1 t2
        have hlen : ctx.character_data_length.toNat = (chunks rest).length := by
          rw [t1]
          rfl
        rw [hlen] at t2
        refine ⟨t1, t2, ?_⟩
        unfold end_element
        rw [if_pos rfl]
        simp only [hlen, t2]

/-! ## The declarations that the client code relies on -/

/-- C27 fails on the code. For an interface with a writable property and no event, the
client code calls `bar_add_listener`, defines a `struct bar_listener` and defines
`bar_get_foo` and `bar_set_foo`, and the client header of the same model contains none of
these names: `emit_structs` returns at the empty event list, before the listener struct,
`add_listener` and the accessor prototypes, for every interface. -/
theorem listener_symbols_missing_in_header :
    (main ["scanner", "client-code"] [] 0 (writable_property_document zero_junk)).map
      (fun o => (o.status, occurs_in "bar_add_listener(proxy" o.stdout,
        occurs_in "struct bar_listener" o.stdout, occurs_in "bar_get_foo(" o.stdout,
        occurs_in "bar_set_foo(" o.stdout)) = some (0, true, true, true, true) ∧
    (main ["scanner", "client-header"] [] 0 (writable_property_document zero_junk)).map
      (fun o => (o.status, occurs_in "bar_add_listener" o.stdout,
        occurs_in "bar_listener" o.stdout, occurs_in "bar_get_foo" o.stdout,
        occurs_in "bar_set_foo" o.stdout)) = some (0, false, false, false, false) ∧
    (∀ i : interface, emit_structs [] i false = .ok "") ∧
    (∀ i : interface, i.client_custom = false → i.event_list = [] →
      emit_header_interface false i =
        seq_emit (.ok (emit_enumerations i))
          (seq_emit (.ok "")
            (seq_emit (.ok (emit_opcodes i.request_list i)) (emit_stubs i.request_list i)))) := by
  refine ⟨by decide!, by decide!, fun _ => rfl, ?_⟩
  intro i _ he
  unfold emit_header_interface
  rw [he]
  rfl

/-! ## The copyright block -/

theorem format_copyright_loop_no_newline (copyright : List Char) (l : List Char)
    (h1 : '\n' ∉ l) (h2 : Char.ofNat 0 ∉ l) (i : Nat) (bol : Bool) (start : Nat) :
    format_copyright_loop copyright l i bol start = "" := by
  induction l generalizing i bol start with
  | nil => rfl
  | cons c rest ih =>
    have hc1 : c ≠ '\n' := fun h => h1 (h ▸ List.mem_cons_self _ _)
    have hc2 : c ≠ Char.ofNat 0 := fun h => h2 (h ▸ List.mem_cons_self _ _)
    have r1 : '\n' ∉ rest := fun h => h1 (List.mem_cons_of_mem _ h)
    have r2 : Char.ofNat 0 ∉ rest := fun h => h2 (List.mem_cons_of_mem _ h)
    unfold format_copyright_loop
    split
    · exact ih r1 r2 _ _ _
    · simp only [hc1, hc2, decide_False, Bool.or_self, Bool.false_eq_true, if_false]
      exact ih r1 r2 _ _ _

/-- C28 fails on the code. For the copyright text `Copyright X`, newline, `last` the
output has no `/*` (the opener is printed only for a line that ends at index 0) and the
line `last`, which no newline ends, is not printed; a text without a newline gives the
closing ` */` alone; a text that starts with a newline gets the opener on an empty first
line. In mode `code` the output for such a copyright element contains neither `/*` nor
`last`. -/
theorem copyright_block_malformed :
    format_copyright "Copyright X\nlast" = " * Copyright X\n */\n\n" ∧
    (∀ s : String, '\n' ∉ s.data → Char.ofNat 0 ∉ s.data →
      format_copyright s = " */\n\n") ∧
    format_copyright "\n  Copyright X\n  second line\n " =
      "/* \n * Copyright X\n * second line\n */\n\n" ∧
    (build [] 0 copyright_document).map (fun ctx => ctx.protocol.copyright) =
      .ok (some "Copyright X\nlast") ∧
    (main ["scanner", "code"] [] 0 copyright_document).map
      (fun o => (o.status, occurs_in "/*" o.stdout, occurs_in "last" o.stdout,
        occurs_in " * Copyright X\n */\n" o.stdout)) = some (0, false, false, true) := by
  refine ⟨rfl, ?_, rfl, rfl, by decide!⟩
  intro s h1 h2
  unfold format_copyright
  rw [format_copyright_loop_no_newline _ _ h1 h2]
  rfl

/-! ## The theorems at the example documents -/

theorem types_table_entries_witness :
    build [] 0 example_document = .ok (built example_document) ∧
    (emit_code_plan (built example_document).protocol).null_run =
      List.replicate (emit_code (built example_document).protocol).1.null_run_length
        "\tNULL,\n" :=
  ⟨rfl, (types_table_entries [] 0 example_document (built example_document) rfl).2.1⟩

theorem null_run_length_is_maximum_witness :
    (built example_document).protocol.null_run_length = 0 ∧
    (emit_code (built example_document).protocol).1.null_run_length = 2 :=
  ⟨rfl, ((null_run_length_is_maximum (built example_document).protocol rfl).2.2.2.2.2).trans
    (((null_run_length_is_maximum (built example_document).protocol rfl).1).trans rfl)⟩

theorem type_index_assignment_witness :
    build [] 0 example_document = .ok (built example_document) ∧
    ∀ m ∈ messages (emit_code (built example_document).protocol).1,
      m.arg_list = [] → m.type_index = 0 :=
  ⟨rfl, (type_index_assignment [] 0 example_document (built example_document) rfl).2.1⟩

theorem opcodes_are_positions_witness :
    build [] 0 example_document = .ok (built example_document) ∧
    first_interface example_document ∈ (built example_document).protocol.interface_list ∧
    emit_opcodes (first_interface example_document).request_list
        (first_interface example_document) =
      "#define BAR_DESTROY\t0\n#define BAR_ATTACH\t1\n#define BAR_SET_FOO\t2\n" ++
        "#define BAR_SET_MODE\t3\n\n" :=
  ⟨rfl, List.Mem.head _,
    ((opcodes_are_positions [] 0 example_document (built example_document) rfl
      (first_interface example_document) (List.Mem.head _)
      (first_interface example_document).request_list (Or.inl rfl)).2
        (by decide)).trans (by rfl)⟩

theorem signature_matches_args_witness :
    build [] 0 example_document = .ok (built example_document) ∧
    (∀ m ∈ messages (built example_document).protocol,
      (emit_messages_args m.arg_list).length = m.arg_list.length) :=
  ⟨rfl, fun m hm =>
    (signature_matches_args [] 0 example_document (built example_document) rfl m
      (Or.inl hm)).2.2.1⟩

theorem property_synthesis_appends_witness :
    bar_context.interface = some 0 ∧
    bar_context.protocol.interface_list[0]? = some bar_interface ∧
    start_element example_junk example_junk bar_context (WAYLAND_NS ++ "#property")
        [("name", "foo"), ("type", "string"), ("writable", "yes")] =
      .ok (bar_after (WAYLAND_NS ++ "#property")
        [("name", "foo"), ("type", "string"), ("writable", "yes")]) ∧
    ∃ i', (bar_after (WAYLAND_NS ++ "#property")
        [("name", "foo"), ("type", "string"), ("writable", "yes")]).protocol.interface_list[0]?
          = some i' ∧ i'.event_list = [] :=
  ⟨rfl, rfl, rfl, by
    obtain ⟨p, t, i', -, -, h3, -, -, -, -, -, h9⟩ :=
      property_synthesis_appends example_junk example_junk bar_context
        (bar_after (WAYLAND_NS ++ "#property")
          [("name", "foo"), ("type", "string"), ("writable", "yes")])
        [("name", "foo"), ("type", "string"), ("writable", "yes")] 0 bar_interface
        rfl rfl rfl
    exact ⟨i', h3, h9 (by decide)⟩⟩

theorem flags_property_two_args_witness :
    bar_context.interface = some 0 ∧
    bar_context.protocol.interface_list[0]? = some bar_interface ∧
    attribute_value [("name", "mode"), ("type", "flags"), ("writable", "yes")] "type" =
      some "flags" ∧
    start_element example_junk example_junk bar_context (WAYLAND_NS ++ "#property")
        [("name", "mode"), ("type", "flags"), ("writable", "yes")] =
      .ok (bar_after (WAYLAND_NS ++ "#property")
        [("name", "mode"), ("type", "flags"), ("writable", "yes")]) ∧
    ∃ i' m, (bar_after (WAYLAND_NS ++ "#property")
        [("name", "mode"), ("type", "flags"), ("writable", "yes")]).protocol.interface_list[0]?
          = some i' ∧ i'.request_list = [m] ∧ m.arg_count = 2 :=
  ⟨rfl, rfl, by decide, rfl, by
    obtain ⟨i', h1, h2, -⟩ :=
      flags_property_two_args example_junk example_junk bar_context
        (bar_after (WAYLAND_NS ++ "#property")
          [("name", "mode"), ("type", "flags"), ("writable", "yes")])
        [("name", "mode"), ("type", "flags"), ("writable", "yes")] 0 bar_interface
        rfl rfl (by decide) rfl
    obtain ⟨m, hm1, hm2, -⟩ := h2 (by decide)
    exact ⟨i', m, h1, hm1, hm2⟩⟩

theorem plain_property_one_arg_witness :
    bar_context.interface = some 0 ∧
    bar_context.protocol.interface_list[0]? = some bar_interface ∧
    attribute_value [("name", "foo"), ("type", "string"), ("writable", "yes")] "type" =
      some "string" ∧
    "string" ≠ "flags" ∧
    start_element example_junk example_junk bar_context (WAYLAND_NS ++ "#property")
        [("name", "foo"), ("type", "string"), ("writable", "yes")] =
      .ok (bar_after (WAYLAND_NS ++ "#property")
        [("name", "foo"), ("type", "string"), ("writable", "yes")]) ∧
    ∃ i' m a, (bar_after (WAYLAND_NS ++ "#property")
        [("name", "foo"), ("type", "string"), ("writable", "yes")]).protocol.interface_list[0]?
          = some i' ∧ i'.request_list = [m] ∧ m.arg_list = [a] ∧
        a.type = arg_type.STRING :=
  ⟨rfl, rfl, by decide, by decide, rfl, by
    obtain ⟨i', pr, h1, -, -, h4⟩ :=
      plain_property_one_arg example_junk example_junk bar_context
        (bar_after (WAYLAND_NS ++ "#property")
          [("name", "foo"), ("type", "string"), ("writable", "yes")])
        [("name", "foo"), ("type", "string"), ("writable", "yes")] 0 bar_interface "string"
        rfl rfl (by decide) (by decide) rfl
    obtain ⟨m, a, hl, -, -, ha, -, hty, -⟩ :=
      h4 bar_interface.request_list i'.request_list (Or.inl ⟨rfl, rfl, by decide⟩)
    exact ⟨i', m, a, h1, hl, ha, (hty (by decide)).1.trans (by decide)⟩⟩

theorem destroy_needs_destructor_witness :
    attribute_value [("name", "destroy")] "name" = some "destroy" ∧
    bar_context.interface = some 0 ∧
    bar_context.protocol.interface_list[0]? = some bar_interface ∧
    start_element example_junk example_junk bar_context (WAYLAND_NS ++ "#event")
        [("name", "destroy")] =
      .error (error.fail "destroy request should be destructor type") :=
  ⟨by decide, rfl, rfl,
    ((destroy_needs_destructor example_junk example_junk bar_context [("name", "destroy")]
      true "destroy" 0 bar_interface (by decide) rfl rfl).1 ⟨rfl, by decide⟩).1⟩

theorem version_is_nonzero_witness :
    build [] 0 example_document = .ok (built example_document) ∧
    ∀ i ∈ (built example_document).protocol.interface_list, i.version ≠ 0 :=
  ⟨rfl, version_is_nonzero [] 0 example_document (built example_document) rfl⟩

theorem opcodes_are_stable_witness :
    start_element example_junk example_junk bar_context (WAYLAND_NS ++ "#request")
        [("name", "attach")] =
      .ok (bar_after (WAYLAND_NS ++ "#request") [("name", "attach")]) ∧
    ∃ t, (bar_after (WAYLAND_NS ++ "#request")
        [("name", "attach")]).protocol.interface_list.map (fun i => i.name) =
      bar_context.protocol.interface_list.map (fun i => i.name) ++ t :=
  ⟨rfl, (opcodes_are_stable example_junk example_junk bar_context
    (bar_after (WAYLAND_NS ++ "#request") [("name", "attach")])
    (WAYLAND_NS ++ "#request") [("name", "attach")] rfl).1⟩

theorem forward_declaration_per_arg_witness :
    build [] 0 example_document = .ok (built example_document) ∧
    (emit_code_plan (built example_document).protocol).forward_declarations =
      (references_of (messages (built example_document).protocol)).map
        (fun a => forward_declaration (interface_name_text a)) :=
  ⟨rfl,
    (forward_declaration_per_arg [] 0 example_document (built example_document) rfl).2.1⟩

theorem custom_interface_rendering_witness :
    ({ bar_interface with client_custom := true } : interface).client_custom = true ∧
    emit_client_code_interface { bar_interface with client_custom := true } = "" :=
  ⟨rfl,
    (custom_interface_rendering { bar_interface with client_custom := true } rfl).2.2.2.2.1⟩

theorem arg_count_is_length_witness :
    build [] 0 example_document = .ok (built example_document) ∧
    (∀ m ∈ messages (built example_document).protocol, m.arg_count = m.arg_list.length) ∧
    (messages (built example_document).protocol).map (fun m => m.arg_count) =
      [0, 2, 1, 2, 2, 1] :=
  ⟨rfl, (arg_count_is_length [] 0 example_document (built example_document) rfl).1, rfl⟩

theorem stubs_failure_unreachable_witness :
    build [] 0 example_document = .ok (built example_document) ∧
    ∀ i ∈ (built example_document).protocol.interface_list,
      ∃ s, emit_stubs i.request_list i = .ok s :=
  ⟨rfl, fun i hi =>
    (stubs_failure_unreachable [] 0 example_document (built example_document) rfl i hi).1⟩

theorem setter_opcode_constant_witness :
    build [] 0 example_document = .ok (built example_document) ∧
    (∀ p : String, uppercase_dup ("set_" ++ p) = "SET_" ++ uppercase_dup p) ∧
    (first_interface example_document).property_list.map (fun p => (p.name, p.writable)) =
      [("foo", true), ("mode", true)] :=
  ⟨rfl, (setter_opcode_constant [] 0 example_document (built example_document) rfl).1, rfl⟩

end Scanner
